import Mathlib

/-!
# The asynchronous event batcher of `rlclientlib`

A shallow embedding of `rlclientlib/logger/async_batcher.h`
(`async_batcher<TEvent, TSerializer>`): `init`, `append`, `increment_counter`,
`fill_buffer`, `flush`, `run_iteration` and the destructor's drain, and of
`rlclientlib/utility/header_authorization.cc` (`init`, `get_http_headers`), followed
by the properties of the specification that were checked against them.

Conventions of the embedding.

* The batcher object is a record of its data members; every member function is a
  function from the record to the new record together with what the call did
  (the calls it made on its collaborators and the code it returned).
* `uint64_t` members are naturals, every arithmetic operation on them is reduced
  modulo `2 ^ 64` where the C++ operation wraps.
* `float` members are rationals: only their order is used by the batcher.
* The collaborators that the class is generic over, or that it reaches through an
  interface (the event's `try_drop`, the serializer, the transport, the error
  callback, the periodic background procedure), are parameters of the functions.
* A loop that need not terminate takes a bound on the number of times its body runs,
  the fuel, and reports when the bound was reached.
* One thread runs at a time: a member function is run from its first to its last
  statement on the state it is given.
-/

namespace reinforcement_learning

/-- The values of `error_code` that the batcher and the header authorization return
or pass on. `failure n` stands for any other code different from `success` that a
collaborator reports. -/
inductive error_code where
  | success
  | invalid_argument
  | http_api_key_not_provided
  | failure (code : Nat)
deriving DecidableEq, Repr

/-- The enum `events_counter_status`. -/
inductive events_counter_status where
  | DISABLE
  | ENABLE
deriving DecidableEq, Repr

/-- The enum `queue_mode_enum`. -/
inductive queue_mode_enum where
  | DROP
  | BLOCK
deriving DecidableEq, Repr

/-- The two tags of `constants::` that `try_drop` receives as its second argument. -/
inductive drop_pass where
  | SUBSAMPLE_RATE_DROP_PASS
  | QUEUE_EARLY_DROP_PASS
deriving DecidableEq, Repr

/-- The width of `uint64_t`. -/
def UINT64_MOD : Nat := 2 ^ 64

/-- Modelled from the spec: the event type `TEvent` (the event classes are not among
the sources). An event is the caller's content, which the batcher never reads, and
the `uint64_t` index that `set_event_index` writes and `get_event_index` reads. Its
virtual member `try_drop(pass_probability, pass_id)` is a parameter of the functions
that call it, a function of the event as the overrides of the unit tests are. -/
structure event (α : Type) where
  payload : α
  _event_index : Nat
deriving DecidableEq, Repr

/-- The member `event::set_event_index`. -/
def event.set_event_index {α : Type} (evt : event α) (index : Nat) : event α :=
  { evt with _event_index := index }

/-- The member `event::get_event_index`. -/
def event.get_event_index {α : Type} (evt : event α) : Nat :=
  evt._event_index

/-- Modelled from the spec: `event_queue<TEvent>` (`event_queue.h` is not among the
sources). An ordered sequence of events with their size estimates and the
configured capacity in events. -/
structure event_queue (α : Type) where
  _queue : List (event α × Nat)
  _max_capacity : Nat
deriving DecidableEq, Repr

namespace event_queue

variable {α : Type}

/-- Modelled from the spec: `push(evt, size_estimate)` appends at the back and
never fails on size. -/
def push (q : event_queue α) (evt : event α) (size_estimate : Nat) : event_queue α :=
  { q with _queue := q._queue ++ [(evt, size_estimate)] }

/-- Modelled from the spec: `pop()` removes the front event, and returns nothing
when the queue is empty. -/
def pop (q : event_queue α) : Option (event α × event_queue α) :=
  match q._queue with
  | [] => none
  | (evt, _) :: rest => some (evt, { q with _queue := rest })

/-- Modelled from the spec: `size()` is the current element count. -/
def size (q : event_queue α) : Nat :=
  q._queue.length

/-- Modelled from the spec: `is_full()` is true iff count ≥ configured capacity. -/
def is_full (q : event_queue α) : Bool :=
  decide (q._max_capacity ≤ q.size)

/-- Modelled from the spec: `prune(pass_prob)` scans in order and keeps only the
events whose `try_drop(pass_prob, QUEUE_EARLY_DROP_PASS)` returns false. -/
def prune (try_drop : event α → ℚ → drop_pass → Bool) (q : event_queue α)
    (pass_prob : ℚ) : event_queue α :=
  { q with
    _queue := q._queue.filter
      (fun p => !(try_drop p.1 pass_prob drop_pass.QUEUE_EARLY_DROP_PASS)) }

/-- The events of the queue from front to back. -/
def events (q : event_queue α) : List (event α) :=
  q._queue.map Prod.fst

end event_queue

/-- The fields of `utility::async_batcher_config` that the constructor copies into
the state of the model (the flush period and the content encoding have no effect on
it). -/
structure async_batcher_config where
  send_high_water_mark : Nat
  send_queue_max_capacity : Nat
  queue_mode : queue_mode_enum
  subsample_rate : ℚ
  event_counter_status : events_counter_status
deriving DecidableEq, Repr

/-- The data members of `async_batcher` that carry state. -/
structure async_batcher (α : Type) where
  _queue : event_queue α
  _send_high_water_mark : Nat
  _pass_prob : ℚ
  _queue_mode : queue_mode_enum
  _subsample_rate : ℚ
  _events_counter_status : events_counter_status
  _event_index : Nat
  _buffer_end_event_number : Nat
deriving DecidableEq, Repr

/-- The constructor `async_batcher::async_batcher`: the queue is empty with the
configured capacity, `_pass_prob` is 0.5 and both counters start at 0. -/
def async_batcher.create (α : Type) (config : async_batcher_config) : async_batcher α :=
  { _queue := { _queue := [], _max_capacity := config.send_queue_max_capacity }
    _send_high_water_mark := config.send_high_water_mark
    _pass_prob := 1 / 2
    _queue_mode := config.queue_mode
    _subsample_rate := config.subsample_rate
    _events_counter_status := config.event_counter_status
    _event_index := 0
    _buffer_end_event_number := 0 }

/-- Modelled from the spec: the float comparison `VW::math::are_same` (`vw_math.h`, a
header of the VW library, is not among the sources), the equality "with
float-equality tolerance" of scenario S5: two values are the same when they differ by
less than the tolerance. The tolerance is a parameter. -/
def are_same (tolerance : ℚ) (lhs rhs : ℚ) : Bool :=
  decide (|lhs - rhs| < tolerance)

/-- The default tolerance of `VW::math::are_same` in the VW library, `1e-4`. -/
def DEFAULT_FLOAT_TOLERANCE : ℚ := 1 / 10000

/-- The method `async_batcher::init`. `background` is what
`_periodic_background_proc.init(this, status)` returns. -/
def async_batcher.init {α : Type} (tolerance : ℚ) (background : error_code)
    (s : async_batcher α) : error_code :=
  if background ≠ error_code.success then background
  else
    let subsample_lte_zero :=
      decide (s._subsample_rate < 0) || are_same tolerance s._subsample_rate 0
    let subsample_gt_one :=
      decide (s._subsample_rate > 1) && !(are_same tolerance s._subsample_rate 1)
    if subsample_lte_zero || subsample_gt_one then error_code.invalid_argument
    else error_code.success

/-- The method `async_batcher::increment_counter`: `++_event_index` on the atomic
`uint64_t`, in counter mode ENABLE only. -/
def async_batcher.increment_counter {α : Type} (s : async_batcher α) : async_batcher α :=
  if s._events_counter_status = events_counter_status.ENABLE then
    { s with _event_index := (s._event_index + 1) % UINT64_MOD }
  else s

/-- What one call of `append` does besides changing the state: the calls it makes,
in the order it makes them. -/
inductive append_action (α : Type) where
  | try_drop (rate : ℚ) (pass : drop_pass) (dropped : Bool)
  | set_event_index (index : Nat)
  | push (evt : event α) (size_estimate : Nat)
  | wait
  | prune (pass_prob : ℚ)
deriving DecidableEq, Repr

/-- The outcome of one call of `append`. -/
structure append_result (α : Type) where
  state : async_batcher α
  actions : List (append_action α)
  code : error_code
deriving DecidableEq, Repr

/-- Line 112 of `append`: in counter mode ENABLE the event receives the current
`_event_index`. -/
def async_batcher.indexed {α : Type} (s : async_batcher α) (evt : event α) : event α :=
  if s._events_counter_status = events_counter_status.ENABLE then
    evt.set_event_index s._event_index
  else evt

/-- Lines 112 to 126 of `append`: the statements after the subsampling pass.
`consulted` is what the call did before them. In BLOCK mode a full queue makes the
call wait on the condition variable: the model records the `wait` and gives the
state at that point, the state from which the call goes on once the flusher has
made room. -/
def async_batcher.enqueue {α : Type} (try_drop : event α → ℚ → drop_pass → Bool)
    (size_estimate : event α → Nat) (s : async_batcher α) (evt : event α)
    (consulted : List (append_action α)) : append_result α :=
  let evt1 := s.indexed evt
  let indexed : List (append_action α) :=
    if s._events_counter_status = events_counter_status.ENABLE then
      [append_action.set_event_index s._event_index]
    else []
  let s2 := { s with _queue := s._queue.push evt1 (size_estimate evt1) }
  let pushed := consulted ++ indexed ++ [append_action.push evt1 (size_estimate evt1)]
  if s2._queue.is_full = true then
    if s2._queue_mode = queue_mode_enum.BLOCK then
      { state := s2, actions := pushed ++ [append_action.wait], code := error_code.success }
    else
      { state := { s2 with _queue := s2._queue.prune try_drop s2._pass_prob }
        actions := pushed ++ [append_action.prune s2._pass_prob]
        code := error_code.success }
  else
    { state := s2, actions := pushed, code := error_code.success }

/-- The method `async_batcher::append(TEvent&&, api_status*)`; the overload taking
`TEvent&` forwards to it. `try_drop` is the event's virtual member, `size_estimate`
the serializer's static `size_estimate`. -/
def async_batcher.append {α : Type} (try_drop : event α → ℚ → drop_pass → Bool)
    (size_estimate : event α → Nat) (s : async_batcher α) (evt : event α) :
    append_result α :=
  let s1 := s.increment_counter
  if s1._subsample_rate < 1 then
    if try_drop evt s1._subsample_rate drop_pass.SUBSAMPLE_RATE_DROP_PASS = true then
      { state := s1
        actions := [append_action.try_drop s1._subsample_rate
          drop_pass.SUBSAMPLE_RATE_DROP_PASS true]
        code := error_code.success }
    else
      s1.enqueue try_drop size_estimate evt
        [append_action.try_drop s1._subsample_rate drop_pass.SUBSAMPLE_RATE_DROP_PASS false]
  else
    s1.enqueue try_drop size_estimate evt []

/-- Modelled from the spec: the serializer contract of section 4.4 (the serializers
are not among the sources), the strategy `TSerializer<TEvent>` bound to one buffer.
`β` is the content of a buffer; `init` is the content of a buffer as the pool hands
it out.
`add` and `finalize` give the code they return and the content they leave, and
`finalize` receives the `original_count` when the counted overload is called. -/
structure collection_serializer (α β : Type) where
  init : β
  add : β → event α → error_code × β
  size : β → Nat
  finalize : β → Option Nat → error_code × β

/-- The subtraction of two `uint64_t` values, which wraps around. -/
def uint64_sub (a b : Nat) : Nat :=
  (a % UINT64_MOD + UINT64_MOD - b % UINT64_MOD) % UINT64_MOD

/-- The local variables of `fill_buffer` during its loop, with the queue: `evt` is
the local that `pop` writes into, `added` lists the events whose `add` succeeded. -/
structure fill_state (α β : Type) where
  queue : event_queue α
  remaining : Nat
  buffer : β
  evt : event α
  added : List (event α)

/-- How the loop of `fill_buffer` ends: its condition became false, or `add` failed
and `RETURN_IF_FAIL` left the function, or the fuel of the model ran out. -/
inductive loop_exit where
  | finished
  | add_failed (code : error_code)
  | out_of_fuel
deriving DecidableEq, Repr

/-- The loop at lines 149 to 157 of `fill_buffer`; `fuel` bounds the number of
times its body runs. A `pop` that finds the queue empty leaves everything as it was
and the loop goes round again. The `notify_one` of BLOCK mode changes no state. -/
def fill_loop {α β : Type} (ser : collection_serializer α β) (send_high_water_mark : Nat) :
    Nat → fill_state α β → fill_state α β × loop_exit
  | 0, st =>
    if 0 < st.remaining ∧ ser.size st.buffer < send_high_water_mark then
      (st, loop_exit.out_of_fuel)
    else (st, loop_exit.finished)
  | fuel + 1, st =>
    if 0 < st.remaining ∧ ser.size st.buffer < send_high_water_mark then
      match st.queue.pop with
      | some (e, q) =>
        if (ser.add st.buffer e).1 = error_code.success then
          fill_loop ser send_high_water_mark fuel
            { queue := q
              remaining := st.remaining - 1
              buffer := (ser.add st.buffer e).2
              evt := e
              added := st.added ++ [e] }
        else
          ({ st with queue := q, buffer := (ser.add st.buffer e).2, evt := e },
            loop_exit.add_failed (ser.add st.buffer e).1)
      | none => fill_loop ser send_high_water_mark fuel st
    else (st, loop_exit.finished)

/-- The outcome of one call of `fill_buffer`: the new state, the new value of the
reference parameter `remaining`, the content of the buffer, the events added to it,
the call of `finalize` if one was made (with the `original_count` it was given, if
any) and the code returned; `code` is `none` when the fuel of the model ran out. -/
structure fill_result (α β : Type) where
  state : async_batcher α
  remaining : Nat
  buffer : β
  added : List (event α)
  finalize_call : Option (Option Nat)
  code : Option error_code

/-- The method `async_batcher::fill_buffer`. `default_event` is the value of the
default-constructed local `TEvent evt`. -/
def async_batcher.fill_buffer {α β : Type} (ser : collection_serializer α β)
    (default_event : event α) (fuel : Nat) (s : async_batcher α) (remaining : Nat) :
    fill_result α β :=
  let r := fill_loop ser s._send_high_water_mark fuel
    { queue := s._queue, remaining := remaining, buffer := ser.init,
      evt := default_event, added := [] }
  match r.2 with
  | loop_exit.out_of_fuel =>
    { state := { s with _queue := r.1.queue }, remaining := r.1.remaining,
      buffer := r.1.buffer, added := r.1.added, finalize_call := none, code := none }
  | loop_exit.add_failed c =>
    { state := { s with _queue := r.1.queue }, remaining := r.1.remaining,
      buffer := r.1.buffer, added := r.1.added, finalize_call := none, code := some c }
  | loop_exit.finished =>
    if s._events_counter_status = events_counter_status.ENABLE then
      let buffer_start_event_number := s._buffer_end_event_number
      let buffer_end_event_number := r.1.evt.get_event_index
      let original_count := uint64_sub buffer_end_event_number buffer_start_event_number
      { state := { s with _queue := r.1.queue,
                          _buffer_end_event_number := buffer_end_event_number }
        remaining := r.1.remaining
        buffer := (ser.finalize r.1.buffer (some original_count)).2
        added := r.1.added
        finalize_call := some (some original_count)
        code := some (ser.finalize r.1.buffer (some original_count)).1 }
    else
      { state := { s with _queue := r.1.queue }
        remaining := r.1.remaining
        buffer := (ser.finalize r.1.buffer none).2
        added := r.1.added
        finalize_call := some none
        code := some (ser.finalize r.1.buffer none).1 }

/-- The two overloads of `i_message_sender::send`: the plain one and the one that
carries `original_count`. -/
inductive send_overload where
  | plain
  | with_original_count (original_count : Nat)
deriving DecidableEq, Repr

/-- What one round of the loop of `flush` did: the events added to the buffer, the
`finalize` call made by `fill_buffer` and the code `fill_buffer` returned, the
content of the buffer handed to the transport, the overload of `send` that was
called and the code it returned, and the codes the error callback was invoked with
(none when no callback is configured). -/
structure batch_record (α β : Type) where
  added : List (event α)
  finalize_call : Option (Option Nat)
  fill_code : error_code
  buffer : β
  send_call : send_overload
  send_code : error_code
  error_callbacks : List error_code

/-- How a run of `flush` ends in the model: it returned, or the fuel ran out. -/
inductive flush_exit where
  | returned
  | out_of_fuel
deriving DecidableEq, Repr

/-- The outcome of a run of `flush`: the new state, one record for every buffer
handed to the transport, in order, and how the run ended. -/
structure flush_result (α β : Type) where
  state : async_batcher α
  batches : List (batch_record α β)
  exit : flush_exit

/-- The macro `ERROR_CALLBACK(_perror_cb, status)`: the callback is invoked with the
status when one is configured. -/
def ERROR_CALLBACK (perror_cb : Bool) (code : error_code) : List error_code :=
  if perror_cb then [code] else []

/-- The loop at lines 187 to 199 of `flush`; `fuel` bounds the number of rounds and
the number of rounds of every loop of `fill_buffer`. `send` is the transport's plain
`send(message_id, buffer, status)`, the only overload the loop calls. -/
def flush_loop {α β : Type} (ser : collection_serializer α β) (default_event : event α)
    (send : β → error_code) (perror_cb : Bool) :
    Nat → async_batcher α → Nat → flush_result α β
  | 0, s, remaining =>
    if 0 < remaining then { state := s, batches := [], exit := flush_exit.out_of_fuel }
    else { state := s, batches := [], exit := flush_exit.returned }
  | fuel + 1, s, remaining =>
    if 0 < remaining then
      let f := s.fill_buffer ser default_event (fuel + 1) remaining
      match f.code with
      | none => { state := f.state, batches := [], exit := flush_exit.out_of_fuel }
      | some c =>
        let rest := flush_loop ser default_event send perror_cb fuel f.state f.remaining
        { rest with
          batches :=
            { added := f.added
              finalize_call := f.finalize_call
              fill_code := c
              buffer := f.buffer
              send_call := send_overload.plain
              send_code := send f.buffer
              error_callbacks :=
                (if c ≠ error_code.success then ERROR_CALLBACK perror_cb c else []) ++
                (if send f.buffer ≠ error_code.success then
                  ERROR_CALLBACK perror_cb (send f.buffer) else []) } :: rest.batches }
    else { state := s, batches := [], exit := flush_exit.returned }

/-- The method `async_batcher::flush`. -/
def async_batcher.flush {α β : Type} (ser : collection_serializer α β)
    (default_event : event α) (send : β → error_code) (perror_cb : Bool) (fuel : Nat)
    (s : async_batcher α) : flush_result α β :=
  let queue_size := s._queue.size
  if queue_size = 0 then { state := s, batches := [], exit := flush_exit.returned }
  else flush_loop ser default_event send perror_cb fuel s queue_size

/-- The method `async_batcher::run_iteration`: `flush()`, then `success`. -/
def async_batcher.run_iteration {α β : Type} (ser : collection_serializer α β)
    (default_event : event α) (send : β → error_code) (perror_cb : Bool) (fuel : Nat)
    (s : async_batcher α) : flush_result α β × Option error_code :=
  let r := s.flush ser default_event send perror_cb fuel
  (r, if r.exit = flush_exit.returned then some error_code.success else none)

/-- The destructor `async_batcher::~async_batcher` after the background procedure
has stopped: a non-empty queue is flushed. -/
def async_batcher.destroy {α β : Type} (ser : collection_serializer α β)
    (default_event : event α) (send : β → error_code) (perror_cb : Bool) (fuel : Nat)
    (s : async_batcher α) : flush_result α β :=
  if 0 < s._queue.size then s.flush ser default_event send perror_cb fuel
  else { state := s, batches := [], exit := flush_exit.returned }

/-- The collaborators of one batcher: the event's `try_drop`, the serializer's static
`size_estimate`, the serializer strategy, the default-constructed event, the
transport's plain `send`, and whether an error callback is configured. -/
structure batcher_env (α β : Type) where
  try_drop : event α → ℚ → drop_pass → Bool
  size_estimate : event α → Nat
  serializer : collection_serializer α β
  default_event : event α
  send : β → error_code
  perror_cb : Bool

/-- One call on the batcher when calls are made one after another: a producer's
`append`, or a `flush` by the background procedure. -/
inductive batcher_step (α : Type) where
  | append (evt : event α)
  | flush (fuel : Nat)

/-- The event that a call of `append` pushed on the queue, if it pushed one. -/
def append_result.pushed {α : Type} (r : append_result α) : Option (event α) :=
  r.actions.findSome? fun a =>
    match a with
    | append_action.push evt _ => some evt
    | _ => none

/-- The state after one step. -/
def batcher_env.step {α β : Type} (env : batcher_env α β) (s : async_batcher α) :
    batcher_step α → async_batcher α
  | batcher_step.append evt => (s.append env.try_drop env.size_estimate evt).state
  | batcher_step.flush fuel =>
    (s.flush env.serializer env.default_event env.send env.perror_cb fuel).state

/-- The state after a sequence of steps. -/
def batcher_env.run {α β : Type} (env : batcher_env α β) (s : async_batcher α)
    (steps : List (batcher_step α)) : async_batcher α :=
  steps.foldl env.step s

/-- The events pushed on the queue during a sequence of steps, in the order they
were pushed, each with the number of the `append` call that pushed it; `calls` is the
number of `append` calls made before the sequence. -/
def batcher_env.admitted {α β : Type} (env : batcher_env α β) :
    async_batcher α → Nat → List (batcher_step α) → List (Nat × event α)
  | _, _, [] => []
  | s, calls, batcher_step.append evt :: rest =>
    (match (s.append env.try_drop env.size_estimate evt).pushed with
      | some e => [(calls + 1, e)]
      | none => []) ++
      env.admitted (s.append env.try_drop env.size_estimate evt).state (calls + 1) rest
  | s, calls, batcher_step.flush fuel :: rest =>
    env.admitted (env.step s (batcher_step.flush fuel)) calls rest

/-- The number of `append` calls of a sequence of steps. -/
def append_calls {α : Type} : List (batcher_step α) → Nat
  | [] => 0
  | batcher_step.append _ :: rest => append_calls rest + 1
  | batcher_step.flush _ :: rest => append_calls rest

/-- The content of a buffer after the events were added to it in order. -/
def add_all {α β : Type} (ser : collection_serializer α β) (buf : β)
    (evts : List (event α)) : β :=
  evts.foldl (fun b e => (ser.add b e).2) buf

/-- The content of a fresh buffer after the events were added to it in order: what
the serializer's `size` is measured on when a batch is cut. -/
def serialize {α β : Type} (ser : collection_serializer α β) (evts : List (event α)) : β :=
  add_all ser ser.init evts

/-- The `original_count` values that the batches of a flush were finalized with. -/
def original_counts {α β : Type} (batches : List (batch_record α β)) : List Nat :=
  batches.filterMap fun b => b.finalize_call.join

/-- The records of the buffers handed to the transport during a sequence of steps, in
the order they were handed over. -/
def batcher_env.batches {α β : Type} (env : batcher_env α β) :
    async_batcher α → List (batcher_step α) → List (batch_record α β)
  | _, [] => []
  | s, batcher_step.append evt :: rest =>
    env.batches (env.step s (batcher_step.append evt)) rest
  | s, batcher_step.flush fuel :: rest =>
    (s.flush env.serializer env.default_event env.send env.perror_cb fuel).batches ++
      env.batches (env.step s (batcher_step.flush fuel)) rest

/-- The check that every batch of the list that was finalized has a last event and
was finalized with the `original_count` "index of its last event minus index of the
last event of the finalized batch before it", a `uint64_t` subtraction, where `previous`
stands in for the batch before the first one. A batch without a `finalize` call (its
`add` failed) is passed over. -/
def counts_chained {α β : Type} : Nat → List (batch_record α β) → Bool
  | _, [] => true
  | previous, b :: rest =>
    match b.finalize_call, b.added.getLast? with
    | none, _ => counts_chained previous rest
    | some c, some last =>
      decide (c = some (uint64_sub last.get_event_index previous)) &&
        counts_chained last.get_event_index rest
    | some _, none => false

/-- The index of the last event of the last finalized batch of the list, `previous`
when there is none. -/
def last_built_index {α β : Type} : Nat → List (batch_record α β) → Nat
  | previous, [] => previous
  | previous, b :: rest =>
    match b.finalize_call, b.added.getLast? with
    | some _, some last => last_built_index last.get_event_index rest
    | _, _ => last_built_index previous rest

/-! ## The collaborators of the unit tests -/

/-- Modelled from the spec: the line-delimited text form of the serializer, each
event followed by a newline, as `json_collection_serializer` gives for the test
events (the serializers are not among the sources). -/
def line_serializer : collection_serializer String String :=
  { init := ""
    add := fun buf e => (error_code.success, buf ++ e.payload ++ "\n")
    size := fun buf => buf.utf8ByteSize
    finalize := fun buf _ => (error_code.success, buf) }

/-- The member `test_undroppable_event::try_drop` of the unit tests. -/
def test_undroppable_event.try_drop (_ : event String) (_ : ℚ) (_ : drop_pass) : Bool :=
  false

/-- The member `test_droppable_event::try_drop` of the unit tests. -/
def test_droppable_event.try_drop (_ : event String) (_ : ℚ) (_ : drop_pass) : Bool :=
  true

/-- The test event `config_drop_event`: its seed id, and the number `atof` reads
from it. -/
structure config_drop_seed where
  _seed_id : String
  prob : ℚ
deriving DecidableEq, Repr

/-- The member `config_drop_event::try_drop` of the unit tests. -/
def config_drop_event.try_drop (evt : event config_drop_seed) (drop_prob : ℚ)
    (_ : drop_pass) : Bool :=
  decide (evt.payload.prob > drop_prob) &&
    !(are_same DEFAULT_FLOAT_TOLERANCE evt.payload.prob drop_prob)

/-- The line-delimited serializer for `config_drop_event`, which writes the seed id. -/
def config_drop_serializer : collection_serializer config_drop_seed String :=
  { init := ""
    add := fun buf e => (error_code.success, buf ++ e.payload._seed_id ++ "\n")
    size := fun buf => buf.utf8ByteSize
    finalize := fun buf _ => (error_code.success, buf) }

/-- The `size_estimate` of the event serializers of the unit tests. -/
def test_size_estimate {α : Type} (_ : event α) : Nat := 1

/-- The transport of the unit tests: every `send` succeeds. -/
def test_send (_ : String) : error_code := error_code.success

/-! ## The scenarios of the unit tests -/

/-- The collaborators of the tests on `test_undroppable_event`, with an error
callback configured. -/
def undroppable_test_env : batcher_env String String :=
  { try_drop := test_undroppable_event.try_drop
    size_estimate := test_size_estimate
    serializer := line_serializer
    default_event := ⟨"", 0⟩
    send := test_send
    perror_cb := true }

/-- The collaborators of the tests on `config_drop_event`. -/
def drop_rate_test_env : batcher_env config_drop_seed String :=
  { try_drop := config_drop_event.try_drop
    size_estimate := test_size_estimate
    serializer := config_drop_serializer
    default_event := ⟨⟨"", 0⟩, 0⟩
    send := test_send
    perror_cb := true }

/-- The configuration of the test `flush_timeout_with_counter_ENABLE`. -/
def flush_timeout_config : async_batcher_config :=
  { send_high_water_mark := 262143, send_queue_max_capacity := 8192
    queue_mode := queue_mode_enum.BLOCK, subsample_rate := 7 / 10
    event_counter_status := events_counter_status.ENABLE }

/-- The two `append` calls of the test `flush_timeout_with_counter_ENABLE`. -/
def flush_timeout_steps : List (batcher_step String) :=
  [batcher_step.append ⟨"foo", 0⟩, batcher_step.append ⟨"bar", 0⟩]

/-- The batcher of the test `flush_timeout_with_counter_ENABLE` when the timer
fires. -/
def flush_timeout_state : async_batcher String :=
  { _queue := { _queue := [(⟨"foo", 1⟩, 1), (⟨"bar", 2⟩, 1)], _max_capacity := 8192 }
    _send_high_water_mark := 262143
    _pass_prob := 1 / 2
    _queue_mode := queue_mode_enum.BLOCK
    _subsample_rate := 7 / 10
    _events_counter_status := events_counter_status.ENABLE
    _event_index := 2
    _buffer_end_event_number := 0 }

/-- The configuration of the test `flush_batches_with_counter_ENABLE`: a mark of 10
bytes. -/
def flush_batches_config : async_batcher_config :=
  { send_high_water_mark := 10, send_queue_max_capacity := 8192
    queue_mode := queue_mode_enum.BLOCK, subsample_rate := 7 / 10
    event_counter_status := events_counter_status.ENABLE }

/-- The three `append` calls of the tests `flush_batches` and
`flush_batches_with_counter_ENABLE`. -/
def flush_batches_steps : List (batcher_step String) :=
  [batcher_step.append ⟨"foo", 0⟩, batcher_step.append ⟨"bar-yyy", 0⟩,
   batcher_step.append ⟨"hello", 0⟩]

/-- The batcher of the test `flush_batches_with_counter_ENABLE` when it is deleted. -/
def flush_batches_state : async_batcher String :=
  { _queue :=
      { _queue := [(⟨"foo", 1⟩, 1), (⟨"bar-yyy", 2⟩, 1), (⟨"hello", 3⟩, 1)]
        _max_capacity := 8192 }
    _send_high_water_mark := 10
    _pass_prob := 1 / 2
    _queue_mode := queue_mode_enum.BLOCK
    _subsample_rate := 7 / 10
    _events_counter_status := events_counter_status.ENABLE
    _event_index := 3
    _buffer_end_event_number := 0 }

/-- The configuration of the tests `queue_config_drop_rate_test` (counter mode
DISABLE, BLOCK mode) and `queue_config_drop_rate_test_with_counter_ENABLE` (counter
mode ENABLE, DROP mode): capacity 10, rate 0.7. -/
def drop_rate_test_config (mode : queue_mode_enum) (counter : events_counter_status) :
    async_batcher_config :=
  { send_high_water_mark := 262143, send_queue_max_capacity := 10
    queue_mode := mode, subsample_rate := 7 / 10
    event_counter_status := counter }

/-- The five `append` calls of the tests `queue_config_drop_rate_test` and
`queue_config_drop_rate_test_with_counter_ENABLE`; each seed id comes with the number
`atof` reads from it. -/
def drop_rate_test_steps : List (batcher_step config_drop_seed) :=
  [batcher_step.append ⟨⟨"0.00", 0⟩, 0⟩, batcher_step.append ⟨⟨"1.00", 1⟩, 0⟩,
   batcher_step.append ⟨⟨"0.69", 69 / 100⟩, 0⟩, batcher_step.append ⟨⟨"0.70", 7 / 10⟩, 0⟩,
   batcher_step.append ⟨⟨"0.71", 71 / 100⟩, 0⟩]

/-- The batcher of the test `queue_config_drop_rate_test_with_counter_ENABLE` when it
is deleted. -/
def drop_rate_test_state : async_batcher config_drop_seed :=
  { _queue :=
      { _queue := [(⟨⟨"0.00", 0⟩, 1⟩, 1), (⟨⟨"0.69", 69 / 100⟩, 3⟩, 1),
          (⟨⟨"0.70", 7 / 10⟩, 4⟩, 1)]
        _max_capacity := 10 }
    _send_high_water_mark := 262143
    _pass_prob := 1 / 2
    _queue_mode := queue_mode_enum.DROP
    _subsample_rate := 7 / 10
    _events_counter_status := events_counter_status.ENABLE
    _event_index := 5
    _buffer_end_event_number := 0 }

/-- The batcher of the test `queue_config_drop_rate_test` before its first `append`. -/
def drop_rate_block_state : async_batcher config_drop_seed :=
  async_batcher.create config_drop_seed
    (drop_rate_test_config queue_mode_enum.BLOCK events_counter_status.DISABLE)

/-- The batcher of the test `queue_overflow_do_not_drop_event`: capacity 3, BLOCK
mode, a rate of 1, counter mode DISABLE. -/
def queue_overflow_state : async_batcher String :=
  async_batcher.create String
    { send_high_water_mark := 262143, send_queue_max_capacity := 3
      queue_mode := queue_mode_enum.BLOCK, subsample_rate := 1
      event_counter_status := events_counter_status.DISABLE }

/-- A batcher configured with a rate of 0.00001, a value of the interval (0, 1]. -/
def small_rate_state : async_batcher String :=
  async_batcher.create String
    { send_high_water_mark := 262143, send_queue_max_capacity := 8192
      queue_mode := queue_mode_enum.BLOCK, subsample_rate := 1 / 100000
      event_counter_status := events_counter_status.DISABLE }

/-! ## Sequences of calls, the start of `init` and the rounds of `flush` -/

/-- The states a sequence of steps goes through, in order, the first one included. -/
def batcher_env.states {α β : Type} (env : batcher_env α β) :
    async_batcher α → List (batcher_step α) → List (async_batcher α)
  | s, [] => [s]
  | s, step :: rest => s :: env.states (env.step s step) rest

/-- The check that every `append` of the sequence starts on a queue that is not full.
In BLOCK mode an `append` that filled the queue waits until the queue is no longer
full, so this is the check that every `append` starts after the earlier ones have
returned. -/
def batcher_env.appends_unblocked {α β : Type} (env : batcher_env α β) :
    async_batcher α → List (batcher_step α) → Bool
  | _, [] => true
  | s, batcher_step.append evt :: rest =>
    !s._queue.is_full && env.appends_unblocked (env.step s (batcher_step.append evt)) rest
  | s, batcher_step.flush fuel :: rest =>
    env.appends_unblocked (env.step s (batcher_step.flush fuel)) rest

/-- What a call of `init` does, in the order it does it: the call of
`_periodic_background_proc.init` with the code it returned, and the check of the
subsampling rate with its verdict. -/
inductive init_action where
  | background_proc_init (code : error_code)
  | check_subsample_rate (rejected : Bool)
deriving DecidableEq, Repr

/-- The outcome of one call of `init`. Modelled from the spec: `init` "starts the
background flusher", so the flusher runs exactly when `_periodic_background_proc.init`
returned `success` (`periodic_background_proc.h` is not among the sources). -/
structure init_result where
  code : error_code
  actions : List init_action
  background_started : Bool
deriving DecidableEq, Repr

/-- The method `async_batcher::init` with what it did: `RETURN_IF_FAIL` leaves with the
code of the background procedure before the rate is looked at; otherwise the rate is
checked with the background procedure already started. -/
def async_batcher.init_run {α : Type} (tolerance : ℚ) (background : error_code)
    (s : async_batcher α) : init_result :=
  if background ≠ error_code.success then
    { code := background
      actions := [init_action.background_proc_init background]
      background_started := false }
  else
    let subsample_lte_zero :=
      decide (s._subsample_rate < 0) || are_same tolerance s._subsample_rate 0
    let subsample_gt_one :=
      decide (s._subsample_rate > 1) && !(are_same tolerance s._subsample_rate 1)
    if subsample_lte_zero || subsample_gt_one then
      { code := error_code.invalid_argument
        actions := [init_action.background_proc_init error_code.success,
          init_action.check_subsample_rate true]
        background_started := true }
    else
      { code := error_code.success
        actions := [init_action.background_proc_init error_code.success,
          init_action.check_subsample_rate false]
        background_started := true }

/-- What the loop of `flush` does, call by call: the `acquire` of a buffer from the
pool, the return of `fill_buffer` with its code, an invocation of the error callback
with a code, and a call of the transport's `send` with the overload, the buffer and the
code returned. -/
inductive flush_action (β : Type) where
  | acquire
  | fill_buffer (code : error_code)
  | error_callback (code : error_code)
  | send (call : send_overload) (buffer : β) (code : error_code)
deriving DecidableEq, Repr

/-- The calls made by the loop at lines 187 to 199 of `flush`, in the order they are
made, within the fuel. A round whose `fill_buffer` does not return within the fuel
shows its `acquire` only. -/
def flush_loop_trace {α β : Type} (ser : collection_serializer α β)
    (default_event : event α) (send : β → error_code) (perror_cb : Bool) :
    Nat → async_batcher α → Nat → List (flush_action β)
  | 0, _, _ => []
  | fuel + 1, s, remaining =>
    if 0 < remaining then
      let f := s.fill_buffer ser default_event (fuel + 1) remaining
      match f.code with
      | none => [flush_action.acquire]
      | some c =>
        [flush_action.acquire, flush_action.fill_buffer c] ++
          (if c ≠ error_code.success then
            (ERROR_CALLBACK perror_cb c).map flush_action.error_callback else []) ++
          [flush_action.send send_overload.plain f.buffer (send f.buffer)] ++
          (if send f.buffer ≠ error_code.success then
            (ERROR_CALLBACK perror_cb (send f.buffer)).map flush_action.error_callback
            else []) ++
          flush_loop_trace ser default_event send perror_cb fuel f.state f.remaining
    else []

/-- The calls made by a run of `flush`, in order. -/
def async_batcher.flush_trace {α β : Type} (ser : collection_serializer α β)
    (default_event : event α) (send : β → error_code) (perror_cb : Bool) (fuel : Nat)
    (s : async_batcher α) : List (flush_action β) :=
  if s._queue.size = 0 then []
  else flush_loop_trace ser default_event send perror_cb fuel s s._queue.size

/-- The calls of one completed round of the loop of `flush`, read off its record: the
`acquire`, the return of `fill_buffer`, the error callback for a failed fill, the one
`send`, and the error callback for a failed `send`. -/
def batch_record.actions {α β : Type} (perror_cb : Bool) (b : batch_record α β) :
    List (flush_action β) :=
  [flush_action.acquire, flush_action.fill_buffer b.fill_code] ++
    (if b.fill_code ≠ error_code.success then
      (ERROR_CALLBACK perror_cb b.fill_code).map flush_action.error_callback else []) ++
    [flush_action.send b.send_call b.buffer b.send_code] ++
    (if b.send_code ≠ error_code.success then
      (ERROR_CALLBACK perror_cb b.send_code).map flush_action.error_callback else [])

/-- Whether a call of the loop of `flush` is an `acquire`. -/
def flush_action.is_acquire {β : Type} : flush_action β → Bool
  | flush_action.acquire => true
  | _ => false

/-- Whether a call of the loop of `flush` is a `send`. -/
def flush_action.is_send {β : Type} : flush_action β → Bool
  | flush_action.send _ _ _ => true
  | _ => false

/-- The check that no `original_count` of the list wrapped around: every batch was
finalized, has a last event whose index is not below the index before it, was
finalized with the plain difference of the two, and holds no more events than that
count; `previous` stands in for the index before the first batch. -/
def counts_no_wrap {α β : Type} : Nat → List (batch_record α β) → Bool
  | _, [] => true
  | previous, b :: rest =>
    match b.finalize_call, b.added.getLast? with
    | some c, some last =>
      decide (previous ≤ last.get_event_index) &&
        decide (c = some (last.get_event_index - previous)) &&
        decide (b.added.length ≤ last.get_event_index - previous) &&
        counts_no_wrap last.get_event_index rest
    | _, _ => false

/-- The order of the counters of counter mode ENABLE: `_buffer_end_event_number` is not
above `_event_index`, and the events of the queue carry strictly increasing indices
that are above `_buffer_end_event_number` and not above `_event_index`. -/
def counters_ordered {α : Type} (s : async_batcher α) : Prop :=
  s._buffer_end_event_number ≤ s._event_index ∧
  (s._queue.events.map event.get_event_index).Pairwise (fun a b => a < b) ∧
  ∀ e ∈ s._queue.events,
    s._buffer_end_event_number < e.get_event_index ∧ e.get_event_index ≤ s._event_index

instance counters_ordered_decidable {α : Type} (s : async_batcher α) :
    Decidable (counters_ordered s) := by
  unfold counters_ordered
  infer_instance

/-! ## Further scenarios -/

/-- A batcher in DROP mode with capacity 2, the default rate of 1 and one event in the
queue. -/
def drop_overflow_state : async_batcher String :=
  { _queue := { _queue := [(⟨"a", 0⟩, 1)], _max_capacity := 2 }
    _send_high_water_mark := 262143
    _pass_prob := 1 / 2
    _queue_mode := queue_mode_enum.DROP
    _subsample_rate := 1
    _events_counter_status := events_counter_status.DISABLE
    _event_index := 0
    _buffer_end_event_number := 0 }

/-- A batcher configured with a rate of 1.00001, which is above 1. -/
def above_one_rate_state : async_batcher String :=
  async_batcher.create String
    { send_high_water_mark := 262143, send_queue_max_capacity := 8192
      queue_mode := queue_mode_enum.BLOCK, subsample_rate := 1 + 1 / 100000
      event_counter_status := events_counter_status.DISABLE }

/-- A batcher configured with a rate of 2. -/
def rate_two_state : async_batcher String :=
  async_batcher.create String
    { send_high_water_mark := 262143, send_queue_max_capacity := 8192
      queue_mode := queue_mode_enum.BLOCK, subsample_rate := 2
      event_counter_status := events_counter_status.DISABLE }

/-- A line serializer whose `add` fails on the events of the given content, with the
code `failure 1` and the buffer left as it was. -/
def rejecting_serializer (bad : String) : collection_serializer String String :=
  { init := ""
    add := fun buf e =>
      if e.payload = bad then (error_code.failure 1, buf)
      else (error_code.success, buf ++ e.payload ++ "\n")
    size := fun buf => buf.utf8ByteSize
    finalize := fun buf _ => (error_code.success, buf) }

/-- A transport whose `send` fails on the buffer of the given content, with the code
`failure 2`. -/
def failing_send (bad : String) (buffer : String) : error_code :=
  if buffer = bad then error_code.failure 2 else error_code.success

/-- The batcher of the test `flush_timeout_with_counter_ENABLE` when the timer fires,
had it been configured with a `send_high_water_mark` of 0. -/
def zero_mark_state : async_batcher String :=
  { flush_timeout_state with _send_high_water_mark := 0 }

/-- The collaborators of the tests on `test_droppable_event`. -/
def droppable_test_env : batcher_env String String :=
  { try_drop := test_droppable_event.try_drop
    size_estimate := test_size_estimate
    serializer := line_serializer
    default_event := ⟨"", 0⟩
    send := test_send
    perror_cb := true }

/-- The configuration of the test `queue_overflow_do_not_drop_event`: capacity 3, BLOCK
mode, a rate of 1, counter mode DISABLE. -/
def queue_overflow_config : async_batcher_config :=
  { send_high_water_mark := 262143, send_queue_max_capacity := 3
    queue_mode := queue_mode_enum.BLOCK, subsample_rate := 1
    event_counter_status := events_counter_status.DISABLE }

/-- The configuration of the test `queue_overflow_do_not_drop_event` with a capacity
of 0. -/
def zero_capacity_config : async_batcher_config :=
  { queue_overflow_config with send_queue_max_capacity := 0 }

/-- The batcher of the test `queue_overflow_do_not_drop_event` after its first three
`append` calls: the queue is full and the third call waits. -/
def queue_overflow_full_state : async_batcher String :=
  { _queue :=
      { _queue := [(⟨"0", 0⟩, 1), (⟨"1", 0⟩, 1), (⟨"2", 0⟩, 1)], _max_capacity := 3 }
    _send_high_water_mark := 262143
    _pass_prob := 1 / 2
    _queue_mode := queue_mode_enum.BLOCK
    _subsample_rate := 1
    _events_counter_status := events_counter_status.DISABLE
    _event_index := 0
    _buffer_end_event_number := 0 }

/-! ## The header authorization

A shallow embedding of `rlclientlib/utility/header_authorization.cc`: `init` and
`get_http_headers`. A `const char*` is an `Option String`, `none` being `nullptr`. -/

/-- Modelled from the spec: the name `name::HTTP_API_KEY` under which the
configuration holds the HTTP API key (constants.h is not among the sources; no
property depends on the text of the name). -/
def name.HTTP_API_KEY : String := "http.api.key"

/-- Modelled from the spec: the name `name::HTTP_API_HEADER_KEY_NAME` under which the
configuration holds the name of the header (constants.h is not among the sources). -/
def name.HTTP_API_HEADER_KEY_NAME : String := "http.api.header.key.name"

/-- Modelled from the spec: the default `value::HTTP_API_DEFAULT_HEADER_KEY_NAME` of
the name of the header (constants.h is not among the sources). -/
def value.HTTP_API_DEFAULT_HEADER_KEY_NAME : String := "Ocp-Apim-Subscription-Key"

/-- Modelled from the spec: `utility::configuration`, a map from names to values
(configuration.h is not among the sources), as the list of its entries; the first
entry of a name is the one that counts. -/
structure configuration where
  _map : List (String × String)
deriving DecidableEq, Repr

/-- Modelled from the spec: `configuration::set(name, value)`, which stores the value
under the name, in the place of the value that was there. -/
def configuration.set (c : configuration) (key val : String) : configuration :=
  { _map := (key, val) :: c._map.filter (fun p => p.1 != key) }

/-- Modelled from the spec: `configuration::get(name, defval)`, the value stored under
the name, and `defval` when the configuration has none. -/
def configuration.get (c : configuration) (key : String) (defval : Option String) :
    Option String :=
  match c._map.lookup key with
  | some val => some val
  | none => defval

/-- The `std::string` that the assignment of a `const char*` gives. The pointer is not
null wherever the code assigns one: the assignment of a null pointer is undefined, and
stands here as the empty string. -/
def string_of_c_str (p : Option String) : String :=
  p.getD ""

/-- The data members of `header_authorization`. -/
structure header_authorization where
  _api_key : String
  _http_api_header_key_name : String
deriving DecidableEq, Repr

/-- The method `header_authorization::init`, in the branch `#ifndef _WIN32` where the
name of the header is stored as it is read: the code returned and the object
afterwards. `RETURN_ERROR` reports the error to the trace and to the `api_status` and
returns its code. -/
def header_authorization.init (s : header_authorization) (config : configuration) :
    error_code × header_authorization :=
  match config.get name.HTTP_API_KEY none with
  | none => (error_code.http_api_key_not_provided, s)
  | some api_key =>
    let s1 := { s with _api_key := api_key }
    let s2 := { s1 with
      _http_api_header_key_name :=
        string_of_c_str (config.get name.HTTP_API_HEADER_KEY_NAME
          (some value.HTTP_API_DEFAULT_HEADER_KEY_NAME)) }
    (error_code.success, s2)

/-- The method `header_authorization::get_http_headers`: one call of `headers.add` with
the stored name of the header and the stored key, then `success`. The class
`http_headers` belongs to the HTTP library, so the method is taken over any type of
headers, given with its `add`; the code returned and the headers afterwards. -/
def header_authorization.get_http_headers {H : Type} (s : header_authorization)
    (add : H → String → String → H) (headers : H) : error_code × H :=
  (error_code.success, add headers s._http_api_header_key_name s._api_key)

/-- Headers as the list of the pairs that were added, in the order of the calls of
`add`. -/
def recorded_add (headers : List (String × String)) (key val : String) :
    List (String × String) :=
  headers ++ [(key, val)]

/-- A configuration with an HTTP API key and no name for the header. -/
def api_key_config : configuration :=
  (configuration.mk []).set name.HTTP_API_KEY "secret"

/-- A configuration with an HTTP API key and a name for the header. -/
def api_key_header_config : configuration :=
  api_key_config.set name.HTTP_API_HEADER_KEY_NAME "X-Api-Key"

/-- A configuration with a name for the header and no HTTP API key. -/
def no_api_key_config : configuration :=
  (configuration.mk []).set name.HTTP_API_HEADER_KEY_NAME "X-Api-Key"

/-! # Lemmas -/

section append_lemmas

variable {α : Type}

theorem increment_counter_queue (s : async_batcher α) :
    s.increment_counter._queue = s._queue := by
  unfold async_batcher.increment_counter; split <;> rfl

theorem increment_counter_subsample_rate (s : async_batcher α) :
    s.increment_counter._subsample_rate = s._subsample_rate := by
  unfold async_batcher.increment_counter; split <;> rfl

theorem increment_counter_status (s : async_batcher α) :
    s.increment_counter._events_counter_status = s._events_counter_status := by
  unfold async_batcher.increment_counter; split <;> rfl

theorem increment_counter_queue_mode (s : async_batcher α) :
    s.increment_counter._queue_mode = s._queue_mode := by
  unfold async_batcher.increment_counter; split <;> rfl

theorem increment_counter_pass_prob (s : async_batcher α) :
    s.increment_counter._pass_prob = s._pass_prob := by
  unfold async_batcher.increment_counter; split <;> rfl

theorem increment_counter_index_ENABLE (s : async_batcher α)
    (h : s._events_counter_status = events_counter_status.ENABLE) :
    s.increment_counter._event_index = (s._event_index + 1) % UINT64_MOD := by
  unfold async_batcher.increment_counter; simp [h]

theorem enqueue_event_index (try_drop : event α → ℚ → drop_pass → Bool)
    (size_estimate : event α → Nat) (s : async_batcher α) (evt : event α)
    (consulted : List (append_action α)) :
    (s.enqueue try_drop size_estimate evt consulted).state._event_index = s._event_index := by
  unfold async_batcher.enqueue
  simp only
  split_ifs <;> rfl

theorem append_event_index (try_drop : event α → ℚ → drop_pass → Bool)
    (size_estimate : event α → Nat) (s : async_batcher α) (evt : event α) :
    (s.append try_drop size_estimate evt).state._event_index =
      s.increment_counter._event_index := by
  unfold async_batcher.append
  simp only
  split
  · split
    · rfl
    · exact enqueue_event_index _ _ _ _ _
  · exact enqueue_event_index _ _ _ _ _

end append_lemmas

section append_lemmas

variable {α : Type}

theorem enqueue_code (try_drop : event α → ℚ → drop_pass → Bool)
    (size_estimate : event α → Nat) (s : async_batcher α) (evt : event α)
    (consulted : List (append_action α)) :
    (s.enqueue try_drop size_estimate evt consulted).code = error_code.success := by
  unfold async_batcher.enqueue
  simp only
  split_ifs <;> rfl

theorem enqueue_queue (try_drop : event α → ℚ → drop_pass → Bool)
    (size_estimate : event α → Nat) (s : async_batcher α) (evt : event α)
    (consulted : List (append_action α)) :
    (s.enqueue try_drop size_estimate evt consulted).state._queue =
      if (s._queue.push (s.indexed evt) (size_estimate (s.indexed evt))).is_full = true ∧
          s._queue_mode = queue_mode_enum.DROP then
        (s._queue.push (s.indexed evt) (size_estimate (s.indexed evt))).prune try_drop
          s._pass_prob
      else s._queue.push (s.indexed evt) (size_estimate (s.indexed evt)) := by
  unfold async_batcher.enqueue
  simp only
  cases hm : s._queue_mode <;> split_ifs <;> simp_all

theorem enqueue_pushed (try_drop : event α → ℚ → drop_pass → Bool)
    (size_estimate : event α → Nat) (s : async_batcher α) (evt : event α)
    (consulted : List (append_action α))
    (hc : ∀ a ∈ consulted, ∀ e n, a ≠ append_action.push e n) :
    (s.enqueue try_drop size_estimate evt consulted).pushed = some (s.indexed evt) := by
  have h0 : consulted.findSome? (fun a =>
      match a with
      | append_action.push evt _ => some evt
      | _ => none) = none := by
    rw [List.findSome?_eq_none_iff]
    intro a ha
    cases a <;> simp
    exact hc _ ha _ _ rfl
  unfold async_batcher.enqueue append_result.pushed
  simp only
  split_ifs <;> simp [List.findSome?_append, h0, List.findSome?_cons]

theorem enqueue_actions_try_drop (try_drop : event α → ℚ → drop_pass → Bool)
    (size_estimate : event α → Nat) (s : async_batcher α) (evt : event α)
    (consulted : List (append_action α)) (rate : ℚ) (pass : drop_pass) (dropped : Bool)
    (h : append_action.try_drop rate pass dropped ∈
      (s.enqueue try_drop size_estimate evt consulted).actions) :
    append_action.try_drop rate pass dropped ∈ consulted := by
  unfold async_batcher.enqueue at h
  simp only at h
  split_ifs at h <;> simpa using h

end append_lemmas

theorem append_of_dropped {α : Type} (try_drop : event α → ℚ → drop_pass → Bool)
    (size_estimate : event α → Nat) (s : async_batcher α) (evt : event α)
    (hrate : s._subsample_rate < 1)
    (hdrop : try_drop evt s._subsample_rate drop_pass.SUBSAMPLE_RATE_DROP_PASS = true) :
    s.append try_drop size_estimate evt =
      { state := s.increment_counter
        actions := [append_action.try_drop s._subsample_rate
          drop_pass.SUBSAMPLE_RATE_DROP_PASS true]
        code := error_code.success } := by
  unfold async_batcher.append
  simp only [increment_counter_subsample_rate, if_pos hrate, hdrop, if_true]

theorem append_of_kept {α : Type} (try_drop : event α → ℚ → drop_pass → Bool)
    (size_estimate : event α → Nat) (s : async_batcher α) (evt : event α)
    (hrate : s._subsample_rate < 1)
    (hkeep : try_drop evt s._subsample_rate drop_pass.SUBSAMPLE_RATE_DROP_PASS = false) :
    s.append try_drop size_estimate evt =
      s.increment_counter.enqueue try_drop size_estimate evt
        [append_action.try_drop s._subsample_rate
          drop_pass.SUBSAMPLE_RATE_DROP_PASS false] := by
  unfold async_batcher.append
  simp [increment_counter_subsample_rate, if_pos hrate, hkeep]

theorem append_of_rate_not_lt {α : Type} (try_drop : event α → ℚ → drop_pass → Bool)
    (size_estimate : event α → Nat) (s : async_batcher α) (evt : event α)
    (hrate : ¬ s._subsample_rate < 1) :
    s.append try_drop size_estimate evt =
      s.increment_counter.enqueue try_drop size_estimate evt [] := by
  unfold async_batcher.append
  simp only [increment_counter_subsample_rate, if_neg hrate]

theorem init_guard_iff (tolerance rate : ℚ) (htol : 0 < tolerance) :
    ((rate < 0 ∨ |rate - 0| < tolerance) ∨ (rate > 1 ∧ ¬ |rate - 1| < tolerance)) ↔
      (rate < tolerance ∨ 1 + tolerance ≤ rate) := by
  rw [sub_zero, abs_lt, abs_lt]
  constructor
  · rintro ((h | h) | ⟨h1, h2⟩)
    · left; linarith
    · left; exact h.2
    · right
      by_contra hc
      apply h2
      constructor <;> linarith
  · rintro (h | h)
    · left
      by_cases h0 : rate < 0
      · left; exact h0
      · right; constructor <;> linarith
    · right
      refine ⟨by linarith, ?_⟩
      rintro ⟨_, h3⟩
      linarith

theorem init_of_background_success {α : Type} (tolerance : ℚ) (s : async_batcher α) :
    s.init tolerance error_code.success =
      if (s._subsample_rate < 0 ∨ |s._subsample_rate - 0| < tolerance) ∨
          (s._subsample_rate > 1 ∧ ¬ |s._subsample_rate - 1| < tolerance) then
        error_code.invalid_argument
      else error_code.success := by
  unfold async_batcher.init are_same
  simp only [ne_eq, not_true_eq_false, if_false, Bool.or_eq_true, Bool.and_eq_true,
    decide_eq_true_eq, Bool.not_eq_true', decide_eq_false_iff_not]

section fill

variable {α β : Type}

theorem fill_loop_step_cond_false (ser : collection_serializer α β) (hwm fuel : Nat)
    (st : fill_state α β) (h : ¬ (0 < st.remaining ∧ ser.size st.buffer < hwm)) :
    fill_loop ser hwm fuel st = (st, loop_exit.finished) := by
  cases fuel <;> simp only [fill_loop, if_neg h]

theorem fill_loop_step_pop (ser : collection_serializer α β) (hwm fuel : Nat)
    (st : fill_state α β) (h : 0 < st.remaining ∧ ser.size st.buffer < hwm)
    (e : event α) (q : event_queue α) (hpop : st.queue.pop = some (e, q))
    (hadd : (ser.add st.buffer e).1 = error_code.success) :
    fill_loop ser hwm (fuel + 1) st =
      fill_loop ser hwm fuel
        { queue := q, remaining := st.remaining - 1, buffer := (ser.add st.buffer e).2,
          evt := e, added := st.added ++ [e] } := by
  rw [fill_loop]
  simp only [if_pos h, hpop, hadd, if_true]

theorem pop_cons (q : event_queue α) (e : event α) (n : Nat) (rest : List (event α × Nat))
    (h : q._queue = (e, n) :: rest) :
    q.pop = some (e, { q with _queue := rest }) := by
  unfold event_queue.pop
  rw [h]

/-- The loop of `fill_buffer` when `add` never fails and `remaining` is the length of
the queue: if it ends by its condition, it has moved a prefix of the queue into the
buffer, and every proper prefix of what it moved was below the mark. -/
theorem fill_loop_finished (ser : collection_serializer α β) (hwm : Nat)
    (hadd : ∀ buf e, (ser.add buf e).1 = error_code.success) :
    ∀ (fuel : Nat) (st : fill_state α β),
      st.remaining = st.queue._queue.length →
      (fill_loop ser hwm fuel st).2 = loop_exit.finished →
      (fill_loop ser hwm fuel st).1.remaining =
        (fill_loop ser hwm fuel st).1.queue._queue.length ∧
      (fill_loop ser hwm fuel st).1.queue._max_capacity = st.queue._max_capacity ∧
      ¬ (0 < (fill_loop ser hwm fuel st).1.remaining ∧
          ser.size (fill_loop ser hwm fuel st).1.buffer < hwm) ∧
      ∃ taken : List (event α),
        (fill_loop ser hwm fuel st).1.added = st.added ++ taken ∧
        st.queue.events = taken ++ (fill_loop ser hwm fuel st).1.queue.events ∧
        (fill_loop ser hwm fuel st).1.buffer = add_all ser st.buffer taken ∧
        (fill_loop ser hwm fuel st).1.evt = (taken.getLast?).getD st.evt ∧
        ((0 < st.remaining ∧ ser.size st.buffer < hwm) → taken ≠ []) ∧
        (∀ k, k < taken.length → ser.size (add_all ser st.buffer (taken.take k)) < hwm) := by
  intro fuel
  induction fuel with
  | zero =>
    intro st hrem hfin
    by_cases hc : 0 < st.remaining ∧ ser.size st.buffer < hwm
    · simp [fill_loop, hc] at hfin
    · rw [fill_loop_step_cond_false ser hwm 0 st hc]
      refine ⟨hrem, rfl, hc, [], ?_⟩
      simp only [add_all, List.append_nil, List.nil_append, List.foldl_nil,
        List.getLast?_nil, Option.getD_none, ne_eq, not_true_eq_false, imp_false,
        List.length_nil, Nat.not_lt_zero, false_implies, implies_true, and_true, true_and]
      exact hc
  | succ fuel ih =>
    intro st hrem hfin
    by_cases hc : 0 < st.remaining ∧ ser.size st.buffer < hwm
    · cases hq : st.queue._queue with
      | nil =>
        rw [hq] at hrem
        simp at hrem
        omega
      | cons p rest =>
        obtain ⟨e, n⟩ := p
        have hpop := pop_cons st.queue e n rest hq
        rw [fill_loop_step_pop ser hwm fuel st hc e _ hpop (hadd _ _)] at hfin ⊢
        have hrem' : st.remaining - 1 = rest.length := by
          rw [hrem, hq]; simp
        obtain ⟨h2, h3, h4, taken, h5, h6, h7, h8, -, h10⟩ :=
          ih { queue := { st.queue with _queue := rest }, remaining := st.remaining - 1,
               buffer := (ser.add st.buffer e).2, evt := e, added := st.added ++ [e] }
            hrem' hfin
        refine ⟨h2, h3, h4, e :: taken, ?_, ?_, ?_, ?_, ?_, ?_⟩
        · rw [h5]; simp
        · simp only [event_queue.events] at h6 ⊢
          rw [hq]
          simp only [List.map_cons, List.cons_append]
          rw [← h6]
        · rw [h7]; simp [add_all]
        · rw [h8]
          cases taken with
          | nil => simp
          | cons a l =>
            rw [List.getLast?_cons_cons, List.getLast?_eq_getLast _ (List.cons_ne_nil a l)]
            rfl
        · intro _; simp
        · intro k hk
          cases k with
          | zero => simpa [add_all] using hc.2
          | succ k =>
            have := h10 k (by simpa using hk)
            simpa [add_all] using this
    · rw [fill_loop_step_cond_false ser hwm (fuel + 1) st hc]
      refine ⟨hrem, rfl, hc, [], ?_⟩
      simp only [add_all, List.append_nil, List.nil_append, List.foldl_nil,
        List.getLast?_nil, Option.getD_none, ne_eq, not_true_eq_false, imp_false,
        List.length_nil, Nat.not_lt_zero, false_implies, implies_true, and_true, true_and]
      exact hc

/-- When `add` never fails the loop of `fill_buffer` does not leave by a failure. -/
theorem fill_loop_exit_no_failure (ser : collection_serializer α β) (hwm : Nat)
    (hadd : ∀ buf e, (ser.add buf e).1 = error_code.success) :
    ∀ (fuel : Nat) (st : fill_state α β),
      (fill_loop ser hwm fuel st).2 = loop_exit.finished ∨
      (fill_loop ser hwm fuel st).2 = loop_exit.out_of_fuel := by
  intro fuel
  induction fuel with
  | zero =>
    intro st
    by_cases hc : 0 < st.remaining ∧ ser.size st.buffer < hwm <;> simp [fill_loop, hc]
  | succ fuel ih =>
    intro st
    by_cases hc : 0 < st.remaining ∧ ser.size st.buffer < hwm
    · rw [fill_loop]
      simp only [if_pos hc]
      cases hp : st.queue.pop with
      | none => exact ih st
      | some p =>
        obtain ⟨e, q⟩ := p
        simp only [hadd, if_true]
        exact ih _
    · rw [fill_loop_step_cond_false ser hwm (fuel + 1) st hc]
      exact Or.inl rfl

/-- With `remaining` the length of the queue, `add` never failing and one unit of fuel
per event, the loop of `fill_buffer` ends by its condition. -/
theorem fill_loop_enough_fuel (ser : collection_serializer α β) (hwm : Nat)
    (hadd : ∀ buf e, (ser.add buf e).1 = error_code.success) :
    ∀ (fuel : Nat) (st : fill_state α β),
      st.remaining = st.queue._queue.length → st.remaining ≤ fuel →
      (fill_loop ser hwm fuel st).2 = loop_exit.finished := by
  intro fuel
  induction fuel with
  | zero =>
    intro st _ hfuel
    have hc : ¬ (0 < st.remaining ∧ ser.size st.buffer < hwm) := by omega
    rw [fill_loop_step_cond_false ser hwm 0 st hc]
  | succ fuel ih =>
    intro st hrem hfuel
    by_cases hc : 0 < st.remaining ∧ ser.size st.buffer < hwm
    · cases hq : st.queue._queue with
      | nil =>
        rw [hq] at hrem
        simp at hrem
        omega
      | cons p rest =>
        obtain ⟨e, n⟩ := p
        have hpop := pop_cons st.queue e n rest hq
        rw [fill_loop_step_pop ser hwm fuel st hc e _ hpop (hadd _ _)]
        apply ih
        · show st.remaining - 1 = rest.length
          rw [hrem, hq]; simp
        · show st.remaining - 1 ≤ fuel
          omega
    · rw [fill_loop_step_cond_false ser hwm (fuel + 1) st hc]

end fill

section flush

variable {α β : Type}

/-- The fields of the result of `fill_buffer` when its loop ended by its condition. -/
theorem fill_buffer_of_finished (ser : collection_serializer α β) (d : event α)
    (fuel : Nat) (s : async_batcher α) (remaining : Nat)
    (st : fill_state α β)
    (h : fill_loop ser s._send_high_water_mark fuel
      { queue := s._queue, remaining := remaining, buffer := ser.init, evt := d, added := [] }
        = (st, loop_exit.finished)) :
    (∃ c, (s.fill_buffer ser d fuel remaining).code = some c) ∧
    (s.fill_buffer ser d fuel remaining).remaining = st.remaining ∧
    (s.fill_buffer ser d fuel remaining).added = st.added ∧
    (s.fill_buffer ser d fuel remaining).state._queue = st.queue ∧
    (s.fill_buffer ser d fuel remaining).state._send_high_water_mark =
      s._send_high_water_mark ∧
    (s.fill_buffer ser d fuel remaining).state._events_counter_status =
      s._events_counter_status ∧
    (s.fill_buffer ser d fuel remaining).state._event_index = s._event_index ∧
    (s._events_counter_status = events_counter_status.ENABLE →
      (s.fill_buffer ser d fuel remaining).finalize_call =
        some (some (uint64_sub st.evt.get_event_index s._buffer_end_event_number)) ∧
      (s.fill_buffer ser d fuel remaining).state._buffer_end_event_number =
        st.evt.get_event_index) ∧
    (s._events_counter_status ≠ events_counter_status.ENABLE →
      (s.fill_buffer ser d fuel remaining).finalize_call = some none ∧
      (s.fill_buffer ser d fuel remaining).state._buffer_end_event_number =
        s._buffer_end_event_number) := by
  unfold async_batcher.fill_buffer
  simp only [h]
  by_cases hm : s._events_counter_status = events_counter_status.ENABLE
  · simp [hm]
  · simp [hm]

/-- A call of `fill_buffer` that made a `finalize` call left its loop by the loop's
condition. -/
theorem fill_buffer_finalize_finished (ser : collection_serializer α β) (d : event α)
    (fuel : Nat) (s : async_batcher α) (remaining : Nat)
    (h : (s.fill_buffer ser d fuel remaining).finalize_call ≠ none) :
    (fill_loop ser s._send_high_water_mark fuel
      { queue := s._queue, remaining := remaining, buffer := ser.init, evt := d,
        added := [] }).2 = loop_exit.finished := by
  unfold async_batcher.fill_buffer at h
  generalize fill_loop ser s._send_high_water_mark fuel
    { queue := s._queue, remaining := remaining, buffer := ser.init, evt := d,
      added := [] } = r at h ⊢
  obtain ⟨st, ex⟩ := r
  cases ex <;> simp at h ⊢

/-- A call of `fill_buffer` that returned a code, with a serializer whose `add` never
fails, left its loop by the loop's condition. -/
theorem fill_buffer_code_finished (ser : collection_serializer α β) (d : event α)
    (hadd : ∀ buf e, (ser.add buf e).1 = error_code.success)
    (fuel : Nat) (s : async_batcher α) (remaining : Nat) (c : error_code)
    (h : (s.fill_buffer ser d fuel remaining).code = some c) :
    (fill_loop ser s._send_high_water_mark fuel
      { queue := s._queue, remaining := remaining, buffer := ser.init, evt := d,
        added := [] }).2 = loop_exit.finished := by
  rcases fill_loop_exit_no_failure ser s._send_high_water_mark hadd fuel
    { queue := s._queue, remaining := remaining, buffer := ser.init, evt := d,
      added := [] } with hf | hf
  · exact hf
  · unfold async_batcher.fill_buffer at h
    simp [hf] at h

theorem flush_loop_zero_remaining (ser : collection_serializer α β) (d : event α)
    (send : β → error_code) (cb : Bool) (fuel : Nat) (s : async_batcher α) :
    flush_loop ser d send cb fuel s 0 =
      { state := s, batches := [], exit := flush_exit.returned } := by
  cases fuel <;> simp [flush_loop]

/-- One call of `fill_buffer` that returned, when `add` never fails and `remaining` is
the length of the queue: the batch is a prefix of the queue, cut by the mark. -/
theorem fill_buffer_no_failure (ser : collection_serializer α β) (d : event α)
    (hadd : ∀ buf e, (ser.add buf e).1 = error_code.success)
    (fuel : Nat) (s : async_batcher α) (remaining : Nat)
    (hrem : remaining = s._queue._queue.length) (c : error_code)
    (hcode : (s.fill_buffer ser d fuel remaining).code = some c) :
    (s.fill_buffer ser d fuel remaining).remaining =
      (s.fill_buffer ser d fuel remaining).state._queue._queue.length ∧
    (s.fill_buffer ser d fuel remaining).state._send_high_water_mark =
      s._send_high_water_mark ∧
    s._queue.events = (s.fill_buffer ser d fuel remaining).added ++
      (s.fill_buffer ser d fuel remaining).state._queue.events ∧
    (0 < (s.fill_buffer ser d fuel remaining).remaining →
      s._send_high_water_mark ≤
        ser.size (serialize ser (s.fill_buffer ser d fuel remaining).added)) ∧
    ((s.fill_buffer ser d fuel remaining).added ≠ [] →
      ser.size (serialize ser (s.fill_buffer ser d fuel remaining).added.dropLast) <
        s._send_high_water_mark) ∧
    ((0 < remaining ∧ ser.size ser.init < s._send_high_water_mark) →
      (s.fill_buffer ser d fuel remaining).added ≠ [] ∧
      (s.fill_buffer ser d fuel remaining).remaining < remaining) := by
  have hfin := fill_buffer_code_finished ser d hadd fuel s remaining c hcode
  obtain ⟨h2, _, h4, taken, h5, h6, h7, _, h9, h10⟩ :=
    fill_loop_finished ser s._send_high_water_mark hadd fuel
      { queue := s._queue, remaining := remaining, buffer := ser.init, evt := d, added := [] }
      hrem hfin
  obtain ⟨-, g2, g3, g4, g5, -⟩ := fill_buffer_of_finished ser d fuel s remaining _
    (Prod.ext rfl hfin)
  simp only [List.nil_append] at h5
  have hlen : remaining = taken.length + (s.fill_buffer ser d fuel remaining).remaining := by
    have := congrArg List.length h6
    simp only [event_queue.events, List.length_map, List.length_append] at this
    rw [g2, h2, ← this, hrem]
  refine ⟨?_, g5, ?_, ?_, ?_, ?_⟩
  · rw [g2, g4]; exact h2
  · rw [g3, g4, h5]; exact h6
  · intro hp
    rw [g2] at hp
    rw [g3, h5]
    have : ¬ ser.size (add_all ser ser.init taken) < s._send_high_water_mark := by
      intro hlt
      apply h4
      refine ⟨hp, ?_⟩
      rw [h7]; exact hlt
    unfold serialize
    omega
  · rw [g3, h5]
    intro hne
    have htl : 0 < taken.length := List.length_pos.mpr hne
    unfold serialize
    rw [List.dropLast_eq_take]
    exact h10 _ (by omega)
  · intro hc
    have hne : taken ≠ [] := h9 hc
    have htl : 0 < taken.length := List.length_pos.mpr hne
    refine ⟨?_, by omega⟩
    rw [g3, h5]; exact hne

/-- With one unit of fuel per event, `fill_buffer` returns a code when `add` never
fails. -/
theorem fill_buffer_enough_fuel (ser : collection_serializer α β) (d : event α)
    (hadd : ∀ buf e, (ser.add buf e).1 = error_code.success)
    (fuel : Nat) (s : async_batcher α) (remaining : Nat)
    (hrem : remaining = s._queue._queue.length) (hfuel : remaining ≤ fuel) :
    ∃ c, (s.fill_buffer ser d fuel remaining).code = some c := by
  have hfin := fill_loop_enough_fuel ser s._send_high_water_mark hadd fuel
    { queue := s._queue, remaining := remaining, buffer := ser.init, evt := d, added := [] }
    hrem hfuel
  exact (fill_buffer_of_finished ser d fuel s remaining _ (Prod.ext rfl hfin)).1

end flush

section flush

variable {α β : Type}

theorem flush_loop_step (ser : collection_serializer α β) (d : event α)
    (send : β → error_code) (cb : Bool) (fuel : Nat) (s : async_batcher α) (remaining : Nat)
    (hpos : 0 < remaining) (c : error_code)
    (hc : (s.fill_buffer ser d (fuel + 1) remaining).code = some c) :
    flush_loop ser d send cb (fuel + 1) s remaining =
      { flush_loop ser d send cb fuel (s.fill_buffer ser d (fuel + 1) remaining).state
          (s.fill_buffer ser d (fuel + 1) remaining).remaining with
        batches :=
          { added := (s.fill_buffer ser d (fuel + 1) remaining).added
            finalize_call := (s.fill_buffer ser d (fuel + 1) remaining).finalize_call
            fill_code := c
            buffer := (s.fill_buffer ser d (fuel + 1) remaining).buffer
            send_call := send_overload.plain
            send_code := send (s.fill_buffer ser d (fuel + 1) remaining).buffer
            error_callbacks :=
              (if c ≠ error_code.success then ERROR_CALLBACK cb c else []) ++
              (if send (s.fill_buffer ser d (fuel + 1) remaining).buffer ≠ error_code.success
                then ERROR_CALLBACK cb (send (s.fill_buffer ser d (fuel + 1) remaining).buffer)
                else []) } ::
          (flush_loop ser d send cb fuel (s.fill_buffer ser d (fuel + 1) remaining).state
            (s.fill_buffer ser d (fuel + 1) remaining).remaining).batches } := by
  rw [flush_loop]
  simp only [if_pos hpos, hc]

theorem flush_loop_step_out_of_fuel (ser : collection_serializer α β) (d : event α)
    (send : β → error_code) (cb : Bool) (fuel : Nat) (s : async_batcher α) (remaining : Nat)
    (hpos : 0 < remaining)
    (hc : (s.fill_buffer ser d (fuel + 1) remaining).code = none) :
    (flush_loop ser d send cb (fuel + 1) s remaining).batches = [] := by
  rw [flush_loop]
  simp only [if_pos hpos, hc]

/-- The batches of the loop of `flush`, for any amount of fuel, when `add` never fails
and `remaining` is the length of the queue: every batch that is followed by another
one has reached the mark, and every batch was below the mark before its last event. -/
theorem flush_loop_cut (ser : collection_serializer α β) (d : event α)
    (send : β → error_code) (cb : Bool)
    (hadd : ∀ buf e, (ser.add buf e).1 = error_code.success) :
    ∀ (fuel : Nat) (s : async_batcher α) (remaining : Nat),
      remaining = s._queue._queue.length →
      (∀ b ∈ (flush_loop ser d send cb fuel s remaining).batches,
        (b.added ≠ [] →
          ser.size (serialize ser b.added.dropLast) < s._send_high_water_mark) ∧
        (ser.size ser.init < s._send_high_water_mark → b.added ≠ [])) ∧
      (∀ b ∈ (flush_loop ser d send cb fuel s remaining).batches.dropLast,
        s._send_high_water_mark ≤ ser.size (serialize ser b.added)) := by
  intro fuel
  induction fuel with
  | zero =>
    intro s remaining _
    by_cases hpos : 0 < remaining <;> simp [flush_loop, hpos]
  | succ fuel ih =>
    intro s remaining hrem
    by_cases hpos : 0 < remaining
    · cases hcode : (s.fill_buffer ser d (fuel + 1) remaining).code with
      | none =>
        rw [flush_loop_step_out_of_fuel ser d send cb fuel s remaining hpos hcode]
        simp
      | some c =>
        obtain ⟨f1, f2, -, f4, f5, f6⟩ :=
          fill_buffer_no_failure ser d hadd (fuel + 1) s remaining hrem c hcode
        rw [flush_loop_step ser d send cb fuel s remaining hpos c hcode]
        obtain ⟨i1, i2⟩ := ih (s.fill_buffer ser d (fuel + 1) remaining).state
          (s.fill_buffer ser d (fuel + 1) remaining).remaining f1
        rw [f2] at i1 i2
        refine ⟨?_, ?_⟩
        · intro b hb
          simp only [List.mem_cons] at hb
          rcases hb with hb | hb
          · subst hb
            exact ⟨f5, fun hinit => (f6 ⟨hpos, hinit⟩).1⟩
          · exact i1 b hb
        · intro b hb
          by_cases hrest : (flush_loop ser d send cb fuel
              (s.fill_buffer ser d (fuel + 1) remaining).state
              (s.fill_buffer ser d (fuel + 1) remaining).remaining).batches = []
          · simp only [hrest, List.dropLast_single, List.not_mem_nil] at hb
          · simp only [List.dropLast_cons_of_ne_nil hrest, List.mem_cons] at hb
            rcases hb with hb | hb
            · subst hb
              apply f4
              by_contra h0
              have h0' : (s.fill_buffer ser d (fuel + 1) remaining).remaining = 0 := by omega
              rw [h0', flush_loop_zero_remaining] at hrest
              exact hrest rfl
            · exact i2 b hb
    · have h0 : remaining = 0 := by omega
      subst h0
      rw [flush_loop_zero_remaining]
      simp

/-- The loop of `flush` when `add` never fails, `remaining` is the length of the
queue and a fresh buffer is below the mark: with one unit of fuel per event it
returns with the queue empty, and the batches hold the events of the queue in
order. -/
theorem flush_loop_drains (ser : collection_serializer α β) (d : event α)
    (send : β → error_code) (cb : Bool)
    (hadd : ∀ buf e, (ser.add buf e).1 = error_code.success) :
    ∀ (fuel : Nat) (s : async_batcher α) (remaining : Nat),
      remaining = s._queue._queue.length → remaining ≤ fuel →
      ser.size ser.init < s._send_high_water_mark →
      (flush_loop ser d send cb fuel s remaining).exit = flush_exit.returned ∧
      (flush_loop ser d send cb fuel s remaining).state._queue._queue = [] ∧
      (flush_loop ser d send cb fuel s remaining).batches.flatMap (fun b => b.added) =
        s._queue.events := by
  intro fuel
  induction fuel with
  | zero =>
    intro s remaining hrem hfuel _
    have h0 : remaining = 0 := Nat.le_zero.mp hfuel
    subst h0
    rw [flush_loop_zero_remaining]
    have hq : s._queue._queue = [] := List.length_eq_zero.mp hrem.symm
    simp [event_queue.events, hq]
  | succ fuel ih =>
    intro s remaining hrem hfuel hinit
    by_cases hpos : 0 < remaining
    · obtain ⟨c, hc⟩ := fill_buffer_enough_fuel ser d hadd (fuel + 1) s remaining hrem hfuel
      obtain ⟨f1, f2, f3, -, -, f6⟩ :=
        fill_buffer_no_failure ser d hadd (fuel + 1) s remaining hrem c hc
      have f7 := (f6 ⟨hpos, hinit⟩).2
      rw [flush_loop_step ser d send cb fuel s remaining hpos c hc]
      obtain ⟨i1, i2, i3⟩ := ih (s.fill_buffer ser d (fuel + 1) remaining).state
        (s.fill_buffer ser d (fuel + 1) remaining).remaining f1 (by omega)
        (by rw [f2]; exact hinit)
      refine ⟨i1, i2, ?_⟩
      simp only [List.flatMap_cons]
      rw [i3, f3]
    · have h0 : remaining = 0 := by omega
      subst h0
      rw [flush_loop_zero_remaining]
      have hq : s._queue._queue = [] := List.length_eq_zero.mp hrem.symm
      simp [event_queue.events, hq]

end flush

/-- After the loop of `fill_buffer` ended by its condition, the local `evt` is the
last event added to the buffer (or what it was before, when none was added). -/
theorem fill_loop_evt_last {α β : Type} (ser : collection_serializer α β) (hwm : Nat)
    (d : event α) :
    ∀ (fuel : Nat) (st : fill_state α β),
      st.evt = (st.added.getLast?).getD d →
      (fill_loop ser hwm fuel st).2 = loop_exit.finished →
      (fill_loop ser hwm fuel st).1.evt =
        ((fill_loop ser hwm fuel st).1.added.getLast?).getD d := by
  intro fuel
  induction fuel with
  | zero =>
    intro st hevt hfin
    by_cases hc : 0 < st.remaining ∧ ser.size st.buffer < hwm
    · simp [fill_loop, hc] at hfin
    · rw [fill_loop_step_cond_false ser hwm 0 st hc]
      exact hevt
  | succ fuel ih =>
    intro st hevt hfin
    by_cases hc : 0 < st.remaining ∧ ser.size st.buffer < hwm
    · rw [fill_loop] at hfin ⊢
      simp only [if_pos hc] at hfin ⊢
      cases hp : st.queue.pop with
      | none =>
        simp only [hp] at hfin ⊢
        exact ih st hevt hfin
      | some p =>
        obtain ⟨e, q⟩ := p
        simp only [hp] at hfin ⊢
        by_cases ha : (ser.add st.buffer e).1 = error_code.success
        · simp only [ha, if_true] at hfin ⊢
          apply ih _ _ hfin
          simp
        · simp [ha] at hfin
    · rw [fill_loop_step_cond_false ser hwm (fuel + 1) st hc]
      exact hevt

/-- The `uint64_t` subtraction is the plain difference when it does not wrap. -/
theorem uint64_sub_of_le (a b : Nat) (hle : b ≤ a) (ha : a < UINT64_MOD) :
    uint64_sub a b = a - b := by
  unfold uint64_sub
  have hb : b < UINT64_MOD := lt_of_le_of_lt hle ha
  rw [Nat.mod_eq_of_lt ha, Nat.mod_eq_of_lt hb]
  have : a + UINT64_MOD - b = (a - b) + UINT64_MOD := by omega
  rw [this, Nat.add_mod_right, Nat.mod_eq_of_lt (by omega)]

section sequences

variable {α β : Type}

theorem enqueue_status (try_drop : event α → ℚ → drop_pass → Bool)
    (size_estimate : event α → Nat) (s : async_batcher α) (evt : event α)
    (consulted : List (append_action α)) :
    (s.enqueue try_drop size_estimate evt consulted).state._events_counter_status =
      s._events_counter_status := by
  unfold async_batcher.enqueue
  simp only
  split_ifs <;> rfl

theorem append_status (try_drop : event α → ℚ → drop_pass → Bool)
    (size_estimate : event α → Nat) (s : async_batcher α) (evt : event α) :
    (s.append try_drop size_estimate evt).state._events_counter_status =
      s._events_counter_status := by
  unfold async_batcher.append
  simp only
  split_ifs
  · exact increment_counter_status s
  · rw [enqueue_status, increment_counter_status]
  · rw [enqueue_status, increment_counter_status]

/-- The event that `append` pushes in counter mode ENABLE carries the new value of
`_event_index`. -/
theorem append_pushed_index (try_drop : event α → ℚ → drop_pass → Bool)
    (size_estimate : event α → Nat) (s : async_batcher α) (evt e : event α)
    (hmode : s._events_counter_status = events_counter_status.ENABLE)
    (hp : (s.append try_drop size_estimate evt).pushed = some e) :
    e.get_event_index = (s._event_index + 1) % UINT64_MOD := by
  have hidx : (s.increment_counter.indexed evt).get_event_index =
      (s._event_index + 1) % UINT64_MOD := by
    unfold async_batcher.indexed
    rw [increment_counter_status, if_pos hmode, increment_counter_index_ENABLE s hmode]
    rfl
  by_cases hrate : s._subsample_rate < 1
  · cases hd : try_drop evt s._subsample_rate drop_pass.SUBSAMPLE_RATE_DROP_PASS with
    | true =>
      rw [append_of_dropped try_drop size_estimate s evt hrate hd] at hp
      simp [append_result.pushed] at hp
    | false =>
      rw [append_of_kept try_drop size_estimate s evt hrate hd, enqueue_pushed] at hp
      · cases hp; exact hidx
      · intro a ha e n
        simp at ha
        subst ha
        simp
  · rw [append_of_rate_not_lt try_drop size_estimate s evt hrate, enqueue_pushed] at hp
    · cases hp; exact hidx
    · intro a ha
      simp at ha

theorem fill_buffer_counter (ser : collection_serializer α β) (d : event α) (fuel : Nat)
    (s : async_batcher α) (remaining : Nat) :
    (s.fill_buffer ser d fuel remaining).state._event_index = s._event_index ∧
    (s.fill_buffer ser d fuel remaining).state._events_counter_status =
      s._events_counter_status := by
  unfold async_batcher.fill_buffer
  generalize fill_loop ser s._send_high_water_mark fuel
    { queue := s._queue, remaining := remaining, buffer := ser.init, evt := d,
      added := [] } = r
  obtain ⟨st, ex⟩ := r
  cases ex
  · simp only
    split_ifs <;> exact ⟨rfl, rfl⟩
  · exact ⟨rfl, rfl⟩
  · exact ⟨rfl, rfl⟩

theorem flush_loop_counter (ser : collection_serializer α β) (d : event α)
    (send : β → error_code) (cb : Bool) :
    ∀ (fuel : Nat) (s : async_batcher α) (remaining : Nat),
      (flush_loop ser d send cb fuel s remaining).state._event_index = s._event_index ∧
      (flush_loop ser d send cb fuel s remaining).state._events_counter_status =
        s._events_counter_status := by
  intro fuel
  induction fuel with
  | zero =>
    intro s remaining
    by_cases hpos : 0 < remaining <;> simp [flush_loop, hpos]
  | succ fuel ih =>
    intro s remaining
    have hf := fill_buffer_counter ser d (fuel + 1) s remaining
    by_cases hpos : 0 < remaining
    · rw [flush_loop]
      simp only [if_pos hpos]
      cases hcode : (s.fill_buffer ser d (fuel + 1) remaining).code with
      | none => exact hf
      | some c =>
        simp only
        have := ih (s.fill_buffer ser d (fuel + 1) remaining).state
          (s.fill_buffer ser d (fuel + 1) remaining).remaining
        rw [hf.1, hf.2] at this
        exact this
    · have h0 : remaining = 0 := by omega
      subst h0
      rw [flush_loop_zero_remaining]
      exact ⟨rfl, rfl⟩

theorem flush_counter (ser : collection_serializer α β) (d : event α)
    (send : β → error_code) (cb : Bool) (fuel : Nat) (s : async_batcher α) :
    (s.flush ser d send cb fuel).state._event_index = s._event_index ∧
    (s.flush ser d send cb fuel).state._events_counter_status =
      s._events_counter_status := by
  unfold async_batcher.flush
  simp only
  split_ifs
  · exact ⟨rfl, rfl⟩
  · exact flush_loop_counter ser d send cb fuel s _

/-- The events admitted by a sequence of steps in counter mode ENABLE carry the number
of the call that admitted them, and these numbers increase. -/
theorem admitted_indexed (env : batcher_env α β) :
    ∀ (steps : List (batcher_step α)) (s : async_batcher α) (calls : Nat),
      s._events_counter_status = events_counter_status.ENABLE →
      s._event_index = calls →
      calls + append_calls steps < UINT64_MOD →
      (∀ p ∈ env.admitted s calls steps, p.2.get_event_index = p.1 ∧ calls < p.1) ∧
      (env.admitted s calls steps).Pairwise (fun a b => a.1 < b.1) := by
  intro steps
  induction steps with
  | nil =>
    intro s calls _ _ _
    simp [batcher_env.admitted]
  | cons step rest ih =>
    intro s calls hmode hidx hroom
    cases step with
    | append evt =>
      simp only [append_calls] at hroom
      have hnext : (s.append env.try_drop env.size_estimate evt).state._event_index =
          calls + 1 := by
        rw [append_event_index, increment_counter_index_ENABLE s hmode, hidx,
          Nat.mod_eq_of_lt (by omega)]
      obtain ⟨i1, i2⟩ := ih (s.append env.try_drop env.size_estimate evt).state (calls + 1)
        (by rw [append_status]; exact hmode) hnext (by omega)
      simp only [batcher_env.admitted]
      cases hp : (s.append env.try_drop env.size_estimate evt).pushed with
      | none =>
        simp only [List.nil_append]
        exact ⟨fun p hpm => ⟨(i1 p hpm).1, by have := (i1 p hpm).2; omega⟩, i2⟩
      | some e =>
        have he := append_pushed_index env.try_drop env.size_estimate s evt e hmode hp
        rw [hidx, Nat.mod_eq_of_lt (by omega)] at he
        simp only [List.singleton_append]
        refine ⟨?_, ?_⟩
        · intro p hpm
          simp only [List.mem_cons] at hpm
          rcases hpm with hpm | hpm
          · subst hpm
            exact ⟨he, Nat.lt_succ_self calls⟩
          · exact ⟨(i1 p hpm).1, by have := (i1 p hpm).2; omega⟩
        · rw [List.pairwise_cons]
          exact ⟨fun p hpm => (i1 p hpm).2, i2⟩
    | flush fuel =>
      simp only [append_calls] at hroom
      simp only [batcher_env.admitted, batcher_env.step]
      have hf := flush_counter env.serializer env.default_event env.send env.perror_cb fuel s
      exact ih _ calls (by rw [hf.2]; exact hmode) (by rw [hf.1]; exact hidx) hroom

end sequences

/-! ## The scenarios of the unit tests, run on the model -/

/-- The two `append` calls of `flush_timeout_with_counter_ENABLE` lead to
`flush_timeout_state`. -/
theorem flush_timeout_run :
    undroppable_test_env.run (async_batcher.create String flush_timeout_config)
      flush_timeout_steps = flush_timeout_state := by
  norm_num [batcher_env.run, batcher_env.step, flush_timeout_steps, undroppable_test_env,
    flush_timeout_config, flush_timeout_state, async_batcher.create, async_batcher.append,
    async_batcher.enqueue, async_batcher.increment_counter, async_batcher.indexed,
    test_undroppable_event.try_drop, event_queue.push, event_queue.is_full,
    event_queue.size, event.set_event_index, UINT64_MOD, test_size_estimate]

/-- The three `append` calls of `flush_batches_with_counter_ENABLE` lead to
`flush_batches_state`. -/
theorem flush_batches_run :
    undroppable_test_env.run (async_batcher.create String flush_batches_config)
      flush_batches_steps = flush_batches_state := by
  norm_num [batcher_env.run, batcher_env.step, flush_batches_steps, undroppable_test_env,
    flush_batches_config, flush_batches_state, async_batcher.create, async_batcher.append,
    async_batcher.enqueue, async_batcher.increment_counter, async_batcher.indexed,
    test_undroppable_event.try_drop, event_queue.push, event_queue.is_full,
    event_queue.size, event.set_event_index, UINT64_MOD, test_size_estimate]

/-- The five `append` calls of `queue_config_drop_rate_test_with_counter_ENABLE` lead
to `drop_rate_test_state`: the events "1.00" and "0.71" are dropped by the subsampling
pass, the counter stands at 5 and the last event of the queue carries the index 4. -/
theorem drop_rate_test_run :
    drop_rate_test_env.run
      (async_batcher.create config_drop_seed
        (drop_rate_test_config queue_mode_enum.DROP events_counter_status.ENABLE))
      drop_rate_test_steps = drop_rate_test_state := by
  norm_num [batcher_env.run, batcher_env.step, drop_rate_test_steps, drop_rate_test_env,
    drop_rate_test_config, drop_rate_test_state, async_batcher.create,
    async_batcher.append, async_batcher.enqueue, async_batcher.increment_counter,
    async_batcher.indexed, config_drop_event.try_drop, are_same, DEFAULT_FLOAT_TOLERANCE,
    event_queue.push, event_queue.is_full, event_queue.size, event.set_event_index,
    UINT64_MOD, test_size_estimate, abs_lt]

/-- Every round of the loop of `flush` calls the plain overload of `send`. -/
theorem flush_loop_send_plain {α β : Type} (ser : collection_serializer α β)
    (d : event α) (send : β → error_code) (cb : Bool) :
    ∀ (fuel : Nat) (s : async_batcher α) (remaining : Nat),
      ∀ b ∈ (flush_loop ser d send cb fuel s remaining).batches,
        b.send_call = send_overload.plain := by
  intro fuel
  induction fuel with
  | zero =>
    intro s remaining
    by_cases hpos : 0 < remaining <;> simp [flush_loop, hpos]
  | succ fuel ih =>
    intro s remaining
    by_cases hpos : 0 < remaining
    · cases hcode : (s.fill_buffer ser d (fuel + 1) remaining).code with
      | none =>
        rw [flush_loop_step_out_of_fuel ser d send cb fuel s remaining hpos hcode]
        simp
      | some c =>
        rw [flush_loop_step ser d send cb fuel s remaining hpos c hcode]
        intro b hb
        simp only [List.mem_cons] at hb
        rcases hb with hb | hb
        · subst hb; rfl
        · exact ih _ _ b hb
    · have h0 : remaining = 0 := by omega
      subst h0
      rw [flush_loop_zero_remaining]
      simp

/-- `add` of the line serializer of the tests never fails. -/
theorem line_serializer_add_succeeds (buf : String) (e : event String) :
    (line_serializer.add buf e).1 = error_code.success := rfl

section chain
variable {α β : Type}

/-- A loop of `fill_buffer` that starts with its condition true and ends by its
condition has added an event. -/
theorem fill_loop_added_grows (ser : collection_serializer α β) (hwm : Nat) :
    ∀ (fuel : Nat) (st : fill_state α β),
      (fill_loop ser hwm fuel st).2 = loop_exit.finished →
      st.added.length ≤ (fill_loop ser hwm fuel st).1.added.length ∧
      ((0 < st.remaining ∧ ser.size st.buffer < hwm) →
        st.added.length < (fill_loop ser hwm fuel st).1.added.length) := by
  intro fuel
  induction fuel with
  | zero =>
    intro st hfin
    by_cases hc : 0 < st.remaining ∧ ser.size st.buffer < hwm
    · simp [fill_loop, hc] at hfin
    · rw [fill_loop_step_cond_false ser hwm 0 st hc]
      exact ⟨le_refl _, fun h => absurd h hc⟩
  | succ fuel ih =>
    intro st hfin
    by_cases hc : 0 < st.remaining ∧ ser.size st.buffer < hwm
    · rw [fill_loop] at hfin ⊢
      simp only [if_pos hc] at hfin ⊢
      cases hp : st.queue.pop with
      | none =>
        simp only [hp] at hfin ⊢
        exact ih st hfin
      | some p =>
        obtain ⟨e, q⟩ := p
        simp only [hp] at hfin ⊢
        by_cases ha : (ser.add st.buffer e).1 = error_code.success
        · simp only [ha, if_true] at hfin ⊢
          have := (ih _ hfin).1
          simp only [List.length_append, List.length_singleton] at this
          exact ⟨by omega, fun _ => by omega⟩
        · simp [ha] at hfin
    · rw [fill_loop_step_cond_false ser hwm (fuel + 1) st hc]
      exact ⟨le_refl _, fun h => absurd h hc⟩

/-- What a call of `fill_buffer` leaves in counter mode ENABLE when it is entered with
`remaining > 0` and a fresh buffer below the mark: either no `finalize` call and
`_buffer_end_event_number` as it was, or a batch with a last event, finalized with the
difference of the two indices, and `_buffer_end_event_number` at the index of that
event. -/
theorem fill_buffer_chain (ser : collection_serializer α β) (d : event α) (fuel : Nat)
    (s : async_batcher α) (remaining : Nat)
    (hmode : s._events_counter_status = events_counter_status.ENABLE)
    (hpos : 0 < remaining) (hinit : ser.size ser.init < s._send_high_water_mark) :
    (s.fill_buffer ser d fuel remaining).state._send_high_water_mark =
      s._send_high_water_mark ∧
    (((s.fill_buffer ser d fuel remaining).finalize_call = none ∧
      (s.fill_buffer ser d fuel remaining).state._buffer_end_event_number =
        s._buffer_end_event_number) ∨
    (∃ last, (s.fill_buffer ser d fuel remaining).added.getLast? = some last ∧
      (s.fill_buffer ser d fuel remaining).finalize_call =
        some (some (uint64_sub last.get_event_index s._buffer_end_event_number)) ∧
      (s.fill_buffer ser d fuel remaining).state._buffer_end_event_number =
        last.get_event_index)) := by
  cases hex : (fill_loop ser s._send_high_water_mark fuel
      { queue := s._queue, remaining := remaining, buffer := ser.init, evt := d,
        added := [] }).2 with
  | finished =>
    have hevt := fill_loop_evt_last ser s._send_high_water_mark d fuel
      { queue := s._queue, remaining := remaining, buffer := ser.init, evt := d,
        added := [] } rfl hex
    have hgrow := (fill_loop_added_grows ser s._send_high_water_mark fuel
      { queue := s._queue, remaining := remaining, buffer := ser.init, evt := d,
        added := [] } hex).2 ⟨hpos, hinit⟩
    obtain ⟨-, -, g3, -, g5, -, -, g8, -⟩ :=
      fill_buffer_of_finished ser d fuel s remaining _ (Prod.ext rfl hex)
    obtain ⟨g9, g10⟩ := g8 hmode
    refine ⟨g5, Or.inr ?_⟩
    rw [← g3] at hevt hgrow
    simp only [List.length_nil] at hgrow
    have hne : (s.fill_buffer ser d fuel remaining).added ≠ [] :=
      List.ne_nil_of_length_pos hgrow
    rw [List.getLast?_eq_getLast _ hne] at hevt ⊢
    simp only [Option.getD_some] at hevt
    refine ⟨_, rfl, ?_, ?_⟩
    · rw [← hevt]; exact g9
    · rw [← hevt]; exact g10
  | add_failed c =>
    simp [async_batcher.fill_buffer, hex]
  | out_of_fuel =>
    simp [async_batcher.fill_buffer, hex]

theorem fill_buffer_code_none (ser : collection_serializer α β) (d : event α) (fuel : Nat)
    (s : async_batcher α) (remaining : Nat)
    (h : (s.fill_buffer ser d fuel remaining).code = none) :
    (s.fill_buffer ser d fuel remaining).state._buffer_end_event_number =
      s._buffer_end_event_number ∧
    (s.fill_buffer ser d fuel remaining).state._send_high_water_mark =
      s._send_high_water_mark := by
  unfold async_batcher.fill_buffer at h ⊢
  generalize fill_loop ser s._send_high_water_mark fuel
    { queue := s._queue, remaining := remaining, buffer := ser.init, evt := d,
      added := [] } = r at h ⊢
  obtain ⟨st, ex⟩ := r
  cases ex
  · simp only at h
    split_ifs at h
  · simp at h
  · exact ⟨rfl, rfl⟩

theorem flush_loop_chain (ser : collection_serializer α β) (d : event α)
    (send : β → error_code) (cb : Bool) :
    ∀ (fuel : Nat) (s : async_batcher α) (remaining : Nat),
      s._events_counter_status = events_counter_status.ENABLE →
      ser.size ser.init < s._send_high_water_mark →
      counts_chained s._buffer_end_event_number
        (flush_loop ser d send cb fuel s remaining).batches = true ∧
      (flush_loop ser d send cb fuel s remaining).state._buffer_end_event_number =
        last_built_index s._buffer_end_event_number
          (flush_loop ser d send cb fuel s remaining).batches ∧
      (flush_loop ser d send cb fuel s remaining).state._send_high_water_mark =
        s._send_high_water_mark := by
  intro fuel
  induction fuel with
  | zero =>
    intro s remaining _ _
    by_cases hpos : 0 < remaining <;> simp [flush_loop, hpos, counts_chained, last_built_index]
  | succ fuel ih =>
    intro s remaining hmode hinit
    by_cases hpos : 0 < remaining
    · cases hcode : (s.fill_buffer ser d (fuel + 1) remaining).code with
      | none =>
        obtain ⟨n1, n2⟩ := fill_buffer_code_none ser d (fuel + 1) s remaining hcode
        rw [flush_loop]
        simp only [if_pos hpos, hcode, counts_chained, last_built_index]
        exact ⟨trivial, n1, n2⟩
      | some c =>
        obtain ⟨c1, c2⟩ := fill_buffer_chain ser d (fuel + 1) s remaining hmode hpos hinit
        have hst := (fill_buffer_counter ser d (fuel + 1) s remaining).2
        obtain ⟨i1, i2, i3⟩ := ih (s.fill_buffer ser d (fuel + 1) remaining).state
          (s.fill_buffer ser d (fuel + 1) remaining).remaining (by rw [hst]; exact hmode)
          (by rw [c1]; exact hinit)
        rw [flush_loop_step ser d send cb fuel s remaining hpos c hcode]
        rcases c2 with ⟨hnone, hbend⟩ | ⟨last, hlast, hfin, hbend⟩
        · rw [hbend] at i1 i2
          simp only [counts_chained, last_built_index, hnone]
          exact ⟨i1, i2, by rw [i3, c1]⟩
        · rw [hbend] at i1 i2
          simp only [counts_chained, last_built_index, hfin, hlast, decide_True,
            Bool.true_and]
          exact ⟨i1, i2, by rw [i3, c1]⟩
    · have h0 : remaining = 0 := by omega
      subst h0
      rw [flush_loop_zero_remaining]
      simp [counts_chained, last_built_index]

theorem counts_chained_append (previous : Nat) (l1 l2 : List (batch_record α β)) :
    counts_chained previous (l1 ++ l2) =
      (counts_chained previous l1 && counts_chained (last_built_index previous l1) l2) := by
  induction l1 generalizing previous with
  | nil => simp [counts_chained, last_built_index]
  | cons b rest ih =>
    rw [List.cons_append, counts_chained, counts_chained, last_built_index]
    cases hf : b.finalize_call with
    | none => simp only [ih]
    | some c =>
      cases hl : b.added.getLast? with
      | none => simp
      | some last => simp only [ih, Bool.and_assoc]

theorem last_built_index_append (previous : Nat) (l1 l2 : List (batch_record α β)) :
    last_built_index previous (l1 ++ l2) =
      last_built_index (last_built_index previous l1) l2 := by
  induction l1 generalizing previous with
  | nil => simp [last_built_index]
  | cons b rest ih =>
    rw [List.cons_append, last_built_index, last_built_index]
    cases hf : b.finalize_call with
    | none => simp only [ih]
    | some c =>
      cases hl : b.added.getLast? with
      | none => simp only [ih]
      | some last => simp only [ih]

end chain

section chain
variable {α β : Type}

theorem enqueue_frame (try_drop : event α → ℚ → drop_pass → Bool)
    (size_estimate : event α → Nat) (s : async_batcher α) (evt : event α)
    (consulted : List (append_action α)) :
    (s.enqueue try_drop size_estimate evt consulted).state._buffer_end_event_number =
      s._buffer_end_event_number ∧
    (s.enqueue try_drop size_estimate evt consulted).state._send_high_water_mark =
      s._send_high_water_mark := by
  unfold async_batcher.enqueue
  simp only
  split_ifs <;> exact ⟨rfl, rfl⟩

theorem increment_counter_frame (s : async_batcher α) :
    s.increment_counter._buffer_end_event_number = s._buffer_end_event_number ∧
    s.increment_counter._send_high_water_mark = s._send_high_water_mark := by
  unfold async_batcher.increment_counter
  split <;> exact ⟨rfl, rfl⟩

/-- A call of `append` leaves `_buffer_end_event_number` and `_send_high_water_mark` as
they were. -/
theorem append_frame (try_drop : event α → ℚ → drop_pass → Bool)
    (size_estimate : event α → Nat) (s : async_batcher α) (evt : event α) :
    (s.append try_drop size_estimate evt).state._buffer_end_event_number =
      s._buffer_end_event_number ∧
    (s.append try_drop size_estimate evt).state._send_high_water_mark =
      s._send_high_water_mark := by
  have hi := increment_counter_frame s
  unfold async_batcher.append
  simp only
  split_ifs
  · exact hi
  · have := enqueue_frame try_drop size_estimate s.increment_counter evt
      [append_action.try_drop s.increment_counter._subsample_rate
        drop_pass.SUBSAMPLE_RATE_DROP_PASS false]
    rw [hi.1, hi.2] at this
    exact this
  · have := enqueue_frame try_drop size_estimate s.increment_counter evt []
    rw [hi.1, hi.2] at this
    exact this

theorem flush_chain (ser : collection_serializer α β) (d : event α)
    (send : β → error_code) (cb : Bool) (fuel : Nat) (s : async_batcher α)
    (hmode : s._events_counter_status = events_counter_status.ENABLE)
    (hinit : ser.size ser.init < s._send_high_water_mark) :
    counts_chained s._buffer_end_event_number (s.flush ser d send cb fuel).batches = true ∧
    (s.flush ser d send cb fuel).state._buffer_end_event_number =
      last_built_index s._buffer_end_event_number (s.flush ser d send cb fuel).batches ∧
    (s.flush ser d send cb fuel).state._send_high_water_mark = s._send_high_water_mark := by
  unfold async_batcher.flush
  simp only
  split_ifs
  · simp [counts_chained, last_built_index]
  · exact flush_loop_chain ser d send cb fuel s _ hmode hinit

/-- In counter mode ENABLE, with a fresh buffer below the mark, the batches finalized
during a sequence of steps are chained: each one has a last event and was finalized
with the index of that event minus the index of the last event of the finalized batch
before it, `_buffer_end_event_number` standing in before the first one. -/
theorem batches_chained (env : batcher_env α β) :
    ∀ (steps : List (batcher_step α)) (s : async_batcher α),
      s._events_counter_status = events_counter_status.ENABLE →
      env.serializer.size env.serializer.init < s._send_high_water_mark →
      counts_chained s._buffer_end_event_number (env.batches s steps) = true := by
  intro steps
  induction steps with
  | nil =>
    intro s _ _
    simp [batcher_env.batches, counts_chained]
  | cons step rest ih =>
    intro s hmode hinit
    cases step with
    | append evt =>
      simp only [batcher_env.batches, batcher_env.step]
      obtain ⟨a1, a2⟩ := append_frame env.try_drop env.size_estimate s evt
      have := ih (s.append env.try_drop env.size_estimate evt).state
        (by rw [append_status]; exact hmode) (by rw [a2]; exact hinit)
      rw [a1] at this
      exact this
    | flush fuel =>
      simp only [batcher_env.batches, batcher_env.step]
      obtain ⟨f1, f2, f3⟩ := flush_chain env.serializer env.default_event env.send
        env.perror_cb fuel s hmode hinit
      have hst := (flush_counter env.serializer env.default_event env.send
        env.perror_cb fuel s).2
      have := ih (s.flush env.serializer env.default_event env.send env.perror_cb
        fuel).state (by rw [hst]; exact hmode) (by rw [f3]; exact hinit)
      rw [f2] at this
      rw [counts_chained_append, f1, this]
      rfl

end chain

section append_more
variable {α : Type}

theorem append_code (try_drop : event α → ℚ → drop_pass → Bool)
    (size_estimate : event α → Nat) (s : async_batcher α) (evt : event α) :
    (s.append try_drop size_estimate evt).code = error_code.success := by
  unfold async_batcher.append
  simp only
  split_ifs
  · rfl
  · exact enqueue_code _ _ _ _ _
  · exact enqueue_code _ _ _ _ _

/-- The actions of the statements of `append` after the subsampling pass: the push,
followed by the `wait` or the `prune` that the full queue asks for. -/
theorem enqueue_actions (try_drop : event α → ℚ → drop_pass → Bool)
    (size_estimate : event α → Nat) (s : async_batcher α) (evt : event α)
    (consulted : List (append_action α)) :
    (s.enqueue try_drop size_estimate evt consulted).actions =
      consulted ++
      (if s._events_counter_status = events_counter_status.ENABLE then
        [append_action.set_event_index s._event_index] else []) ++
      [append_action.push (s.indexed evt) (size_estimate (s.indexed evt))] ++
      (if (s._queue.push (s.indexed evt) (size_estimate (s.indexed evt))).is_full = true then
        (if s._queue_mode = queue_mode_enum.BLOCK then [append_action.wait]
          else [append_action.prune s._pass_prob])
        else []) := by
  unfold async_batcher.enqueue
  simp only
  split_ifs <;> simp

/-- The events that `prune` keeps are the events of the queue that do not ask to be
dropped, in their order. -/
theorem prune_events (try_drop : event α → ℚ → drop_pass → Bool) (q : event_queue α)
    (pass_prob : ℚ) :
    (q.prune try_drop pass_prob).events =
      q.events.filter (fun e => !(try_drop e pass_prob drop_pass.QUEUE_EARLY_DROP_PASS)) := by
  unfold event_queue.prune event_queue.events
  simp only [List.filter_map]
  rfl

theorem push_events (q : event_queue α) (evt : event α) (n : Nat) :
    (q.push evt n).events = q.events ++ [evt] := by
  simp [event_queue.push, event_queue.events]

end append_more
theorem init_run_code {α : Type} (tolerance : ℚ) (background : error_code)
    (s : async_batcher α) :
    (s.init_run tolerance background).code = s.init tolerance background := by
  unfold async_batcher.init_run async_batcher.init
  simp only
  split_ifs <;> rfl

theorem init_run_of_background_failure {α : Type} (tolerance : ℚ) (background : error_code)
    (s : async_batcher α) (h : background ≠ error_code.success) :
    s.init_run tolerance background =
      { code := background
        actions := [init_action.background_proc_init background]
        background_started := false } := by
  unfold async_batcher.init_run
  simp only [if_pos h]

theorem init_run_of_background_success {α : Type} (tolerance : ℚ) (s : async_batcher α) :
    s.init_run tolerance error_code.success =
      if (s._subsample_rate < 0 ∨ |s._subsample_rate - 0| < tolerance) ∨
          (s._subsample_rate > 1 ∧ ¬ |s._subsample_rate - 1| < tolerance) then
        { code := error_code.invalid_argument
          actions := [init_action.background_proc_init error_code.success,
            init_action.check_subsample_rate true]
          background_started := true }
      else
        { code := error_code.success
          actions := [init_action.background_proc_init error_code.success,
            init_action.check_subsample_rate false]
          background_started := true } := by
  unfold async_batcher.init_run are_same
  simp only [ne_eq, not_true_eq_false, if_false, Bool.or_eq_true, Bool.and_eq_true,
    decide_eq_true_eq, Bool.not_eq_true', decide_eq_false_iff_not]

section rounds
variable {α β : Type}

theorem flush_loop_step_none (ser : collection_serializer α β) (d : event α)
    (send : β → error_code) (cb : Bool) (fuel : Nat) (s : async_batcher α) (remaining : Nat)
    (hpos : 0 < remaining)
    (hc : (s.fill_buffer ser d (fuel + 1) remaining).code = none) :
    flush_loop ser d send cb (fuel + 1) s remaining =
      { state := (s.fill_buffer ser d (fuel + 1) remaining).state, batches := [],
        exit := flush_exit.out_of_fuel } := by
  rw [flush_loop]
  simp only [if_pos hpos, hc]

/-- Every record of the loop of `flush` shows the plain `send` of its buffer, and the
error callback invoked for the failed fill and then for the failed `send`. -/
theorem flush_loop_records (ser : collection_serializer α β) (d : event α)
    (send : β → error_code) (cb : Bool) :
    ∀ (fuel : Nat) (s : async_batcher α) (remaining : Nat),
      ∀ b ∈ (flush_loop ser d send cb fuel s remaining).batches,
        b.send_call = send_overload.plain ∧ b.send_code = send b.buffer ∧
        b.error_callbacks =
          (if b.fill_code ≠ error_code.success then ERROR_CALLBACK cb b.fill_code else []) ++
          (if send b.buffer ≠ error_code.success then ERROR_CALLBACK cb (send b.buffer)
            else []) := by
  intro fuel
  induction fuel with
  | zero =>
    intro s remaining
    by_cases hpos : 0 < remaining <;> simp [flush_loop, hpos]
  | succ fuel ih =>
    intro s remaining
    by_cases hpos : 0 < remaining
    · cases hcode : (s.fill_buffer ser d (fuel + 1) remaining).code with
      | none =>
        rw [flush_loop_step_none ser d send cb fuel s remaining hpos hcode]
        simp
      | some c =>
        rw [flush_loop_step ser d send cb fuel s remaining hpos c hcode]
        intro b hb
        simp only [List.mem_cons] at hb
        rcases hb with hb | hb
        · subst hb
          exact ⟨rfl, rfl, rfl⟩
        · exact ih _ _ b hb
    · have h0 : remaining = 0 := by omega
      subst h0
      rw [flush_loop_zero_remaining]
      simp

/-- The loop of `flush` does the same with every transport and every callback setting,
but for the codes of `send` and the callback invocations: the state, the way it ends
and what every batch holds do not depend on them. -/
theorem flush_loop_transport_independent (ser : collection_serializer α β) (d : event α)
    (send send' : β → error_code) (cb cb' : Bool) :
    ∀ (fuel : Nat) (s : async_batcher α) (remaining : Nat),
      (flush_loop ser d send cb fuel s remaining).state =
        (flush_loop ser d send' cb' fuel s remaining).state ∧
      (flush_loop ser d send cb fuel s remaining).exit =
        (flush_loop ser d send' cb' fuel s remaining).exit ∧
      (flush_loop ser d send cb fuel s remaining).batches.map
          (fun b => (b.added, b.finalize_call, b.fill_code, b.buffer)) =
        (flush_loop ser d send' cb' fuel s remaining).batches.map
          (fun b => (b.added, b.finalize_call, b.fill_code, b.buffer)) := by
  intro fuel
  induction fuel with
  | zero =>
    intro s remaining
    by_cases hpos : 0 < remaining <;> simp [flush_loop, hpos]
  | succ fuel ih =>
    intro s remaining
    by_cases hpos : 0 < remaining
    · cases hcode : (s.fill_buffer ser d (fuel + 1) remaining).code with
      | none =>
        rw [flush_loop_step_none ser d send cb fuel s remaining hpos hcode,
          flush_loop_step_none ser d send' cb' fuel s remaining hpos hcode]
        exact ⟨rfl, rfl, rfl⟩
      | some c =>
        rw [flush_loop_step ser d send cb fuel s remaining hpos c hcode,
          flush_loop_step ser d send' cb' fuel s remaining hpos c hcode]
        obtain ⟨i1, i2, i3⟩ := ih (s.fill_buffer ser d (fuel + 1) remaining).state
          (s.fill_buffer ser d (fuel + 1) remaining).remaining
        refine ⟨i1, i2, ?_⟩
        simp only [List.map_cons, i3]
    · have h0 : remaining = 0 := by omega
      subst h0
      rw [flush_loop_zero_remaining, flush_loop_zero_remaining]
      exact ⟨rfl, rfl, rfl⟩

/-- The calls of the loop of `flush` are the calls of its completed rounds, one round
after the other, followed by the `acquire` of a round whose `fill_buffer` did not
return within the fuel; there is no such round when the loop returned. -/
theorem flush_loop_trace_rounds (ser : collection_serializer α β) (d : event α)
    (send : β → error_code) (cb : Bool) :
    ∀ (fuel : Nat) (s : async_batcher α) (remaining : Nat),
      ∃ pending : List (flush_action β),
        flush_loop_trace ser d send cb fuel s remaining =
          (flush_loop ser d send cb fuel s remaining).batches.flatMap
            (batch_record.actions cb) ++ pending ∧
        (pending = [] ∨ pending = [flush_action.acquire]) ∧
        ((flush_loop ser d send cb fuel s remaining).exit = flush_exit.returned →
          pending = []) := by
  intro fuel
  induction fuel with
  | zero =>
    intro s remaining
    refine ⟨[], ?_, Or.inl rfl, fun _ => rfl⟩
    by_cases hpos : 0 < remaining <;> simp [flush_loop, flush_loop_trace, hpos]
  | succ fuel ih =>
    intro s remaining
    by_cases hpos : 0 < remaining
    · cases hcode : (s.fill_buffer ser d (fuel + 1) remaining).code with
      | none =>
        rw [flush_loop_step_none ser d send cb fuel s remaining hpos hcode]
        refine ⟨[flush_action.acquire], ?_, Or.inr rfl, ?_⟩
        · rw [flush_loop_trace]
          simp only [if_pos hpos, hcode, List.flatMap_nil, List.nil_append]
        · intro h
          cases h
      | some c =>
        obtain ⟨pending, i1, i2, i3⟩ := ih (s.fill_buffer ser d (fuel + 1) remaining).state
          (s.fill_buffer ser d (fuel + 1) remaining).remaining
        rw [flush_loop_step ser d send cb fuel s remaining hpos c hcode]
        refine ⟨pending, ?_, i2, i3⟩
        rw [flush_loop_trace]
        simp only [if_pos hpos, hcode, List.flatMap_cons, batch_record.actions, i1,
          List.append_assoc]
    · have h0 : remaining = 0 := by omega
      subst h0
      rw [flush_loop_zero_remaining]
      refine ⟨[], ?_, Or.inl rfl, fun _ => rfl⟩
      cases fuel <;> simp [flush_loop_trace]

/-- One completed round makes one `acquire` and one `send`. -/
theorem batch_record_actions_count (cb : Bool) (b : batch_record α β) :
    ((batch_record.actions cb b).filter flush_action.is_acquire).length = 1 ∧
    ((batch_record.actions cb b).filter flush_action.is_send).length = 1 := by
  unfold batch_record.actions ERROR_CALLBACK
  constructor <;>
  · cases cb <;> split_ifs <;>
      simp [List.filter_cons, flush_action.is_acquire, flush_action.is_send]

theorem rounds_count (cb : Bool) (batches : List (batch_record α β)) :
    ((batches.flatMap (batch_record.actions cb)).filter flush_action.is_acquire).length =
      batches.length ∧
    ((batches.flatMap (batch_record.actions cb)).filter flush_action.is_send).length =
      batches.length := by
  induction batches with
  | nil => simp
  | cons b rest ih =>
    obtain ⟨h1, h2⟩ := batch_record_actions_count cb b
    simp only [List.flatMap_cons, List.filter_append, List.length_append, ih.1, ih.2, h1,
      h2, List.length_cons]
    omega

end rounds
section spin
variable {α β : Type}

theorem pop_nil (q : event_queue α) (h : q._queue = []) : q.pop = none := by
  unfold event_queue.pop
  rw [h]

theorem pop_some_length (q q' : event_queue α) (e : event α) (h : q.pop = some (e, q')) :
    q'._queue.length + 1 = q._queue.length ∧ q'._max_capacity = q._max_capacity := by
  unfold event_queue.pop at h
  cases hq : q._queue with
  | nil => simp [hq] at h
  | cons p rest =>
    obtain ⟨e', n⟩ := p
    simp only [hq, Option.some.injEq, Prod.mk.injEq] at h
    obtain ⟨-, h2⟩ := h
    subst h2
    simp

/-- The loop of `fill_buffer` only takes events off the queue, and `remaining` stays
ahead of the length of the queue once it is: a failed `add` leaves it ahead. -/
theorem fill_loop_remaining (ser : collection_serializer α β) (hwm : Nat) :
    ∀ (fuel : Nat) (st : fill_state α β),
      (fill_loop ser hwm fuel st).1.queue._queue.length ≤ st.queue._queue.length ∧
      (fill_loop ser hwm fuel st).1.queue._max_capacity = st.queue._max_capacity ∧
      (st.queue._queue.length ≤ st.remaining →
        (fill_loop ser hwm fuel st).1.queue._queue.length ≤
          (fill_loop ser hwm fuel st).1.remaining ∧
        (st.queue._queue.length < st.remaining →
          (fill_loop ser hwm fuel st).1.queue._queue.length <
            (fill_loop ser hwm fuel st).1.remaining) ∧
        (∀ c, (fill_loop ser hwm fuel st).2 = loop_exit.add_failed c →
          (fill_loop ser hwm fuel st).1.queue._queue.length <
            (fill_loop ser hwm fuel st).1.remaining)) := by
  intro fuel
  induction fuel with
  | zero =>
    intro st
    by_cases hc : 0 < st.remaining ∧ ser.size st.buffer < hwm
    · have h0 : fill_loop ser hwm 0 st = (st, loop_exit.out_of_fuel) := by
        simp only [fill_loop, if_pos hc]
      rw [h0]
      exact ⟨le_refl _, rfl, fun h => ⟨h, fun h' => h', fun c hcx => by cases hcx⟩⟩
    · rw [fill_loop_step_cond_false ser hwm 0 st hc]
      exact ⟨le_refl _, rfl, fun h => ⟨h, fun h' => h', fun c hcx => by cases hcx⟩⟩
  | succ fuel ih =>
    intro st
    by_cases hc : 0 < st.remaining ∧ ser.size st.buffer < hwm
    · rw [fill_loop]
      simp only [if_pos hc]
      cases hp : st.queue.pop with
      | none =>
        simp only
        exact ih st
      | some p =>
        obtain ⟨e, q⟩ := p
        obtain ⟨hl, hcap⟩ := pop_some_length st.queue q e hp
        simp only
        by_cases ha : (ser.add st.buffer e).1 = error_code.success
        · simp only [ha, if_true]
          obtain ⟨i1, i2, i3⟩ := ih
            { queue := q, remaining := st.remaining - 1, buffer := (ser.add st.buffer e).2,
              evt := e, added := st.added ++ [e] }
          refine ⟨by simp only at i1; omega, by rw [i2]; exact hcap, ?_⟩
          intro hle
          obtain ⟨j1, j2, j3⟩ := i3 (by simp only; omega)
          exact ⟨j1, fun hlt => j2 (by simp only; omega), j3⟩
        · simp only [ha, if_false]
          refine ⟨by omega, hcap, ?_⟩
          intro hle
          exact ⟨by omega, fun _ => by omega, fun _ _ => by omega⟩
    · rw [fill_loop_step_cond_false ser hwm (fuel + 1) st hc]
      exact ⟨le_refl _, rfl, fun h => ⟨h, fun h' => h', fun c hcx => by cases hcx⟩⟩

/-- The fields of the result of `fill_buffer` that do not depend on how its loop
ended. -/
theorem fill_buffer_fields (ser : collection_serializer α β) (d : event α) (fuel : Nat)
    (s : async_batcher α) (remaining : Nat) :
    (s.fill_buffer ser d fuel remaining).state._queue =
      (fill_loop ser s._send_high_water_mark fuel
        { queue := s._queue, remaining := remaining, buffer := ser.init, evt := d,
          added := [] }).1.queue ∧
    (s.fill_buffer ser d fuel remaining).remaining =
      (fill_loop ser s._send_high_water_mark fuel
        { queue := s._queue, remaining := remaining, buffer := ser.init, evt := d,
          added := [] }).1.remaining ∧
    (s.fill_buffer ser d fuel remaining).added =
      (fill_loop ser s._send_high_water_mark fuel
        { queue := s._queue, remaining := remaining, buffer := ser.init, evt := d,
          added := [] }).1.added ∧
    (s.fill_buffer ser d fuel remaining).state._queue_mode = s._queue_mode ∧
    (s.fill_buffer ser d fuel remaining).state._send_high_water_mark =
      s._send_high_water_mark ∧
    (s.fill_buffer ser d fuel remaining).state._pass_prob = s._pass_prob ∧
    (s.fill_buffer ser d fuel remaining).state._subsample_rate = s._subsample_rate ∧
    ((s.fill_buffer ser d fuel remaining).finalize_call = none →
      (s.fill_buffer ser d fuel remaining).code = none ∨
      ∃ c, (fill_loop ser s._send_high_water_mark fuel
        { queue := s._queue, remaining := remaining, buffer := ser.init, evt := d,
          added := [] }).2 = loop_exit.add_failed c) := by
  unfold async_batcher.fill_buffer
  generalize fill_loop ser s._send_high_water_mark fuel
    { queue := s._queue, remaining := remaining, buffer := ser.init, evt := d,
      added := [] } = r
  obtain ⟨st, ex⟩ := r
  cases ex
  · simp only
    split_ifs <;> simp
  · simp
  · simp

/-- Once `remaining` is ahead of the length of the queue, the loop of `flush` does not
return, whatever the fuel. -/
theorem flush_loop_spins (ser : collection_serializer α β) (d : event α)
    (send : β → error_code) (cb : Bool) :
    ∀ (fuel : Nat) (s : async_batcher α) (remaining : Nat),
      s._queue._queue.length < remaining →
      (flush_loop ser d send cb fuel s remaining).exit = flush_exit.out_of_fuel := by
  intro fuel
  induction fuel with
  | zero =>
    intro s remaining h
    have hpos : 0 < remaining := by omega
    simp [flush_loop, hpos]
  | succ fuel ih =>
    intro s remaining h
    have hpos : 0 < remaining := by omega
    cases hcode : (s.fill_buffer ser d (fuel + 1) remaining).code with
    | none =>
      rw [flush_loop_step_none ser d send cb fuel s remaining hpos hcode]
    | some c =>
      rw [flush_loop_step ser d send cb fuel s remaining hpos c hcode]
      obtain ⟨f1, f2, -⟩ := fill_buffer_fields ser d (fuel + 1) s remaining
      have hl := ((fill_loop_remaining ser s._send_high_water_mark (fuel + 1)
        { queue := s._queue, remaining := remaining, buffer := ser.init, evt := d,
          added := [] }).2.2 (le_of_lt h)).2.1 h
      rw [← f1, ← f2] at hl
      exact ih _ _ hl

/-- A run of the loop of `flush` that starts with `remaining` at the length of the queue
and returns has seen no `add` fail: every round reached `finalize`. -/
theorem flush_loop_returned_finalized (ser : collection_serializer α β) (d : event α)
    (send : β → error_code) (cb : Bool) :
    ∀ (fuel : Nat) (s : async_batcher α) (remaining : Nat),
      remaining = s._queue._queue.length →
      (flush_loop ser d send cb fuel s remaining).exit = flush_exit.returned →
      ∀ b ∈ (flush_loop ser d send cb fuel s remaining).batches,
        b.finalize_call ≠ none := by
  intro fuel
  induction fuel with
  | zero =>
    intro s remaining _ _
    by_cases hpos : 0 < remaining <;> simp [flush_loop, hpos]
  | succ fuel ih =>
    intro s remaining hrem hret
    by_cases hpos : 0 < remaining
    · cases hcode : (s.fill_buffer ser d (fuel + 1) remaining).code with
      | none =>
        rw [flush_loop_step_none ser d send cb fuel s remaining hpos hcode]
        simp
      | some c =>
        rw [flush_loop_step ser d send cb fuel s remaining hpos c hcode] at hret ⊢
        simp only at hret
        obtain ⟨f1, f2, -, -, -, -, -, f8⟩ := fill_buffer_fields ser d (fuel + 1) s remaining
        obtain ⟨l1, l2, l3⟩ := (fill_loop_remaining ser s._send_high_water_mark (fuel + 1)
          { queue := s._queue, remaining := remaining, buffer := ser.init, evt := d,
            added := [] }).2.2 (le_of_eq hrem.symm)
        rw [← f1, ← f2] at l1 l3
        have hfin : (s.fill_buffer ser d (fuel + 1) remaining).finalize_call ≠ none := by
          intro hnone
          rcases f8 hnone with h | ⟨c', h⟩
          · rw [hcode] at h; cases h
          · have := flush_loop_spins ser d send cb fuel _ _ (l3 c' h)
            rw [this] at hret
            cases hret
        have heq : (s.fill_buffer ser d (fuel + 1) remaining).remaining =
            (s.fill_buffer ser d (fuel + 1) remaining).state._queue._queue.length := by
          rcases Nat.lt_or_ge (s.fill_buffer ser d (fuel + 1) remaining).state._queue._queue.length
            (s.fill_buffer ser d (fuel + 1) remaining).remaining with h | h
          · have := flush_loop_spins ser d send cb fuel _ _ h
            rw [this] at hret
            cases hret
          · omega
        intro b hb
        simp only [List.mem_cons] at hb
        rcases hb with hb | hb
        · subst hb
          exact hfin
        · exact ih _ _ heq hret b hb
    · have h0 : remaining = 0 := by omega
      subst h0
      rw [flush_loop_zero_remaining]
      simp

/-- When the first event of the queue is one whose `add` fails, the loop of `flush`
does not return, whatever the fuel. -/
theorem flush_loop_first_add_fails (ser : collection_serializer α β) (d : event α)
    (send : β → error_code) (cb : Bool) (s : async_batcher α) (remaining : Nat)
    (e : event α) (n : Nat) (rest : List (event α × Nat))
    (hq : s._queue._queue = (e, n) :: rest) (hrem : remaining = s._queue._queue.length)
    (hinit : ser.size ser.init < s._send_high_water_mark)
    (hfail : (ser.add ser.init e).1 ≠ error_code.success) (fuel : Nat) :
    (flush_loop ser d send cb fuel s remaining).exit = flush_exit.out_of_fuel := by
  have hpos : 0 < remaining := by rw [hrem, hq]; simp
  cases fuel with
  | zero => simp [flush_loop, hpos]
  | succ fuel =>
    cases hcode : (s.fill_buffer ser d (fuel + 1) remaining).code with
    | none =>
      rw [flush_loop_step_none ser d send cb fuel s remaining hpos hcode]
    | some c =>
      rw [flush_loop_step ser d send cb fuel s remaining hpos c hcode]
      obtain ⟨f1, f2, -⟩ := fill_buffer_fields ser d (fuel + 1) s remaining
      have hloop : fill_loop ser s._send_high_water_mark (fuel + 1)
          { queue := s._queue, remaining := remaining, buffer := ser.init, evt := d,
            added := [] } =
          ({ queue := { s._queue with _queue := rest }, remaining := remaining,
             buffer := (ser.add ser.init e).2, evt := e, added := [] },
            loop_exit.add_failed (ser.add ser.init e).1) := by
        rw [fill_loop]
        simp only [hpos, hinit, and_self, if_true, pop_cons s._queue e n rest hq, hfail,
          if_false]
      rw [hloop] at f1 f2
      apply flush_loop_spins
      rw [f1, f2, hrem, hq]
      simp

end spin
section zero_mark
variable {α β : Type}

/-- When a fresh buffer is not below the mark (a mark of 0 for instance), every round
of the loop of `flush` finalizes and sends a batch without any event and leaves
`remaining` as it was: the loop goes on as long as there is fuel. -/
theorem flush_loop_mark_reached (ser : collection_serializer α β) (d : event α)
    (send : β → error_code) (cb : Bool) :
    ∀ (fuel : Nat) (s : async_batcher α) (remaining : Nat),
      s._send_high_water_mark ≤ ser.size ser.init → 0 < remaining →
      (flush_loop ser d send cb fuel s remaining).exit = flush_exit.out_of_fuel ∧
      (flush_loop ser d send cb fuel s remaining).batches.length = fuel ∧
      ∀ b ∈ (flush_loop ser d send cb fuel s remaining).batches,
        b.added = [] ∧ b.finalize_call ≠ none := by
  intro fuel
  induction fuel with
  | zero =>
    intro s remaining _ hpos
    simp [flush_loop, hpos]
  | succ fuel ih =>
    intro s remaining hmark hpos
    have hc : ¬ (0 < remaining ∧ ser.size ser.init < s._send_high_water_mark) := by omega
    have hloop := fill_loop_step_cond_false ser s._send_high_water_mark (fuel + 1)
      { queue := s._queue, remaining := remaining, buffer := ser.init, evt := d,
        added := [] } hc
    obtain ⟨⟨c, hcode⟩, g2, g3, -, g5, -, -, g8, g9⟩ :=
      fill_buffer_of_finished ser d (fuel + 1) s remaining _ hloop
    simp only at g2 g3
    rw [flush_loop_step ser d send cb fuel s remaining hpos c hcode]
    obtain ⟨i1, i2, i3⟩ := ih (s.fill_buffer ser d (fuel + 1) remaining).state
      (s.fill_buffer ser d (fuel + 1) remaining).remaining (by rw [g5]; exact hmark)
      (by rw [g2]; exact hpos)
    refine ⟨i1, by simp only [List.length_cons, i2], ?_⟩
    intro b hb
    simp only [List.mem_cons] at hb
    rcases hb with hb | hb
    · subst hb
      refine ⟨g3, ?_⟩
      by_cases hm : s._events_counter_status = events_counter_status.ENABLE
      · simp only [(g8 hm).1]
        simp
      · simp only [(g9 hm).1]
        simp
    · exact i3 b hb

end zero_mark
section capacity
variable {α β : Type}

/-- A call of `fill_buffer` takes events off the queue and leaves its capacity and the
queue mode as they were. -/
theorem fill_buffer_queue_shrinks (ser : collection_serializer α β) (d : event α)
    (fuel : Nat) (s : async_batcher α) (remaining : Nat) :
    (s.fill_buffer ser d fuel remaining).state._queue._queue.length ≤
      s._queue._queue.length ∧
    (s.fill_buffer ser d fuel remaining).state._queue._max_capacity =
      s._queue._max_capacity ∧
    (s.fill_buffer ser d fuel remaining).state._queue_mode = s._queue_mode := by
  obtain ⟨f1, -, -, f4, -⟩ := fill_buffer_fields ser d fuel s remaining
  obtain ⟨l1, l2, -⟩ := fill_loop_remaining ser s._send_high_water_mark fuel
    { queue := s._queue, remaining := remaining, buffer := ser.init, evt := d, added := [] }
  rw [f1]
  exact ⟨l1, l2, f4⟩

theorem flush_loop_queue_shrinks (ser : collection_serializer α β) (d : event α)
    (send : β → error_code) (cb : Bool) :
    ∀ (fuel : Nat) (s : async_batcher α) (remaining : Nat),
      (flush_loop ser d send cb fuel s remaining).state._queue._queue.length ≤
        s._queue._queue.length ∧
      (flush_loop ser d send cb fuel s remaining).state._queue._max_capacity =
        s._queue._max_capacity ∧
      (flush_loop ser d send cb fuel s remaining).state._queue_mode = s._queue_mode := by
  intro fuel
  induction fuel with
  | zero =>
    intro s remaining
    by_cases hpos : 0 < remaining <;> simp [flush_loop, hpos]
  | succ fuel ih =>
    intro s remaining
    obtain ⟨f1, f2, f3⟩ := fill_buffer_queue_shrinks ser d (fuel + 1) s remaining
    by_cases hpos : 0 < remaining
    · cases hcode : (s.fill_buffer ser d (fuel + 1) remaining).code with
      | none =>
        rw [flush_loop_step_none ser d send cb fuel s remaining hpos hcode]
        exact ⟨f1, f2, f3⟩
      | some c =>
        rw [flush_loop_step ser d send cb fuel s remaining hpos c hcode]
        obtain ⟨i1, i2, i3⟩ := ih (s.fill_buffer ser d (fuel + 1) remaining).state
          (s.fill_buffer ser d (fuel + 1) remaining).remaining
        exact ⟨le_trans i1 f1, by rw [← f2]; exact i2, by rw [← f3]; exact i3⟩
    · have h0 : remaining = 0 := by omega
      subst h0
      rw [flush_loop_zero_remaining]
      exact ⟨le_refl _, rfl, rfl⟩

/-- A run of `flush` does not add to the queue and leaves its capacity and the queue
mode as they were. -/
theorem flush_queue_shrinks (ser : collection_serializer α β) (d : event α)
    (send : β → error_code) (cb : Bool) (fuel : Nat) (s : async_batcher α) :
    (s.flush ser d send cb fuel).state._queue.size ≤ s._queue.size ∧
    (s.flush ser d send cb fuel).state._queue._max_capacity = s._queue._max_capacity ∧
    (s.flush ser d send cb fuel).state._queue_mode = s._queue_mode := by
  unfold async_batcher.flush
  simp only
  split_ifs
  · exact ⟨le_refl _, rfl, rfl⟩
  · exact flush_loop_queue_shrinks ser d send cb fuel s _

theorem prune_size_le (try_drop : event α → ℚ → drop_pass → Bool) (q : event_queue α)
    (pass_prob : ℚ) :
    (q.prune try_drop pass_prob).size ≤ q.size ∧
    (q.prune try_drop pass_prob)._max_capacity = q._max_capacity := by
  unfold event_queue.prune event_queue.size
  exact ⟨List.length_filter_le _ _, rfl⟩

theorem push_size (q : event_queue α) (evt : event α) (n : Nat) :
    (q.push evt n).size = q.size + 1 ∧ (q.push evt n)._max_capacity = q._max_capacity := by
  unfold event_queue.push event_queue.size
  simp

theorem is_full_false_iff (q : event_queue α) :
    q.is_full = false ↔ q.size < q._max_capacity := by
  unfold event_queue.is_full
  simp

/-- A call of `append` adds at most one event to the queue and leaves its capacity and
the queue mode as they were. -/
theorem append_queue_size (try_drop : event α → ℚ → drop_pass → Bool)
    (size_estimate : event α → Nat) (s : async_batcher α) (evt : event α) :
    (s.append try_drop size_estimate evt).state._queue.size ≤ s._queue.size + 1 ∧
    (s.append try_drop size_estimate evt).state._queue._max_capacity =
      s._queue._max_capacity ∧
    (s.append try_drop size_estimate evt).state._queue_mode = s._queue_mode := by
  have henq : ∀ consulted : List (append_action α),
      (s.increment_counter.enqueue try_drop size_estimate evt consulted).state._queue.size ≤
        s._queue.size + 1 ∧
      (s.increment_counter.enqueue try_drop size_estimate evt
        consulted).state._queue._max_capacity = s._queue._max_capacity ∧
      (s.increment_counter.enqueue try_drop size_estimate evt
        consulted).state._queue_mode = s._queue_mode := by
    intro consulted
    have hq := enqueue_queue try_drop size_estimate s.increment_counter evt consulted
    rw [increment_counter_queue] at hq
    have hm : (s.increment_counter.enqueue try_drop size_estimate evt
        consulted).state._queue_mode = s._queue_mode := by
      rw [← increment_counter_queue_mode s]
      unfold async_batcher.enqueue
      simp only
      split_ifs <;> rfl
    obtain ⟨p1, p2⟩ := push_size s._queue (s.increment_counter.indexed evt)
      (size_estimate (s.increment_counter.indexed evt))
    refine ⟨?_, ?_, hm⟩
    · rw [hq]
      split_ifs
      · have := (prune_size_le try_drop (s._queue.push (s.increment_counter.indexed evt)
          (size_estimate (s.increment_counter.indexed evt)))
          s.increment_counter._pass_prob).1
        omega
      · omega
    · rw [hq]
      split_ifs
      · rw [(prune_size_le try_drop _ _).2, p2]
      · exact p2
  unfold async_batcher.append
  simp only
  split_ifs
  · rw [increment_counter_queue, increment_counter_queue_mode]
    exact ⟨Nat.le_succ _, rfl, rfl⟩
  · exact henq _
  · exact henq _

/-- When every `append` starts on a queue that is not full, no state of the sequence
holds more events than the capacity. -/
theorem states_within_capacity (env : batcher_env α β) :
    ∀ (steps : List (batcher_step α)) (s : async_batcher α),
      s._queue.size ≤ s._queue._max_capacity →
      env.appends_unblocked s steps = true →
      ∀ st ∈ env.states s steps, st._queue.size ≤ s._queue._max_capacity := by
  intro steps
  induction steps with
  | nil =>
    intro s hs _ st hst
    simp only [batcher_env.states, List.mem_singleton] at hst
    subst hst
    exact hs
  | cons step rest ih =>
    intro s hs hun st hst
    simp only [batcher_env.states, List.mem_cons] at hst
    rcases hst with hst | hst
    · subst hst
      exact hs
    · cases step with
      | append evt =>
        simp only [batcher_env.appends_unblocked, Bool.and_eq_true, Bool.not_eq_true'] at hun
        obtain ⟨hfree, hrest⟩ := hun
        have hlt := (is_full_false_iff s._queue).mp hfree
        obtain ⟨a1, a2, -⟩ := append_queue_size env.try_drop env.size_estimate s evt
        have := ih (env.step s (batcher_step.append evt))
          (by simp only [batcher_env.step]; rw [a2]; omega) hrest st hst
        simp only [batcher_env.step] at this
        rw [a2] at this
        exact this
      | flush fuel =>
        simp only [batcher_env.appends_unblocked] at hun
        obtain ⟨f1, f2, -⟩ := flush_queue_shrinks env.serializer env.default_event env.send
          env.perror_cb fuel s
        have := ih (env.step s (batcher_step.flush fuel))
          (by simp only [batcher_env.step]; rw [f2]; omega) hun st hst
        simp only [batcher_env.step] at this
        rw [f2] at this
        exact this

/-- In BLOCK mode an `append` that leaves the queue full, having started on a queue
that was not, is waiting. -/
theorem append_BLOCK_full_waits (try_drop : event α → ℚ → drop_pass → Bool)
    (size_estimate : event α → Nat) (s : async_batcher α) (evt : event α)
    (hmode : s._queue_mode = queue_mode_enum.BLOCK) (hfree : s._queue.is_full = false)
    (hfull : (s.append try_drop size_estimate evt).state._queue.is_full = true) :
    append_action.wait ∈ (s.append try_drop size_estimate evt).actions := by
  have henq : ∀ consulted : List (append_action α),
      (s.increment_counter.enqueue try_drop size_estimate evt consulted).state._queue.is_full
        = true →
      append_action.wait ∈
        (s.increment_counter.enqueue try_drop size_estimate evt consulted).actions := by
    intro consulted hf
    have hq := enqueue_queue try_drop size_estimate s.increment_counter evt consulted
    have hact := enqueue_actions try_drop size_estimate s.increment_counter evt consulted
    simp only [increment_counter_queue, increment_counter_queue_mode, hmode] at hq hact
    have hq' : (s.increment_counter.enqueue try_drop size_estimate evt consulted).state._queue
        = s._queue.push (s.increment_counter.indexed evt)
          (size_estimate (s.increment_counter.indexed evt)) := by
      rw [hq]
      simp
    rw [hq'] at hf
    rw [hact, if_pos hf]
    simp
  unfold async_batcher.append at hfull ⊢
  simp only at hfull ⊢
  split_ifs at hfull ⊢
  · simp only [increment_counter_queue] at hfull
    rw [hfree] at hfull
    cases hfull
  · exact henq _ hfull
  · exact henq _ hfull

end capacity
theorem appends_unblocked_append {α β : Type} (env : batcher_env α β) :
    ∀ (l1 l2 : List (batcher_step α)) (s : async_batcher α),
      env.appends_unblocked s (l1 ++ l2) =
        (env.appends_unblocked s l1 && env.appends_unblocked (env.run s l1) l2) := by
  intro l1
  induction l1 with
  | nil =>
    intro l2 s
    simp [batcher_env.appends_unblocked, batcher_env.run]
  | cons step rest ih =>
    intro l2 s
    cases step with
    | append evt =>
      show env.appends_unblocked s (batcher_step.append evt :: (rest ++ l2)) =
        (env.appends_unblocked s (batcher_step.append evt :: rest) &&
          env.appends_unblocked (env.run (env.step s (batcher_step.append evt)) rest) l2)
      rw [batcher_env.appends_unblocked, batcher_env.appends_unblocked, ih, Bool.and_assoc]
    | flush fuel =>
      show env.appends_unblocked s (batcher_step.flush fuel :: (rest ++ l2)) =
        (env.appends_unblocked s (batcher_step.flush fuel :: rest) &&
          env.appends_unblocked (env.run (env.step s (batcher_step.flush fuel)) rest) l2)
      rw [batcher_env.appends_unblocked, batcher_env.appends_unblocked, ih]

/-- The first three `append` calls of the test `queue_overflow_do_not_drop_event` lead to
`queue_overflow_full_state`, and each of them starts on a queue that is not full. -/
theorem queue_overflow_run :
    droppable_test_env.run (async_batcher.create String queue_overflow_config)
      [batcher_step.append ⟨"0", 0⟩, batcher_step.append ⟨"1", 0⟩,
        batcher_step.append ⟨"2", 0⟩] = queue_overflow_full_state ∧
    droppable_test_env.appends_unblocked (async_batcher.create String queue_overflow_config)
      [batcher_step.append ⟨"0", 0⟩, batcher_step.append ⟨"1", 0⟩,
        batcher_step.append ⟨"2", 0⟩] = true := by
  have hne : events_counter_status.DISABLE ≠ events_counter_status.ENABLE := by decide
  norm_num [hne, batcher_env.run, batcher_env.step, batcher_env.appends_unblocked,
    droppable_test_env, queue_overflow_config, queue_overflow_full_state,
    async_batcher.create, async_batcher.append, async_batcher.enqueue,
    async_batcher.increment_counter, async_batcher.indexed, event_queue.push,
    event_queue.is_full, event_queue.size, test_size_estimate]

section ordered
variable {α β : Type}

/-- A strictly increasing list of numbers above `b` ends at `b` plus its length or
above. -/
theorem increasing_last_bound :
    ∀ (l : List Nat) (b last : Nat), l.Pairwise (fun x y => x < y) → (∀ x ∈ l, b < x) →
      l.getLast? = some last → b + l.length ≤ last := by
  intro l
  induction l with
  | nil =>
    intro b last _ _ hl
    simp at hl
  | cons x t ih =>
    intro b last hp hb hl
    have hbx : b < x := hb x (List.mem_cons_self x t)
    cases t with
    | nil =>
      simp only [List.getLast?_singleton, Option.some.injEq] at hl
      subst hl
      simp only [List.length_singleton]
      omega
    | cons y t' =>
      rw [List.getLast?_cons_cons] at hl
      rw [List.pairwise_cons] at hp
      have := ih x last hp.2 (fun z hz => hp.1 z hz) hl
      simp only [List.length_cons] at this ⊢
      omega

theorem fill_loop_queue_suffix (ser : collection_serializer α β) (hwm : Nat) :
    ∀ (fuel : Nat) (st : fill_state α β),
      (fill_loop ser hwm fuel st).1.queue._queue <:+ st.queue._queue := by
  intro fuel
  induction fuel with
  | zero =>
    intro st
    by_cases hc : 0 < st.remaining ∧ ser.size st.buffer < hwm
    · have h0 : fill_loop ser hwm 0 st = (st, loop_exit.out_of_fuel) := by
        simp only [fill_loop, if_pos hc]
      rw [h0]
    · rw [fill_loop_step_cond_false ser hwm 0 st hc]
  | succ fuel ih =>
    intro st
    by_cases hc : 0 < st.remaining ∧ ser.size st.buffer < hwm
    · rw [fill_loop]
      simp only [if_pos hc]
      cases hq : st.queue._queue with
      | nil =>
        rw [pop_nil st.queue hq]
        simp only
        have := ih st
        rw [hq] at this
        exact this
      | cons p rest =>
        obtain ⟨e, n⟩ := p
        rw [pop_cons st.queue e n rest hq]
        simp only
        by_cases ha : (ser.add st.buffer e).1 = error_code.success
        · simp only [ha, if_true]
          exact List.IsSuffix.trans (ih _) (List.suffix_cons _ _)
        · simp only [ha, if_false]
          exact List.suffix_cons _ _
    · rw [fill_loop_step_cond_false ser hwm (fuel + 1) st hc]

theorem counters_ordered_of_sublist (s s' : async_batcher α)
    (hsub : s'._queue.events.Sublist s._queue.events)
    (hbend : s'._buffer_end_event_number = s._buffer_end_event_number)
    (hidx : s'._event_index = s._event_index) (h : counters_ordered s) :
    counters_ordered s' := by
  obtain ⟨h1, h2, h3⟩ := h
  refine ⟨by rw [hbend, hidx]; exact h1, ?_, ?_⟩
  · exact List.Pairwise.sublist (List.Sublist.map _ hsub) h2
  · intro e he
    rw [hbend, hidx]
    exact h3 e (hsub.subset he)

/-- The events of the queue after an `append` are among the events before it followed
by the event as it is pushed, in that order. -/
theorem append_events_sublist (try_drop : event α → ℚ → drop_pass → Bool)
    (size_estimate : event α → Nat) (s : async_batcher α) (evt : event α) :
    (s.append try_drop size_estimate evt).state._queue.events.Sublist
      (s._queue.events ++ [s.increment_counter.indexed evt]) := by
  have henq : ∀ consulted : List (append_action α),
      (s.increment_counter.enqueue try_drop size_estimate evt
        consulted).state._queue.events.Sublist
        (s._queue.events ++ [s.increment_counter.indexed evt]) := by
    intro consulted
    rw [enqueue_queue, increment_counter_queue]
    split_ifs
    · rw [prune_events, push_events]
      exact List.filter_sublist _
    · rw [push_events]
  unfold async_batcher.append
  simp only
  split_ifs
  · rw [increment_counter_queue]
    exact List.sublist_append_left _ _
  · exact henq _
  · exact henq _

/-- In counter mode ENABLE an `append` keeps the counters in order. -/
theorem append_counters_ordered (try_drop : event α → ℚ → drop_pass → Bool)
    (size_estimate : event α → Nat) (s : async_batcher α) (evt : event α)
    (hmode : s._events_counter_status = events_counter_status.ENABLE)
    (hroom : s._event_index + 1 < UINT64_MOD) (h : counters_ordered s) :
    counters_ordered (s.append try_drop size_estimate evt).state := by
  obtain ⟨h1, h2, h3⟩ := h
  have hidx : (s.append try_drop size_estimate evt).state._event_index =
      s._event_index + 1 := by
    rw [append_event_index, increment_counter_index_ENABLE s hmode, Nat.mod_eq_of_lt hroom]
  have hbend := (append_frame try_drop size_estimate s evt).1
  have hx : (s.increment_counter.indexed evt).get_event_index = s._event_index + 1 := by
    unfold async_batcher.indexed
    rw [increment_counter_status, if_pos hmode, increment_counter_index_ENABLE s hmode,
      Nat.mod_eq_of_lt hroom]
    rfl
  have hsub := append_events_sublist try_drop size_estimate s evt
  refine ⟨by rw [hbend, hidx]; omega, ?_, ?_⟩
  · refine List.Pairwise.sublist (List.Sublist.map _ hsub) ?_
    rw [List.map_append, List.pairwise_append]
    refine ⟨h2, by simp, ?_⟩
    intro a ha b hb
    simp only [List.map_cons, List.map_nil, List.mem_singleton] at hb
    rw [List.mem_map] at ha
    obtain ⟨e, he, rfl⟩ := ha
    rw [hb, hx]
    have := (h3 e he).2
    omega
  · intro e he
    rw [hbend, hidx]
    have hmem := hsub.subset he
    rw [List.mem_append, List.mem_singleton] at hmem
    rcases hmem with hmem | hmem
    · have := h3 e hmem
      omega
    · rw [hmem, hx]
      omega

end ordered
section ordered_flush
variable {α β : Type}

/-- One call of `fill_buffer` in counter mode ENABLE on ordered counters, when `add`
never fails, `remaining` is the length of the queue and a fresh buffer is below the
mark. If the call returns, the batch has a last event, its `original_count` is the
plain difference between the index of that event and `_buffer_end_event_number`, which
is not below the number of events of the batch, and the counters are in order
afterwards; they also are when the fuel ran out. -/
theorem fill_buffer_ordered (ser : collection_serializer α β) (d : event α)
    (hadd : ∀ buf e, (ser.add buf e).1 = error_code.success)
    (fuel : Nat) (s : async_batcher α) (remaining : Nat)
    (hmode : s._events_counter_status = events_counter_status.ENABLE)
    (hrem : remaining = s._queue._queue.length) (hpos : 0 < remaining)
    (hinit : ser.size ser.init < s._send_high_water_mark)
    (hbound : s._event_index < UINT64_MOD) (h : counters_ordered s) :
    ((s.fill_buffer ser d fuel remaining).code = none →
      counters_ordered (s.fill_buffer ser d fuel remaining).state ∧
      (s.fill_buffer ser d fuel remaining).state._buffer_end_event_number =
        s._buffer_end_event_number) ∧
    (∀ c, (s.fill_buffer ser d fuel remaining).code = some c →
      ∃ last, (s.fill_buffer ser d fuel remaining).added.getLast? = some last ∧
        (s.fill_buffer ser d fuel remaining).finalize_call =
          some (some (last.get_event_index - s._buffer_end_event_number)) ∧
        s._buffer_end_event_number ≤ last.get_event_index ∧
        (s.fill_buffer ser d fuel remaining).added.length ≤
          last.get_event_index - s._buffer_end_event_number ∧
        (s.fill_buffer ser d fuel remaining).state._buffer_end_event_number =
          last.get_event_index ∧
        counters_ordered (s.fill_buffer ser d fuel remaining).state ∧
        (s.fill_buffer ser d fuel remaining).remaining =
          (s.fill_buffer ser d fuel remaining).state._queue._queue.length) := by
  obtain ⟨h1, h2, h3⟩ := h
  have hidx := (fill_buffer_counter ser d fuel s remaining).1
  refine ⟨?_, ?_⟩
  · intro hnone
    obtain ⟨n1, -⟩ := fill_buffer_code_none ser d fuel s remaining hnone
    obtain ⟨f1, -⟩ := fill_buffer_fields ser d fuel s remaining
    refine ⟨counters_ordered_of_sublist s _ ?_ n1 hidx ⟨h1, h2, h3⟩, n1⟩
    unfold event_queue.events
    rw [f1]
    exact List.Sublist.map _ (fill_loop_queue_suffix ser s._send_high_water_mark fuel
      { queue := s._queue, remaining := remaining, buffer := ser.init, evt := d,
        added := [] }).sublist
  · intro c hcode
    have hfin := fill_buffer_code_finished ser d hadd fuel s remaining c hcode
    obtain ⟨k2, -, -, taken, k5, k6, -, k8, k9, -⟩ :=
      fill_loop_finished ser s._send_high_water_mark hadd fuel
        { queue := s._queue, remaining := remaining, buffer := ser.init, evt := d,
          added := [] } hrem hfin
    obtain ⟨-, g2, g3, g4, -, -, -, g8, -⟩ :=
      fill_buffer_of_finished ser d fuel s remaining _ (Prod.ext rfl hfin)
    obtain ⟨g9, g10⟩ := g8 hmode
    simp only [List.nil_append] at k5 k6 k8
    have hne : taken ≠ [] := k9 ⟨hpos, hinit⟩
    have hlast : taken.getLast? = some (taken.getLast hne) := List.getLast?_eq_getLast _ hne
    rw [hlast] at k8
    simp only [Option.getD_some] at k8
    rw [k8] at g9 g10
    have hmem : taken.getLast hne ∈ s._queue.events := by
      rw [k6]
      exact List.mem_append_left _ (List.getLast_mem hne)
    obtain ⟨b1, b2⟩ := h3 _ hmem
    rw [k6, List.map_append, List.pairwise_append] at h2
    obtain ⟨p1, p2, p3⟩ := h2
    have hcount : s._buffer_end_event_number + taken.length ≤
        (taken.getLast hne).get_event_index := by
      have := increasing_last_bound (taken.map event.get_event_index)
        s._buffer_end_event_number (taken.getLast hne).get_event_index p1
        (by
          intro x hx
          rw [List.mem_map] at hx
          obtain ⟨e, he, rfl⟩ := hx
          exact (h3 e (by rw [k6]; exact List.mem_append_left _ he)).1)
        (by rw [List.getLast?_map, hlast]; rfl)
      simpa using this
    refine ⟨taken.getLast hne, by rw [g3, k5]; exact hlast, ?_, le_of_lt b1, ?_, g10, ?_, ?_⟩
    · rw [g9, uint64_sub_of_le _ _ (le_of_lt b1) (lt_of_le_of_lt b2 hbound)]
    · rw [g3, k5]
      omega
    · refine ⟨by rw [g10, hidx]; exact b2, ?_, ?_⟩
      · rw [g4]
        exact p2
      · intro e he
        rw [g4] at he
        rw [g10, hidx]
        refine ⟨?_, (h3 e (by rw [k6]; exact List.mem_append_right _ he)).2⟩
        exact p3 _ (List.mem_map_of_mem _ (List.getLast_mem hne)) _
          (List.mem_map_of_mem _ he)
    · rw [g2, g4]
      exact k2

theorem counts_no_wrap_append (previous : Nat) (l1 l2 : List (batch_record α β)) :
    counts_no_wrap previous (l1 ++ l2) =
      (counts_no_wrap previous l1 && counts_no_wrap (last_built_index previous l1) l2) := by
  induction l1 generalizing previous with
  | nil => simp [counts_no_wrap, last_built_index]
  | cons b rest ih =>
    rw [List.cons_append, counts_no_wrap, counts_no_wrap, last_built_index]
    cases hf : b.finalize_call with
    | none => simp
    | some c =>
      cases hl : b.added.getLast? with
      | none => simp
      | some last => simp only [ih, Bool.and_assoc]

/-- The loop of `flush` in counter mode ENABLE on ordered counters: no
`original_count` wraps, every one covers the events of its batch, and the counters
are in order afterwards, with `_buffer_end_event_number` not below what it was. -/
theorem flush_loop_ordered (ser : collection_serializer α β) (d : event α)
    (send : β → error_code) (cb : Bool)
    (hadd : ∀ buf e, (ser.add buf e).1 = error_code.success) :
    ∀ (fuel : Nat) (s : async_batcher α) (remaining : Nat),
      s._events_counter_status = events_counter_status.ENABLE →
      remaining = s._queue._queue.length →
      ser.size ser.init < s._send_high_water_mark →
      s._event_index < UINT64_MOD → counters_ordered s →
      counts_no_wrap s._buffer_end_event_number
        (flush_loop ser d send cb fuel s remaining).batches = true ∧
      counters_ordered (flush_loop ser d send cb fuel s remaining).state ∧
      s._buffer_end_event_number ≤
        (flush_loop ser d send cb fuel s remaining).state._buffer_end_event_number := by
  intro fuel
  induction fuel with
  | zero =>
    intro s remaining _ _ _ _ h
    by_cases hpos : 0 < remaining <;> simp [flush_loop, hpos, counts_no_wrap, h]
  | succ fuel ih =>
    intro s remaining hmode hrem hinit hbound h
    by_cases hpos : 0 < remaining
    · obtain ⟨o1, o2⟩ := fill_buffer_ordered ser d hadd (fuel + 1) s remaining hmode hrem
        hpos hinit hbound h
      cases hcode : (s.fill_buffer ser d (fuel + 1) remaining).code with
      | none =>
        obtain ⟨n1, n2⟩ := o1 hcode
        rw [flush_loop_step_none ser d send cb fuel s remaining hpos hcode]
        exact ⟨rfl, n1, le_of_eq n2.symm⟩
      | some c =>
        obtain ⟨last, q1, q2, q3, q4, q5, q6, q7⟩ := o2 c hcode
        obtain ⟨c1, c2⟩ := fill_buffer_counter ser d (fuel + 1) s remaining
        obtain ⟨-, -, -, -, f5, -⟩ := fill_buffer_fields ser d (fuel + 1) s remaining
        obtain ⟨i1, i2, i3⟩ := ih (s.fill_buffer ser d (fuel + 1) remaining).state
          (s.fill_buffer ser d (fuel + 1) remaining).remaining (by rw [c2]; exact hmode) q7
          (by rw [f5]; exact hinit) (by rw [c1]; exact hbound) q6
        rw [q5] at i1 i3
        rw [flush_loop_step ser d send cb fuel s remaining hpos c hcode]
        refine ⟨?_, i2, le_trans q3 i3⟩
        simp only [counts_no_wrap, q1, q2, q3, q4, i1, decide_True, Bool.and_self]
    · have h0 : remaining = 0 := by omega
      subst h0
      rw [flush_loop_zero_remaining]
      exact ⟨rfl, h, le_refl _⟩

end ordered_flush
section ordered_run
variable {α β : Type}

/-- A call of `flush` in counter mode ENABLE on ordered counters. -/
theorem flush_ordered (ser : collection_serializer α β) (d : event α)
    (send : β → error_code) (cb : Bool)
    (hadd : ∀ buf e, (ser.add buf e).1 = error_code.success)
    (fuel : Nat) (s : async_batcher α)
    (hmode : s._events_counter_status = events_counter_status.ENABLE)
    (hinit : ser.size ser.init < s._send_high_water_mark)
    (hbound : s._event_index < UINT64_MOD) (h : counters_ordered s) :
    counts_no_wrap s._buffer_end_event_number (s.flush ser d send cb fuel).batches = true ∧
    counters_ordered (s.flush ser d send cb fuel).state ∧
    s._buffer_end_event_number ≤
      (s.flush ser d send cb fuel).state._buffer_end_event_number := by
  unfold async_batcher.flush
  simp only
  split_ifs
  · exact ⟨rfl, h, le_refl _⟩
  · exact flush_loop_ordered ser d send cb hadd fuel s _ hmode rfl hinit hbound h

/-- The counters along a sequence of steps in counter mode ENABLE that starts on
ordered counters and makes fewer than 2^64 calls of `append`: the counters are in
order in every state, `_buffer_end_event_number` never decreases, and no
`original_count` wraps. -/
theorem run_ordered (env : batcher_env α β)
    (hadd : ∀ buf e, (env.serializer.add buf e).1 = error_code.success) :
    ∀ (steps : List (batcher_step α)) (s : async_batcher α),
      s._events_counter_status = events_counter_status.ENABLE →
      env.serializer.size env.serializer.init < s._send_high_water_mark →
      s._event_index + append_calls steps < UINT64_MOD →
      counters_ordered s →
      (∀ st ∈ env.states s steps,
        counters_ordered st ∧ s._buffer_end_event_number ≤ st._buffer_end_event_number) ∧
      (env.states s steps).Pairwise
        (fun a b => a._buffer_end_event_number ≤ b._buffer_end_event_number) ∧
      counts_no_wrap s._buffer_end_event_number (env.batches s steps) = true := by
  intro steps
  induction steps with
  | nil =>
    intro s _ _ _ h
    refine ⟨?_, ?_, rfl⟩
    · intro st hst
      simp only [batcher_env.states, List.mem_singleton] at hst
      subst hst
      exact ⟨h, le_refl _⟩
    · simp [batcher_env.states]
  | cons step rest ih =>
    intro s hmode hinit hbound h
    cases step with
    | append evt =>
      simp only [append_calls] at hbound
      obtain ⟨a1, a2⟩ := append_frame env.try_drop env.size_estimate s evt
      have hidx : (s.append env.try_drop env.size_estimate evt).state._event_index =
          s._event_index + 1 := by
        rw [append_event_index, increment_counter_index_ENABLE s hmode,
          Nat.mod_eq_of_lt (by omega)]
      obtain ⟨i1, i2, i3⟩ := ih (s.append env.try_drop env.size_estimate evt).state
        (by rw [append_status]; exact hmode) (by rw [a2]; exact hinit)
        (by rw [hidx]; omega)
        (append_counters_ordered env.try_drop env.size_estimate s evt hmode (by omega) h)
      rw [a1] at i1 i3
      simp only [batcher_env.states, batcher_env.batches, batcher_env.step]
      refine ⟨?_, ?_, i3⟩
      · intro st hst
        rcases List.mem_cons.mp hst with hst | hst
        · subst hst
          exact ⟨h, le_refl _⟩
        · exact i1 st hst
      · rw [List.pairwise_cons]
        exact ⟨fun st hst => (i1 st hst).2, i2⟩
    | flush fuel =>
      simp only [append_calls] at hbound
      obtain ⟨f1, f2, f3⟩ := flush_ordered env.serializer env.default_event env.send
        env.perror_cb hadd fuel s hmode hinit (by omega) h
      obtain ⟨-, c2, c3⟩ := flush_chain env.serializer env.default_event env.send
        env.perror_cb fuel s hmode hinit
      obtain ⟨d1, d2⟩ := flush_counter env.serializer env.default_event env.send
        env.perror_cb fuel s
      obtain ⟨i1, i2, i3⟩ := ih
        (s.flush env.serializer env.default_event env.send env.perror_cb fuel).state
        (by rw [d2]; exact hmode) (by rw [c3]; exact hinit) (by rw [d1]; exact hbound) f2
      simp only [batcher_env.states, batcher_env.batches, batcher_env.step]
      refine ⟨?_, ?_, ?_⟩
      · intro st hst
        rcases List.mem_cons.mp hst with hst | hst
        · subst hst
          exact ⟨h, le_refl _⟩
        · exact ⟨(i1 st hst).1, le_trans f3 (i1 st hst).2⟩
      · rw [List.pairwise_cons]
        exact ⟨fun st hst => le_trans f3 (i1 st hst).2, i2⟩
      · rw [counts_no_wrap_append, f1, ← c2, i3]
        rfl

theorem create_counters_ordered (α : Type) (config : async_batcher_config) :
    counters_ordered (async_batcher.create α config) := by
  unfold counters_ordered async_batcher.create event_queue.events
  simp

end ordered_run

section header_authorization_lemmas

/-- A `get` with no default gives what the configuration holds under the name. -/
theorem configuration_get_none (c : configuration) (key : String) :
    c.get key none = c._map.lookup key := by
  unfold configuration.get
  cases c._map.lookup key <;> rfl

/-- A `get` with a default that is not null is never null. -/
theorem configuration_get_some (c : configuration) (key defval : String) :
    c.get key (some defval) = some ((c._map.lookup key).getD defval) := by
  unfold configuration.get
  cases c._map.lookup key <;> rfl

/-- A `get` after a `set` of the same name gives the value that was set. -/
theorem configuration_get_set (c : configuration) (key val : String)
    (defval : Option String) : (c.set key val).get key defval = some val := by
  unfold configuration.get configuration.set
  simp [List.lookup]

end header_authorization_lemmas

section pending
variable {α β : Type}

/-- In BLOCK mode an `append` whose event is not dropped by subsampling adds one event
to the queue, whatever the size of the queue. -/
theorem append_BLOCK_kept_size (try_drop : event α → ℚ → drop_pass → Bool)
    (size_estimate : event α → Nat) (s : async_batcher α) (evt : event α)
    (hmode : s._queue_mode = queue_mode_enum.BLOCK)
    (hkept : ¬ (s._subsample_rate < 1 ∧
      try_drop evt s._subsample_rate drop_pass.SUBSAMPLE_RATE_DROP_PASS = true)) :
    (s.append try_drop size_estimate evt).state._queue.size = s._queue.size + 1 := by
  have henq : ∀ consulted : List (append_action α),
      (s.increment_counter.enqueue try_drop size_estimate evt consulted).state._queue.size =
        s._queue.size + 1 := by
    intro consulted
    rw [enqueue_queue, increment_counter_queue, increment_counter_queue_mode, hmode,
      if_neg (by rintro ⟨-, h⟩; cases h)]
    exact (push_size s._queue _ _).1
  by_cases hrate : s._subsample_rate < 1
  · have hkeep : try_drop evt s._subsample_rate drop_pass.SUBSAMPLE_RATE_DROP_PASS = false := by
      cases h : try_drop evt s._subsample_rate drop_pass.SUBSAMPLE_RATE_DROP_PASS with
      | false => rfl
      | true => exact absurd ⟨hrate, h⟩ hkept
    rw [append_of_kept try_drop size_estimate s evt hrate hkeep]
    exact henq _
  · rw [append_of_rate_not_lt try_drop size_estimate s evt hrate]
    exact henq _

/-- A call of `fill_buffer` that returned a code left its loop by the condition or by
a failed `add`. -/
theorem fill_buffer_code_some_exit (ser : collection_serializer α β) (d : event α)
    (fuel : Nat) (s : async_batcher α) (remaining : Nat) (c : error_code)
    (h : (s.fill_buffer ser d fuel remaining).code = some c) :
    (fill_loop ser s._send_high_water_mark fuel
      { queue := s._queue, remaining := remaining, buffer := ser.init, evt := d,
        added := [] }).2 ≠ loop_exit.out_of_fuel := by
  intro hx
  unfold async_batcher.fill_buffer at h
  simp only [hx] at h
  cases h

/-- A loop of `fill_buffer` that starts with its condition true and ends within the
fuel has taken at least one event off the queue. -/
theorem fill_loop_shrinks (ser : collection_serializer α β) (hwm : Nat) :
    ∀ (fuel : Nat) (st : fill_state α β),
      (0 < st.remaining ∧ ser.size st.buffer < hwm) →
      (fill_loop ser hwm fuel st).2 ≠ loop_exit.out_of_fuel →
      (fill_loop ser hwm fuel st).1.queue._queue.length < st.queue._queue.length := by
  intro fuel
  induction fuel with
  | zero =>
    intro st hc
    have h0 : fill_loop ser hwm 0 st = (st, loop_exit.out_of_fuel) := by
      simp only [fill_loop, if_pos hc]
    rw [h0]
    intro h
    exact absurd rfl h
  | succ fuel ih =>
    intro st hc
    rw [fill_loop]
    simp only [if_pos hc]
    cases hp : st.queue.pop with
    | none =>
      simp only
      exact ih st hc
    | some p =>
      obtain ⟨e, q⟩ := p
      obtain ⟨hl, -⟩ := pop_some_length st.queue q e hp
      simp only
      by_cases ha : (ser.add st.buffer e).1 = error_code.success
      · simp only [ha, if_true]
        intro _
        have := (fill_loop_remaining ser hwm fuel
          { queue := q, remaining := st.remaining - 1, buffer := (ser.add st.buffer e).2,
            evt := e, added := st.added ++ [e] }).1
        simp only at this
        omega
      · simp only [ha, if_false]
        intro _
        omega

/-- Once `remaining` is ahead of the length of the queue, with a fresh buffer below the
mark and fuel for more rounds than the queue has events, the calls of the loop of
`flush` end with the `acquire` of a buffer that is never sent. -/
theorem flush_loop_trace_pending (ser : collection_serializer α β) (d : event α)
    (send : β → error_code) (cb : Bool) :
    ∀ (fuel : Nat) (s : async_batcher α) (remaining : Nat),
      s._queue._queue.length < remaining →
      ser.size ser.init < s._send_high_water_mark →
      s._queue._queue.length < fuel →
      flush_loop_trace ser d send cb fuel s remaining =
        (flush_loop ser d send cb fuel s remaining).batches.flatMap
          (batch_record.actions cb) ++ [flush_action.acquire] := by
  intro fuel
  induction fuel with
  | zero =>
    intro s remaining _ _ h
    omega
  | succ fuel ih =>
    intro s remaining hlt hinit hfuel
    have hpos : 0 < remaining := by omega
    cases hcode : (s.fill_buffer ser d (fuel + 1) remaining).code with
    | none =>
      rw [flush_loop_step_none ser d send cb fuel s remaining hpos hcode, flush_loop_trace]
      simp only [if_pos hpos, hcode, List.flatMap_nil, List.nil_append]
    | some c =>
      obtain ⟨f1, f2, -, -, f5, -⟩ := fill_buffer_fields ser d (fuel + 1) s remaining
      have hl := ((fill_loop_remaining ser s._send_high_water_mark (fuel + 1)
        { queue := s._queue, remaining := remaining, buffer := ser.init, evt := d,
          added := [] }).2.2 (le_of_lt hlt)).2.1 hlt
      have hs := fill_loop_shrinks ser s._send_high_water_mark (fuel + 1)
        { queue := s._queue, remaining := remaining, buffer := ser.init, evt := d,
          added := [] } ⟨hpos, hinit⟩
        (fill_buffer_code_some_exit ser d (fuel + 1) s remaining c hcode)
      rw [← f1, ← f2] at hl
      rw [← f1] at hs
      simp only at hs
      have i1 := ih (s.fill_buffer ser d (fuel + 1) remaining).state
        (s.fill_buffer ser d (fuel + 1) remaining).remaining hl (by rw [f5]; exact hinit)
        (by omega)
      rw [flush_loop_step ser d send cb fuel s remaining hpos c hcode, flush_loop_trace]
      simp only [if_pos hpos, hcode, List.flatMap_cons, batch_record.actions, i1,
        List.append_assoc]

/-- A run of the loop of `flush` in which an `add` failed, with a fresh buffer below
the mark and fuel for more rounds than the queue has events: its calls end with the
`acquire` of a buffer that is never sent. -/
theorem flush_loop_add_failure_pending (ser : collection_serializer α β) (d : event α)
    (send : β → error_code) (cb : Bool) :
    ∀ (fuel : Nat) (s : async_batcher α) (remaining : Nat),
      remaining = s._queue._queue.length →
      ser.size ser.init < s._send_high_water_mark →
      s._queue._queue.length < fuel →
      (∃ b ∈ (flush_loop ser d send cb fuel s remaining).batches, b.finalize_call = none) →
      flush_loop_trace ser d send cb fuel s remaining =
        (flush_loop ser d send cb fuel s remaining).batches.flatMap
          (batch_record.actions cb) ++ [flush_action.acquire] := by
  intro fuel
  induction fuel with
  | zero =>
    intro s remaining _ _ h
    omega
  | succ fuel ih =>
    intro s remaining hrem hinit hfuel hex
    by_cases hpos : 0 < remaining
    · cases hcode : (s.fill_buffer ser d (fuel + 1) remaining).code with
      | none =>
        rw [flush_loop_step_none ser d send cb fuel s remaining hpos hcode] at hex
        simp at hex
      | some c =>
        obtain ⟨f1, f2, -, -, f5, -, -, f8⟩ := fill_buffer_fields ser d (fuel + 1) s remaining
        obtain ⟨l1, -, l3⟩ := (fill_loop_remaining ser s._send_high_water_mark (fuel + 1)
          { queue := s._queue, remaining := remaining, buffer := ser.init, evt := d,
            added := [] }).2.2 (le_of_eq hrem.symm)
        have hs := fill_loop_shrinks ser s._send_high_water_mark (fuel + 1)
          { queue := s._queue, remaining := remaining, buffer := ser.init, evt := d,
            added := [] } ⟨hpos, hinit⟩
          (fill_buffer_code_some_exit ser d (fuel + 1) s remaining c hcode)
        rw [← f1, ← f2] at l1 l3
        rw [← f1] at hs
        simp only at hs
        have hrest : flush_loop_trace ser d send cb fuel
            (s.fill_buffer ser d (fuel + 1) remaining).state
            (s.fill_buffer ser d (fuel + 1) remaining).remaining =
            (flush_loop ser d send cb fuel (s.fill_buffer ser d (fuel + 1) remaining).state
              (s.fill_buffer ser d (fuel + 1) remaining).remaining).batches.flatMap
              (batch_record.actions cb) ++ [flush_action.acquire] := by
          rcases Nat.lt_or_ge
            (s.fill_buffer ser d (fuel + 1) remaining).state._queue._queue.length
            (s.fill_buffer ser d (fuel + 1) remaining).remaining with h | h
          · exact flush_loop_trace_pending ser d send cb fuel _ _ h (by rw [f5]; exact hinit)
              (by omega)
          · refine ih _ _ (by omega) (by rw [f5]; exact hinit) (by omega) ?_
            rw [flush_loop_step ser d send cb fuel s remaining hpos c hcode] at hex
            obtain ⟨b, hb, hnone⟩ := hex
            simp only [List.mem_cons] at hb
            rcases hb with hb | hb
            · subst hb
              simp only at hnone
              rcases f8 hnone with h' | ⟨c', h'⟩
              · rw [hcode] at h'
                cases h'
              · have := l3 c' h'
                omega
            · exact ⟨b, hb, hnone⟩
        rw [flush_loop_step ser d send cb fuel s remaining hpos c hcode, flush_loop_trace]
        simp only [if_pos hpos, hcode, List.flatMap_cons, batch_record.actions, hrest,
          List.append_assoc]
    · have h0 : remaining = 0 := by omega
      subst h0
      rw [flush_loop_zero_remaining] at hex
      simp at hex

end pending
section pending_scenario
variable {α β : Type}

/-- On an empty queue the loop of `fill_buffer` goes round without a change for as
long as its condition holds. -/
theorem fill_loop_empty_spins (ser : collection_serializer α β) (hwm : Nat) :
    ∀ (fuel : Nat) (st : fill_state α β), st.queue._queue = [] →
      (0 < st.remaining ∧ ser.size st.buffer < hwm) →
      fill_loop ser hwm fuel st = (st, loop_exit.out_of_fuel) := by
  intro fuel
  induction fuel with
  | zero =>
    intro st _ hc
    simp only [fill_loop, if_pos hc]
  | succ fuel ih =>
    intro st hq hc
    rw [fill_loop]
    simp only [if_pos hc, pop_nil st.queue hq]
    exact ih st hq hc

/-- The call of `fill_buffer` whose first `add` fails: it returns the code of the `add`
with the event taken off the queue and `remaining` as it was. -/
theorem fill_buffer_first_add_fails (ser : collection_serializer α β) (d : event α)
    (fuel : Nat) (s : async_batcher α) (remaining : Nat) (e : event α) (n : Nat)
    (rest : List (event α × Nat)) (hq : s._queue._queue = (e, n) :: rest)
    (hpos : 0 < remaining) (hinit : ser.size ser.init < s._send_high_water_mark)
    (hfail : (ser.add ser.init e).1 ≠ error_code.success) :
    s.fill_buffer ser d (fuel + 1) remaining =
      { state := { s with _queue := { s._queue with _queue := rest } }
        remaining := remaining
        buffer := (ser.add ser.init e).2
        added := []
        finalize_call := none
        code := some (ser.add ser.init e).1 } := by
  have hloop : fill_loop ser s._send_high_water_mark (fuel + 1)
      { queue := s._queue, remaining := remaining, buffer := ser.init, evt := d,
        added := [] } =
      ({ queue := { s._queue with _queue := rest }, remaining := remaining,
         buffer := (ser.add ser.init e).2, evt := e, added := [] },
        loop_exit.add_failed (ser.add ser.init e).1) := by
    rw [fill_loop]
    simp only [hpos, hinit, and_self, if_true, pop_cons s._queue e n rest hq, hfail,
      if_false]
  unfold async_batcher.fill_buffer
  simp only [hloop]

/-- The call of `fill_buffer` on a queue of one event with `remaining` above 1, when
the event leaves the buffer below the mark: the loop takes the event and then goes
round on the empty queue, and the call does not return. -/
theorem fill_buffer_last_event_spins (ser : collection_serializer α β) (d : event α)
    (fuel : Nat) (s : async_batcher α) (remaining : Nat) (e : event α) (n : Nat)
    (hq : s._queue._queue = [(e, n)]) (hrem : 1 < remaining)
    (hinit : ser.size ser.init < s._send_high_water_mark)
    (hadd : (ser.add ser.init e).1 = error_code.success)
    (hbelow : ser.size (ser.add ser.init e).2 < s._send_high_water_mark) :
    (s.fill_buffer ser d (fuel + 1) remaining).code = none := by
  have hloop : fill_loop ser s._send_high_water_mark (fuel + 1)
      { queue := s._queue, remaining := remaining, buffer := ser.init, evt := d,
        added := [] } =
      ({ queue := { s._queue with _queue := [] }, remaining := remaining - 1,
         buffer := (ser.add ser.init e).2, evt := e, added := [] ++ [e] },
        loop_exit.out_of_fuel) := by
    rw [fill_loop_step_pop ser s._send_high_water_mark fuel _ ⟨by simp only; omega, hinit⟩ e
      { s._queue with _queue := [] } (pop_cons s._queue e n [] hq) hadd]
    exact fill_loop_empty_spins ser s._send_high_water_mark fuel _ rfl
      ⟨by simp only; omega, hbelow⟩
  unfold async_batcher.fill_buffer
  simp only [hloop]

/-- The queue "foo", "bar" with a serializer whose `add` fails on "foo": with fuel for
two rounds or more, the calls of `flush` are those of the first round, which reports
the failure and sends its buffer, and the `acquire` of the second round, whose
`fill_buffer` does not return. -/
theorem flush_timeout_add_failure_trace (fuel : Nat) :
    flush_timeout_state.flush_trace (rejecting_serializer "foo") ⟨"", 0⟩ test_send true
        (fuel + 2) =
      [flush_action.acquire, flush_action.fill_buffer (error_code.failure 1),
        flush_action.error_callback (error_code.failure 1),
        flush_action.send send_overload.plain "" error_code.success,
        flush_action.acquire] := by
  have h0 : flush_timeout_state._queue.size ≠ 0 := by decide
  have h1 := fill_buffer_first_add_fails (rejecting_serializer "foo") ⟨"", 0⟩ (fuel + 1)
    flush_timeout_state 2 ⟨"foo", 1⟩ 1 [(⟨"bar", 2⟩, 1)] rfl (by decide) (by decide)
    (by decide)
  have h2 := fill_buffer_last_event_spins (rejecting_serializer "foo") ⟨"", 0⟩ fuel
    { flush_timeout_state with
      _queue := { flush_timeout_state._queue with _queue := [(⟨"bar", 2⟩, 1)] } }
    2 ⟨"bar", 2⟩ 1 rfl (by decide) (by decide) (by decide) (by decide)
  unfold async_batcher.flush_trace
  simp only [h0, if_false]
  have hsize : flush_timeout_state._queue.size = 2 := rfl
  rw [hsize, flush_loop_trace, if_pos (by decide)]
  simp only [h1]
  rw [flush_loop_trace, if_pos (by decide)]
  simp only [h2]
  decide

end pending_scenario

/-! # The properties of the specification -/

/-- C1 (the code departs from the specification). In counter mode ENABLE `flush` does not
call the overload of `send` that carries `original_count`: on the queue of the test
`flush_timeout_with_counter_ENABLE` it builds one batch, gives the `original_count` 2
to the serializer's `finalize`, and hands the buffer to the plain `send`; and in every
mode every batch of every `flush` goes to the plain `send`. -/
theorem flush_counter_ENABLE_calls_plain_send :
    (undroppable_test_env.run (async_batcher.create String flush_timeout_config)
      flush_timeout_steps)._events_counter_status = events_counter_status.ENABLE ∧
    ((undroppable_test_env.run (async_batcher.create String flush_timeout_config)
      flush_timeout_steps).flush line_serializer ⟨"", 0⟩ test_send true 2).batches.map
        (fun b => (b.buffer, b.finalize_call, b.send_call)) =
      [("foo\nbar\n", some (some 2), send_overload.plain)] ∧
    (∀ (α β : Type) (ser : collection_serializer α β) (default_event : event α)
      (send : β → error_code) (perror_cb : Bool) (fuel : Nat) (s : async_batcher α),
      ∀ b ∈ (s.flush ser default_event send perror_cb fuel).batches,
        b.send_call = send_overload.plain) := by
  rw [flush_timeout_run]
  refine ⟨rfl, rfl, ?_⟩
  intro α β ser d send cb fuel s b hb
  unfold async_batcher.flush at hb
  by_cases h0 : s._queue.size = 0
  · simp [h0] at hb
  · simp only [h0, if_false] at hb
    exact flush_loop_send_plain ser d send cb fuel s _ b hb

/-- C2 (the code departs from the specification). After the five `append` calls of the test
`queue_config_drop_rate_test_with_counter_ENABLE`, of which the second and the fifth
are dropped by subsampling, the drain emits the single batch "0.00", "0.69", "0.70"
with an `original_count` of 4, the index of its last event, and not the 5 that the
test expects. -/
theorem drain_original_count_misses_trailing_drops :
    append_calls drop_rate_test_steps = 5 ∧
    ((drop_rate_test_env.run
      (async_batcher.create config_drop_seed
        (drop_rate_test_config queue_mode_enum.DROP events_counter_status.ENABLE))
      drop_rate_test_steps).destroy config_drop_serializer ⟨⟨"", 0⟩, 0⟩ test_send true 3
      ).batches.map (fun b => (b.buffer, b.finalize_call)) =
      [("0.00\n0.69\n0.70\n", some (some 4))] ∧
    (original_counts ((drop_rate_test_env.run
      (async_batcher.create config_drop_seed
        (drop_rate_test_config queue_mode_enum.DROP events_counter_status.ENABLE))
      drop_rate_test_steps).destroy config_drop_serializer ⟨⟨"", 0⟩, 0⟩ test_send true 3
      ).batches).sum = 4 := by
  rw [drop_rate_test_run]
  exact ⟨rfl, rfl, rfl⟩

/-- C3. In counter mode ENABLE, a call of `fill_buffer` that reaches `finalize` with
at least one event in the batch gives `finalize` the `event_index` of the last event
of the batch minus `_buffer_end_event_number` as it was before the call (a `uint64_t`
subtraction, the plain difference when the earlier value is not the larger), and
leaves `_buffer_end_event_number` at the `event_index` of that last event; a fresh
batcher starts with `_buffer_end_event_number` at 0. So over any sequence of `append`
and `flush` calls on a fresh batcher whose empty buffer is below the mark, every
finalized batch has the `original_count` "index of its last event minus index of the
last event of the finalized batch before it", with 0 before the first batch. -/
theorem fill_buffer_original_count {α β : Type} (ser : collection_serializer α β)
    (default_event : event α) (fuel : Nat) (s : async_batcher α) (remaining : Nat)
    (last : event α) (config : async_batcher_config)
    (hmode : s._events_counter_status = events_counter_status.ENABLE)
    (hbuilt : (s.fill_buffer ser default_event fuel remaining).finalize_call ≠ none)
    (hlast : (s.fill_buffer ser default_event fuel remaining).added.getLast? = some last) :
    (s.fill_buffer ser default_event fuel remaining).finalize_call =
      some (some (uint64_sub last.get_event_index s._buffer_end_event_number)) ∧
    (s.fill_buffer ser default_event fuel remaining).state._buffer_end_event_number =
      last.get_event_index ∧
    (s._buffer_end_event_number ≤ last.get_event_index →
      last.get_event_index < UINT64_MOD →
      uint64_sub last.get_event_index s._buffer_end_event_number =
        last.get_event_index - s._buffer_end_event_number) ∧
    (async_batcher.create α config)._buffer_end_event_number = 0 ∧
    (∀ (env : batcher_env α β) (steps : List (batcher_step α)),
      config.event_counter_status = events_counter_status.ENABLE →
      env.serializer.size env.serializer.init < config.send_high_water_mark →
      counts_chained 0 (env.batches (async_batcher.create α config) steps) = true) := by
  have hfin := fill_buffer_finalize_finished ser default_event fuel s remaining hbuilt
  have hevt := fill_loop_evt_last ser s._send_high_water_mark default_event fuel
    { queue := s._queue, remaining := remaining, buffer := ser.init, evt := default_event,
      added := [] } rfl hfin
  obtain ⟨-, -, g3, -, -, -, -, g8, -⟩ :=
    fill_buffer_of_finished ser default_event fuel s remaining _ (Prod.ext rfl hfin)
  obtain ⟨g9, g10⟩ := g8 hmode
  rw [← g3, hlast] at hevt
  simp only [Option.getD_some] at hevt
  rw [hevt] at g9 g10
  exact ⟨g9, g10, fun h1 h2 => uint64_sub_of_le _ _ h1 h2, rfl,
    fun env steps hcfg hfresh =>
      batches_chained env steps (async_batcher.create α config) hcfg hfresh⟩

/-- Witness of C3: the first batch of the test `flush_batches_with_counter_ENABLE`
ends with the event "bar-yyy" of index 2 and is finalized with the count 2 - 0. -/
theorem fill_buffer_original_count_witness :
    flush_batches_state._events_counter_status = events_counter_status.ENABLE ∧
    (flush_batches_state.fill_buffer line_serializer ⟨"", 0⟩ 3 3).finalize_call ≠ none ∧
    (flush_batches_state.fill_buffer line_serializer ⟨"", 0⟩ 3 3).added.getLast? =
      some ⟨"bar-yyy", 2⟩ ∧
    (flush_batches_state.fill_buffer line_serializer ⟨"", 0⟩ 3 3).finalize_call =
      some (some (uint64_sub (event.get_event_index (⟨"bar-yyy", 2⟩ : event String))
        flush_batches_state._buffer_end_event_number)) :=
  ⟨rfl, by decide, rfl,
    (fill_buffer_original_count line_serializer ⟨"", 0⟩ 3 flush_batches_state 3
      ⟨"bar-yyy", 2⟩ flush_batches_config rfl (by decide) rfl).1⟩

/-- C4. In counter mode ENABLE, for every sequence of `append` calls made one after
another on a fresh batcher (with any flushes in between, and fewer than `2 ^ 64`
calls), every event that was enqueued carries as `event_index` the number of `append`
calls made up to and including its own, and the indices of the enqueued events are
strictly increasing in admission order, hence pairwise distinct. -/
theorem admitted_event_index_increasing {α β : Type} (env : batcher_env α β)
    (config : async_batcher_config) (steps : List (batcher_step α))
    (hmode : config.event_counter_status = events_counter_status.ENABLE)
    (hcalls : append_calls steps < UINT64_MOD) :
    (∀ p ∈ env.admitted (async_batcher.create α config) 0 steps,
      p.2.get_event_index = p.1) ∧
    ((env.admitted (async_batcher.create α config) 0 steps).map
      (fun p => p.2.get_event_index)).Pairwise (fun a b => a < b) ∧
    ((env.admitted (async_batcher.create α config) 0 steps).map
      (fun p => p.2.get_event_index)).Nodup := by
  obtain ⟨h1, h2⟩ := admitted_indexed env steps (async_batcher.create α config) 0 hmode rfl
    (by omega)
  have h3 : ((env.admitted (async_batcher.create α config) 0 steps).map
      (fun p => p.2.get_event_index)).Pairwise (fun a b => a < b) := by
    rw [List.pairwise_map]
    refine h2.imp_of_mem ?_
    intro a b ha hb hab
    rw [(h1 a ha).1, (h1 b hb).1]
    exact hab
  exact ⟨fun p hp => (h1 p hp).1, h3, h3.imp (fun h => Nat.ne_of_lt h)⟩

/-- Witness of C4: the five `append` calls of the test
`queue_config_drop_rate_test_with_counter_ENABLE`. -/
theorem admitted_event_index_increasing_witness :
    (drop_rate_test_config queue_mode_enum.DROP
      events_counter_status.ENABLE).event_counter_status = events_counter_status.ENABLE ∧
    append_calls drop_rate_test_steps < UINT64_MOD ∧
    ((drop_rate_test_env.admitted
      (async_batcher.create config_drop_seed
        (drop_rate_test_config queue_mode_enum.DROP events_counter_status.ENABLE))
      0 drop_rate_test_steps).map (fun p => p.2.get_event_index)).Pairwise
        (fun a b => a < b) :=
  ⟨rfl, by decide,
    (admitted_event_index_increasing drop_rate_test_env
      (drop_rate_test_config queue_mode_enum.DROP events_counter_status.ENABLE)
      drop_rate_test_steps rfl (by decide)).2.1⟩

/-- C5. In counter mode ENABLE one call of `append` increments `_event_index`,
whether the event is enqueued or dropped by the subsampling pass: the new value is
the old one plus 1 as a `uint64_t`, which is exactly 1 more unless the counter stood
at its last value `2 ^ 64 - 1`. -/
theorem append_increments_event_index {α : Type}
    (try_drop : event α → ℚ → drop_pass → Bool) (size_estimate : event α → Nat)
    (s : async_batcher α) (evt : event α)
    (hmode : s._events_counter_status = events_counter_status.ENABLE) :
    (s.append try_drop size_estimate evt).state._event_index =
      (s._event_index + 1) % UINT64_MOD ∧
    (s._event_index + 1 < UINT64_MOD →
      (s.append try_drop size_estimate evt).state._event_index = s._event_index + 1) := by
  have h : (s.append try_drop size_estimate evt).state._event_index =
      (s._event_index + 1) % UINT64_MOD := by
    rw [append_event_index, increment_counter_index_ENABLE s hmode]
  exact ⟨h, fun hroom => by rw [h, Nat.mod_eq_of_lt hroom]⟩

/-- Witness of C5: a fourth `append` on the batcher of the test
`flush_batches_with_counter_ENABLE` moves the counter from 3 to 4. -/
theorem append_increments_event_index_witness :
    flush_batches_state._events_counter_status = events_counter_status.ENABLE ∧
    flush_batches_state._event_index + 1 < UINT64_MOD ∧
    (flush_batches_state.append test_undroppable_event.try_drop test_size_estimate
      ⟨"again", 0⟩).state._event_index = flush_batches_state._event_index + 1 :=
  ⟨rfl, by decide,
    (append_increments_event_index test_undroppable_event.try_drop test_size_estimate
      flush_batches_state ⟨"again", 0⟩ rfl).2 (by decide)⟩

/-- C6. With `_subsample_rate < 1`, an event whose
`try_drop(_subsample_rate, SUBSAMPLE_RATE_DROP_PASS)` is true makes `append` return
`success` with the queue as it was and nothing done but the `try_drop` call (no push,
no prune, no wait); an event whose `try_drop` is false is pushed at the back of the
queue, after which the overflow policy of DROP mode may prune the full queue. -/
theorem append_subsample_pass {α : Type} (try_drop : event α → ℚ → drop_pass → Bool)
    (size_estimate : event α → Nat) (s : async_batcher α) (evt : event α)
    (hrate : s._subsample_rate < 1) :
    (try_drop evt s._subsample_rate drop_pass.SUBSAMPLE_RATE_DROP_PASS = true →
      (s.append try_drop size_estimate evt).code = error_code.success ∧
      (s.append try_drop size_estimate evt).state._queue = s._queue ∧
      (s.append try_drop size_estimate evt).actions =
        [append_action.try_drop s._subsample_rate drop_pass.SUBSAMPLE_RATE_DROP_PASS true]) ∧
    (try_drop evt s._subsample_rate drop_pass.SUBSAMPLE_RATE_DROP_PASS = false →
      (s.append try_drop size_estimate evt).pushed = some (s.increment_counter.indexed evt) ∧
      (s.append try_drop size_estimate evt).state._queue =
        if (s._queue.push (s.increment_counter.indexed evt)
              (size_estimate (s.increment_counter.indexed evt))).is_full = true ∧
            s._queue_mode = queue_mode_enum.DROP then
          (s._queue.push (s.increment_counter.indexed evt)
            (size_estimate (s.increment_counter.indexed evt))).prune try_drop s._pass_prob
        else
          s._queue.push (s.increment_counter.indexed evt)
            (size_estimate (s.increment_counter.indexed evt))) := by
  constructor
  · intro hdrop
    rw [append_of_dropped try_drop size_estimate s evt hrate hdrop, increment_counter_queue]
    exact ⟨rfl, rfl, rfl⟩
  · intro hkeep
    rw [append_of_kept try_drop size_estimate s evt hrate hkeep]
    refine ⟨?_, ?_⟩
    · apply enqueue_pushed
      intro a ha e n
      simp at ha
      subst ha
      simp
    · rw [enqueue_queue, increment_counter_queue, increment_counter_queue_mode,
        increment_counter_pass_prob]

/-- Witness of C6: the second event of the test `queue_config_drop_rate_test`, with
seed id "1.00", at the rate 0.7: it is dropped and the queue stays empty. -/
theorem append_subsample_pass_witness :
    drop_rate_block_state._subsample_rate < 1 ∧
    config_drop_event.try_drop ⟨⟨"1.00", 1⟩, 0⟩ drop_rate_block_state._subsample_rate
      drop_pass.SUBSAMPLE_RATE_DROP_PASS = true ∧
    (drop_rate_block_state.append config_drop_event.try_drop test_size_estimate
      ⟨⟨"1.00", 1⟩, 0⟩).code = error_code.success ∧
    (drop_rate_block_state.append config_drop_event.try_drop test_size_estimate
      ⟨⟨"1.00", 1⟩, 0⟩).state._queue = drop_rate_block_state._queue ∧
    (drop_rate_block_state.append config_drop_event.try_drop test_size_estimate
      ⟨⟨"1.00", 1⟩, 0⟩).actions =
        [append_action.try_drop drop_rate_block_state._subsample_rate
          drop_pass.SUBSAMPLE_RATE_DROP_PASS true] :=
  have hrate : drop_rate_block_state._subsample_rate < 1 := by
    norm_num [drop_rate_block_state, drop_rate_test_config, async_batcher.create]
  have hdrop : config_drop_event.try_drop ⟨⟨"1.00", 1⟩, 0⟩
      drop_rate_block_state._subsample_rate drop_pass.SUBSAMPLE_RATE_DROP_PASS = true := by
    norm_num [drop_rate_block_state, drop_rate_test_config, async_batcher.create,
      config_drop_event.try_drop, are_same, DEFAULT_FLOAT_TOLERANCE, abs_lt]
  ⟨hrate, hdrop,
    (append_subsample_pass config_drop_event.try_drop test_size_estimate
      drop_rate_block_state ⟨⟨"1.00", 1⟩, 0⟩ hrate).1 hdrop⟩

/-- C7. With `_subsample_rate` equal to 1, `append` makes no `try_drop` call for the
subsampling pass, whatever the event's `try_drop` would answer, and pushes the event
at the back of the queue (after which the overflow policy of DROP mode may prune the
full queue). -/
theorem append_rate_one_no_subsampling {α : Type}
    (try_drop : event α → ℚ → drop_pass → Bool) (size_estimate : event α → Nat)
    (s : async_batcher α) (evt : event α) (hrate : s._subsample_rate = 1) :
    (∀ rate pass dropped, append_action.try_drop rate pass dropped ∉
      (s.append try_drop size_estimate evt).actions) ∧
    (s.append try_drop size_estimate evt).pushed = some (s.increment_counter.indexed evt) ∧
    (s.append try_drop size_estimate evt).state._queue =
      if (s._queue.push (s.increment_counter.indexed evt)
            (size_estimate (s.increment_counter.indexed evt))).is_full = true ∧
          s._queue_mode = queue_mode_enum.DROP then
        (s._queue.push (s.increment_counter.indexed evt)
          (size_estimate (s.increment_counter.indexed evt))).prune try_drop s._pass_prob
      else
        s._queue.push (s.increment_counter.indexed evt)
          (size_estimate (s.increment_counter.indexed evt)) := by
  have hnot : ¬ s._subsample_rate < 1 := by rw [hrate]; exact lt_irrefl 1
  rw [append_of_rate_not_lt try_drop size_estimate s evt hnot]
  refine ⟨?_, ?_, ?_⟩
  · intro rate pass dropped hmem
    have := enqueue_actions_try_drop try_drop size_estimate _ evt [] rate pass dropped hmem
    simp at this
  · apply enqueue_pushed
    intro a ha
    simp at ha
  · rw [enqueue_queue, increment_counter_queue, increment_counter_queue_mode,
      increment_counter_pass_prob]

/-- Witness of C7: the first `test_droppable_event` of the test
`queue_overflow_do_not_drop_event`, whose `try_drop` is always true, is enqueued. -/
theorem append_rate_one_no_subsampling_witness :
    queue_overflow_state._subsample_rate = 1 ∧
    (queue_overflow_state.append test_droppable_event.try_drop test_size_estimate ⟨"0", 0⟩).pushed =
      some (queue_overflow_state.increment_counter.indexed ⟨"0", 0⟩) :=
  ⟨rfl, (append_rate_one_no_subsampling test_droppable_event.try_drop test_size_estimate
    queue_overflow_state ⟨"0", 0⟩ rfl).2.1⟩

/-- C8. When `add` of the serializer never fails, the high water mark is positive
and an empty buffer has size 0, a `flush` given one unit of fuel per queued event
returns, leaves the queue empty, and the events of its batches, concatenated in the
order the batches were sent, are the events of the queue in FIFO order; the drain of
the destructor does the same. -/
theorem flush_drains_queue_in_order {α β : Type} (ser : collection_serializer α β)
    (default_event : event α) (send : β → error_code) (perror_cb : Bool) (fuel : Nat)
    (s : async_batcher α)
    (hadd : ∀ buf e, (ser.add buf e).1 = error_code.success)
    (hmark : 0 < s._send_high_water_mark) (hempty : ser.size ser.init = 0)
    (hfuel : s._queue.size ≤ fuel) :
    ((s.flush ser default_event send perror_cb fuel).exit = flush_exit.returned ∧
      (s.flush ser default_event send perror_cb fuel).state._queue.size = 0 ∧
      (s.flush ser default_event send perror_cb fuel).batches.flatMap (fun b => b.added) =
        s._queue.events) ∧
    ((s.destroy ser default_event send perror_cb fuel).exit = flush_exit.returned ∧
      (s.destroy ser default_event send perror_cb fuel).state._queue.size = 0 ∧
      (s.destroy ser default_event send perror_cb fuel).batches.flatMap (fun b => b.added) =
        s._queue.events) := by
  have hflush : (s.flush ser default_event send perror_cb fuel).exit = flush_exit.returned ∧
      (s.flush ser default_event send perror_cb fuel).state._queue.size = 0 ∧
      (s.flush ser default_event send perror_cb fuel).batches.flatMap (fun b => b.added) =
        s._queue.events := by
    unfold async_batcher.flush
    by_cases h0 : s._queue.size = 0
    · have hq : s._queue._queue = [] := List.length_eq_zero.mp h0
      simp [h0, event_queue.events, hq]
    · simp only [h0, if_false]
      obtain ⟨h1, h2, h3⟩ := flush_loop_drains ser default_event send perror_cb hadd fuel s
        s._queue.size rfl hfuel (by rw [hempty]; exact hmark)
      refine ⟨h1, ?_, h3⟩
      show (flush_loop ser default_event send perror_cb fuel s
        s._queue.size).state._queue._queue.length = 0
      rw [h2]; rfl
  refine ⟨hflush, ?_⟩
  unfold async_batcher.destroy
  by_cases h0 : 0 < s._queue.size
  · simp only [h0, if_true]
    exact hflush
  · have h0' : s._queue.size = 0 := by omega
    have hq : s._queue._queue = [] := List.length_eq_zero.mp h0'
    simp [h0', event_queue.events, hq]

/-- Witness of C8: the drain of the test `flush_batches_with_counter_ENABLE`. -/
theorem flush_drains_queue_in_order_witness :
    (0 < flush_batches_state._send_high_water_mark ∧
      line_serializer.size line_serializer.init = 0 ∧
      flush_batches_state._queue.size ≤ 3) ∧
    ((flush_batches_state.flush line_serializer ⟨"", 0⟩ test_send true 3).exit =
        flush_exit.returned ∧
      (flush_batches_state.flush line_serializer ⟨"", 0⟩ test_send true 3).state._queue.size
        = 0 ∧
      (flush_batches_state.flush line_serializer ⟨"", 0⟩ test_send true 3).batches.flatMap
        (fun b => b.added) = flush_batches_state._queue.events) :=
  ⟨⟨by decide, by decide, by decide⟩,
    (flush_drains_queue_in_order line_serializer ⟨"", 0⟩ test_send true 3
      flush_batches_state line_serializer_add_succeeds (by decide) (by decide)
      (by decide)).1⟩

/-- C9. When `add` of the serializer never fails, the batches of a `flush` follow the
post-insert cut: every batch but the last one has reached `_send_high_water_mark`,
and every batch was below the mark before its last event was added; a batch has a
last event whenever an empty buffer is below the mark. This holds for the batches
emitted within any amount of fuel. -/
theorem flush_cut_policy {α β : Type} (ser : collection_serializer α β)
    (default_event : event α) (send : β → error_code) (perror_cb : Bool) (fuel : Nat)
    (s : async_batcher α)
    (hadd : ∀ buf e, (ser.add buf e).1 = error_code.success) :
    (∀ b ∈ (s.flush ser default_event send perror_cb fuel).batches.dropLast,
      s._send_high_water_mark ≤ ser.size (serialize ser b.added)) ∧
    (∀ b ∈ (s.flush ser default_event send perror_cb fuel).batches,
      (b.added ≠ [] →
        ser.size (serialize ser b.added.dropLast) < s._send_high_water_mark) ∧
      (ser.size ser.init < s._send_high_water_mark → b.added ≠ [])) := by
  unfold async_batcher.flush
  by_cases h0 : s._queue.size = 0
  · simp [h0]
  · simp only [h0, if_false]
    obtain ⟨h1, h2⟩ := flush_loop_cut ser default_event send perror_cb hadd fuel s
      s._queue.size rfl
    exact ⟨h2, h1⟩

/-- Witness of C9: the events "foo", "bar-yyy", "hello" with a mark of 10 bytes give
the two batches "foo\nbar-yyy\n" and "hello\n", the first of which has reached the
mark. -/
theorem flush_cut_policy_witness :
    (flush_batches_state.flush line_serializer ⟨"", 0⟩ test_send true 3).batches.map
        (fun b => b.buffer) = ["foo\nbar-yyy\n", "hello\n"] ∧
    (∀ b ∈ (flush_batches_state.flush line_serializer ⟨"", 0⟩ test_send true 3
        ).batches.dropLast,
      flush_batches_state._send_high_water_mark ≤
        line_serializer.size (serialize line_serializer b.added)) :=
  ⟨rfl,
    (flush_cut_policy line_serializer ⟨"", 0⟩ test_send true 3 flush_batches_state
      line_serializer_add_succeeds).1⟩

/-- C10, as the code has it. The comparisons of `init` with 0 and 1 go through
`VW::math::are_same`: with a positive tolerance, and the background procedure started,
`init` returns `invalid_argument` if and only if the rate is below the tolerance or at
least 1 plus the tolerance, and returns `success` otherwise; so every rate from the
tolerance up to 1, the value 1 included, is accepted. -/
theorem init_invalid_argument_iff {α : Type} (tolerance : ℚ) (s : async_batcher α)
    (htol : 0 < tolerance) :
    (s.init tolerance error_code.success = error_code.invalid_argument ↔
      (s._subsample_rate < tolerance ∨ 1 + tolerance ≤ s._subsample_rate)) ∧
    (s.init tolerance error_code.success = error_code.success ↔
      (tolerance ≤ s._subsample_rate ∧ s._subsample_rate < 1 + tolerance)) ∧
    (tolerance ≤ s._subsample_rate → s._subsample_rate ≤ 1 →
      s.init tolerance error_code.success = error_code.success) := by
  have hiff := init_guard_iff tolerance s._subsample_rate htol
  have hinit := init_of_background_success tolerance s
  by_cases hg : s._subsample_rate < tolerance ∨ 1 + tolerance ≤ s._subsample_rate
  · rw [if_pos (hiff.mpr hg)] at hinit
    rw [hinit]
    refine ⟨by simp [hg], ?_, ?_⟩
    · constructor
      · intro h; cases h
      · rintro ⟨h1, h2⟩
        rcases hg with h | h <;> linarith
    · intro h1 h2
      rcases hg with h | h <;> linarith
  · rw [if_neg (fun h => hg (hiff.mp h))] at hinit
    rw [hinit]
    push_neg at hg
    refine ⟨?_, ?_, ?_⟩
    · constructor
      · intro h; cases h
      · rintro (h | h) <;> linarith [hg.1, hg.2]
    · simp [hg.1, hg.2]
    · intro _ _; trivial

/-- Counterexample to C10 as stated: with the default tolerance of `are_same`, the
rate 0.00001 lies in (0, 1] and `init` returns `invalid_argument`. -/
theorem init_rejects_small_positive_rate :
    (0 < small_rate_state._subsample_rate ∧ small_rate_state._subsample_rate ≤ 1) ∧
    small_rate_state.init DEFAULT_FLOAT_TOLERANCE error_code.success =
      error_code.invalid_argument := by
  norm_num [small_rate_state, async_batcher.create, async_batcher.init, are_same,
    DEFAULT_FLOAT_TOLERANCE, abs_lt]

/-- Witness of the amended C10: the default configuration of the unit tests, with a
rate of 0.7 and the default tolerance. -/
theorem init_invalid_argument_iff_witness :
    (0 : ℚ) < DEFAULT_FLOAT_TOLERANCE ∧
    (drop_rate_block_state.init DEFAULT_FLOAT_TOLERANCE error_code.success = error_code.success ↔
      (DEFAULT_FLOAT_TOLERANCE ≤ drop_rate_block_state._subsample_rate ∧
        drop_rate_block_state._subsample_rate < 1 + DEFAULT_FLOAT_TOLERANCE)) :=
  have h : (0 : ℚ) < DEFAULT_FLOAT_TOLERANCE := by norm_num [DEFAULT_FLOAT_TOLERANCE]
  ⟨h, (init_invalid_argument_iff DEFAULT_FLOAT_TOLERANCE drop_rate_block_state h).2.1⟩

/-- C11, as the code has it. `append` pushes the event before it looks at `is_full`.
When every `append` of a sequence of `append` and `flush` steps on a fresh batcher
starts on a queue that is not full (in BLOCK mode: after the earlier `append` calls
have returned), no state of the sequence holds more events than
`send_queue_max_capacity`; and in BLOCK mode an `append` that fills the queue waits,
so that the next one starts only after a flush has made room. In BLOCK mode an
`append` whose event is not dropped by subsampling adds one event whatever the size of
the queue, so that one which starts on a full queue takes the queue above the
capacity; an `append` whose event is dropped by subsampling leaves the queue as it
was. -/
theorem queue_size_within_capacity {α β : Type} (env : batcher_env α β)
    (config : async_batcher_config) (steps : List (batcher_step α))
    (hunblocked : env.appends_unblocked (async_batcher.create α config) steps = true) :
    (∀ st ∈ env.states (async_batcher.create α config) steps,
      st._queue.size ≤ config.send_queue_max_capacity) ∧
    (∀ (s : async_batcher α) (evt : event α),
      s._queue_mode = queue_mode_enum.BLOCK → s._queue.is_full = false →
      (s.append env.try_drop env.size_estimate evt).state._queue.is_full = true →
      append_action.wait ∈ (s.append env.try_drop env.size_estimate evt).actions) ∧
    (∀ (s : async_batcher α) (evt : event α),
      s._queue_mode = queue_mode_enum.BLOCK →
      ¬ (s._subsample_rate < 1 ∧
        env.try_drop evt s._subsample_rate drop_pass.SUBSAMPLE_RATE_DROP_PASS = true) →
      (s.append env.try_drop env.size_estimate evt).state._queue.size =
        s._queue.size + 1 ∧
      (s._queue.is_full = true →
        s._queue._max_capacity <
          (s.append env.try_drop env.size_estimate evt).state._queue.size)) ∧
    (∀ (s : async_batcher α) (evt : event α),
      s._subsample_rate < 1 →
      env.try_drop evt s._subsample_rate drop_pass.SUBSAMPLE_RATE_DROP_PASS = true →
      (s.append env.try_drop env.size_estimate evt).state._queue = s._queue) := by
  refine ⟨?_, ?_, ?_, ?_⟩
  · exact states_within_capacity env steps (async_batcher.create α config)
      (Nat.zero_le _) hunblocked
  · intro s evt hmode hfree hfull
    exact append_BLOCK_full_waits env.try_drop env.size_estimate s evt hmode hfree hfull
  · intro s evt hmode hkept
    have hsize := append_BLOCK_kept_size env.try_drop env.size_estimate s evt hmode hkept
    refine ⟨hsize, ?_⟩
    intro hfull
    unfold event_queue.is_full at hfull
    have := of_decide_eq_true hfull
    omega
  · intro s evt hrate hdrop
    rw [append_of_dropped env.try_drop env.size_estimate s evt hrate hdrop]
    exact increment_counter_queue s

/-- Counterexample to C11 as stated. In BLOCK mode with a capacity of 0, the first
`append` on the fresh batcher leaves one event in the queue; and with the capacity 3
of the test `queue_overflow_do_not_drop_event`, a fourth `append` made while the
third one waits on the full queue leaves four events in it. -/
theorem queue_exceeds_capacity :
    zero_capacity_config.queue_mode = queue_mode_enum.BLOCK ∧
    (droppable_test_env.run (async_batcher.create String zero_capacity_config)
      [batcher_step.append ⟨"0", 0⟩])._queue.size = 1 ∧
    zero_capacity_config.send_queue_max_capacity = 0 ∧
    queue_overflow_config.queue_mode = queue_mode_enum.BLOCK ∧
    (droppable_test_env.run (async_batcher.create String queue_overflow_config)
      [batcher_step.append ⟨"0", 0⟩, batcher_step.append ⟨"1", 0⟩,
        batcher_step.append ⟨"2", 0⟩, batcher_step.append ⟨"3", 0⟩])._queue.size = 4 ∧
    queue_overflow_config.send_queue_max_capacity = 3 := by
  have hne : events_counter_status.DISABLE ≠ events_counter_status.ENABLE := by decide
  norm_num [hne, batcher_env.run, batcher_env.step, droppable_test_env, zero_capacity_config,
    queue_overflow_config, async_batcher.create, async_batcher.append,
    async_batcher.enqueue, async_batcher.increment_counter, async_batcher.indexed,
    event_queue.push, event_queue.is_full, event_queue.size, test_size_estimate]

/-- Witness of the amended C11: three `append` calls of the test
`queue_overflow_do_not_drop_event`, a flush, and a fourth `append` stay within the
capacity 3; on the full queue of the test a fourth `append` at rate 1 leaves four
events, and one at rate 0.7 whose event is dropped by subsampling leaves the three. -/
theorem queue_size_within_capacity_witness :
    droppable_test_env.appends_unblocked
      (async_batcher.create String queue_overflow_config)
      [batcher_step.append ⟨"0", 0⟩, batcher_step.append ⟨"1", 0⟩,
        batcher_step.append ⟨"2", 0⟩, batcher_step.flush 3,
        batcher_step.append ⟨"3", 0⟩] = true ∧
    (∀ st ∈ droppable_test_env.states (async_batcher.create String queue_overflow_config)
      [batcher_step.append ⟨"0", 0⟩, batcher_step.append ⟨"1", 0⟩,
        batcher_step.append ⟨"2", 0⟩, batcher_step.flush 3,
        batcher_step.append ⟨"3", 0⟩],
      st._queue.size ≤ queue_overflow_config.send_queue_max_capacity) ∧
    (queue_overflow_full_state._queue.is_full = true ∧
      queue_overflow_full_state._queue._max_capacity <
        (queue_overflow_full_state.append droppable_test_env.try_drop
          droppable_test_env.size_estimate ⟨"3", 0⟩).state._queue.size) ∧
    ({ queue_overflow_full_state with _subsample_rate := 7 / 10 }.append
        droppable_test_env.try_drop droppable_test_env.size_estimate
        ⟨"3", 0⟩).state._queue = queue_overflow_full_state._queue :=
  have h : droppable_test_env.appends_unblocked
      (async_batcher.create String queue_overflow_config)
      ([batcher_step.append ⟨"0", 0⟩, batcher_step.append ⟨"1", 0⟩,
        batcher_step.append ⟨"2", 0⟩] ++
        [batcher_step.flush 3, batcher_step.append ⟨"3", 0⟩]) = true := by
    rw [appends_unblocked_append, queue_overflow_run.1, queue_overflow_run.2]
    decide
  ⟨h, (queue_size_within_capacity droppable_test_env queue_overflow_config _ h).1,
    ⟨by decide,
      ((queue_size_within_capacity droppable_test_env queue_overflow_config _ h).2.2.1
        queue_overflow_full_state ⟨"3", 0⟩ rfl
        (fun hk => absurd hk.1 (by norm_num [queue_overflow_full_state]))).2 (by decide)⟩,
    (queue_size_within_capacity droppable_test_env queue_overflow_config _ h).2.2.2
      { queue_overflow_full_state with _subsample_rate := 7 / 10 } ⟨"3", 0⟩
      (by norm_num) rfl⟩

/-- C12. A failure of the transport's `send` does not stop `flush`. For every transport,
failing on any of the batches, when `add` of the serializer does not fail (mark
positive, empty buffer of size 0, fuel for every queued event): the batches built are
the ones built with a transport that never fails, every one of them is handed to
`send`, the error callback, when configured, is invoked with the code of each failed
`send`, the queue is drained in order, and `run_iteration` returns `success`. -/
theorem flush_survives_send_failure {α β : Type} (ser : collection_serializer α β)
    (default_event : event α) (send : β → error_code) (perror_cb : Bool) (fuel : Nat)
    (s : async_batcher α)
    (hadd : ∀ buf e, (ser.add buf e).1 = error_code.success)
    (hmark : 0 < s._send_high_water_mark) (hempty : ser.size ser.init = 0)
    (hfuel : s._queue.size ≤ fuel) :
    (s.flush ser default_event send perror_cb fuel).batches.map
        (fun b => (b.added, b.finalize_call, b.fill_code, b.buffer)) =
      (s.flush ser default_event (fun _ => error_code.success) perror_cb fuel).batches.map
        (fun b => (b.added, b.finalize_call, b.fill_code, b.buffer)) ∧
    (∀ b ∈ (s.flush ser default_event send perror_cb fuel).batches,
      b.send_call = send_overload.plain ∧ b.send_code = send b.buffer ∧
      (send b.buffer ≠ error_code.success → perror_cb = true →
        send b.buffer ∈ b.error_callbacks)) ∧
    (s.flush ser default_event send perror_cb fuel).state._queue.size = 0 ∧
    (s.flush ser default_event send perror_cb fuel).batches.flatMap (fun b => b.added) =
      s._queue.events ∧
    (s.flush ser default_event send perror_cb fuel).exit = flush_exit.returned ∧
    (s.run_iteration ser default_event send perror_cb fuel).2 =
      some error_code.success := by
  have hrecords : ∀ b ∈ (s.flush ser default_event send perror_cb fuel).batches,
      b.send_call = send_overload.plain ∧ b.send_code = send b.buffer ∧
      (send b.buffer ≠ error_code.success → perror_cb = true →
        send b.buffer ∈ b.error_callbacks) := by
    intro b hb
    unfold async_batcher.flush at hb
    by_cases h0 : s._queue.size = 0
    · simp [h0] at hb
    · simp only [h0, if_false] at hb
      obtain ⟨r1, r2, r3⟩ := flush_loop_records ser default_event send perror_cb fuel s _ b hb
      refine ⟨r1, r2, ?_⟩
      intro hfail hcb
      rw [r3, if_pos hfail, hcb]
      simp [ERROR_CALLBACK]
  have hdrain : (s.flush ser default_event send perror_cb fuel).exit = flush_exit.returned ∧
      (s.flush ser default_event send perror_cb fuel).state._queue.size = 0 ∧
      (s.flush ser default_event send perror_cb fuel).batches.flatMap (fun b => b.added) =
        s._queue.events := by
    unfold async_batcher.flush
    by_cases h0 : s._queue.size = 0
    · have hq : s._queue._queue = [] := List.length_eq_zero.mp h0
      simp [h0, event_queue.events, hq]
    · simp only [h0, if_false]
      obtain ⟨h1, h2, h3⟩ := flush_loop_drains ser default_event send perror_cb hadd fuel s
        s._queue.size rfl hfuel (by rw [hempty]; exact hmark)
      refine ⟨h1, ?_, h3⟩
      show (flush_loop ser default_event send perror_cb fuel s
        s._queue.size).state._queue._queue.length = 0
      rw [h2]; rfl
  refine ⟨?_, hrecords, hdrain.2.1, hdrain.2.2, hdrain.1, ?_⟩
  · unfold async_batcher.flush
    by_cases h0 : s._queue.size = 0
    · simp [h0]
    · simp only [h0, if_false]
      exact (flush_loop_transport_independent ser default_event send
        (fun _ => error_code.success) perror_cb perror_cb fuel s _).2.2
  · unfold async_batcher.run_iteration
    simp only [hdrain.1, if_true]

/-- Witness of C12: the drain of the test `flush_batches_with_counter_ENABLE` with a
transport that fails on the first batch. The callback gets the failure, the second
batch "hello" is built and sent all the same. -/
theorem flush_survives_send_failure_witness :
    (0 < flush_batches_state._send_high_water_mark ∧
      line_serializer.size line_serializer.init = 0 ∧
      flush_batches_state._queue.size ≤ 3) ∧
    (flush_batches_state.flush line_serializer ⟨"", 0⟩ (failing_send "foo\nbar-yyy\n")
        true 3).batches.map (fun b => (b.buffer, b.send_code, b.error_callbacks)) =
      [("foo\nbar-yyy\n", error_code.failure 2, [error_code.failure 2]),
        ("hello\n", error_code.success, [])] ∧
    (flush_batches_state.run_iteration line_serializer ⟨"", 0⟩
      (failing_send "foo\nbar-yyy\n") true 3).2 = some error_code.success :=
  ⟨⟨by decide, by decide, by decide⟩, by decide,
    (flush_survives_send_failure line_serializer ⟨"", 0⟩ (failing_send "foo\nbar-yyy\n")
      true 3 flush_batches_state line_serializer_add_succeeds (by decide) (by decide)
      (by decide)).2.2.2.2.2⟩

/-- C13. Every call of `append` returns `error_code::success`, for every state, event,
queue mode and `try_drop`: when the event is dropped by subsampling, when it is
enqueued, and when the prune of DROP mode runs. -/
theorem append_returns_success {α : Type} (try_drop : event α → ℚ → drop_pass → Bool)
    (size_estimate : event α → Nat) (s : async_batcher α) (evt : event α) :
    (s.append try_drop size_estimate evt).code = error_code.success :=
  append_code try_drop size_estimate s evt

/-- C14 (the code departs from the specification). After a failure of `add` the flush
does not terminate. On the queue "foo", "bar" with a serializer whose `add` fails on
"foo": the first round reports the failure to the error callback and sends its
buffer, the second round takes "bar" and then finds the queue empty with `remaining`
still at 1, because `fill_buffer` returned at the failed `add` before `--remaining`;
its loop goes round without end, so `flush` is out of fuel for every amount of fuel
and `run_iteration` does not return. In general, a `flush` that returns has seen no
`add` fail. -/
theorem flush_never_returns_after_add_failure :
    (flush_timeout_state.flush (rejecting_serializer "foo") ⟨"", 0⟩ test_send true
        5).batches.map (fun b => (b.added, b.finalize_call, b.fill_code, b.error_callbacks)) =
      [([], none, error_code.failure 1, [error_code.failure 1])] ∧
    (flush_timeout_state.flush (rejecting_serializer "foo") ⟨"", 0⟩ test_send true
        5).state._queue.size = 0 ∧
    (∀ fuel, (flush_timeout_state.flush (rejecting_serializer "foo") ⟨"", 0⟩ test_send true
      fuel).exit = flush_exit.out_of_fuel) ∧
    (∀ fuel, (flush_timeout_state.run_iteration (rejecting_serializer "foo") ⟨"", 0⟩
      test_send true fuel).2 = none) ∧
    (∀ (α β : Type) (ser : collection_serializer α β) (default_event : event α)
      (send : β → error_code) (perror_cb : Bool) (fuel : Nat) (s : async_batcher α),
      (s.flush ser default_event send perror_cb fuel).exit = flush_exit.returned →
      ∀ b ∈ (s.flush ser default_event send perror_cb fuel).batches,
        b.finalize_call ≠ none) := by
  have hspin : ∀ fuel, (flush_timeout_state.flush (rejecting_serializer "foo") ⟨"", 0⟩
      test_send true fuel).exit = flush_exit.out_of_fuel := by
    intro fuel
    have h0 : flush_timeout_state._queue.size ≠ 0 := by decide
    unfold async_batcher.flush
    simp only [h0, if_false]
    exact flush_loop_first_add_fails (rejecting_serializer "foo") ⟨"", 0⟩ test_send true
      flush_timeout_state _ ⟨"foo", 1⟩ 1 [(⟨"bar", 2⟩, 1)] rfl rfl (by decide) (by decide)
      fuel
  refine ⟨by decide, by decide, hspin, ?_, ?_⟩
  · intro fuel
    unfold async_batcher.run_iteration
    simp only [hspin fuel]
    rfl
  · intro α β ser d send cb fuel s hret b hb
    unfold async_batcher.flush at hret hb
    by_cases h0 : s._queue.size = 0
    · simp [h0] at hb
    · simp only [h0, if_false] at hret hb
      exact flush_loop_returned_finalized ser d send cb fuel s _ rfl hret b hb

/-- C15 (the code departs from the specification). The guard `remaining > 0` of the
outer loop does not keep `fill_buffer` from finalizing an empty batch: with a
`send_high_water_mark` of 0 the loop of `fill_buffer` is not entered, `finalize` is
called with no event added and the empty buffer is sent, round after round. On the
queue "foo", "bar" with a mark of 0, three units of fuel give three empty batches;
in general, whenever a fresh buffer is not below the mark and the queue is not empty,
`flush` with any fuel sends as many empty batches as it has fuel and does not
return. -/
theorem flush_zero_mark_sends_empty_batches :
    (zero_mark_state.flush line_serializer ⟨"", 0⟩ test_send true 3).batches.map
        (fun b => (b.added, b.finalize_call, b.buffer, b.send_call)) =
      [([], some (some 0), "", send_overload.plain),
        ([], some (some 0), "", send_overload.plain),
        ([], some (some 0), "", send_overload.plain)] ∧
    (zero_mark_state.flush line_serializer ⟨"", 0⟩ test_send true 3).state._queue.size = 2 ∧
    (∀ (α β : Type) (ser : collection_serializer α β) (default_event : event α)
      (send : β → error_code) (perror_cb : Bool) (fuel : Nat) (s : async_batcher α),
      s._send_high_water_mark ≤ ser.size ser.init → s._queue.size ≠ 0 →
      (s.flush ser default_event send perror_cb fuel).exit = flush_exit.out_of_fuel ∧
      (s.flush ser default_event send perror_cb fuel).batches.length = fuel ∧
      ∀ b ∈ (s.flush ser default_event send perror_cb fuel).batches,
        b.added = [] ∧ b.finalize_call ≠ none) := by
  refine ⟨by decide, by decide, ?_⟩
  intro α β ser d send cb fuel s hmark h0
  unfold async_batcher.flush
  simp only [h0, if_false]
  exact flush_loop_mark_reached ser d send cb fuel s _ hmark (Nat.pos_of_ne_zero h0)

/-- C16. In DROP mode, with the pass probability 0.5 that the constructor sets, an
`append` whose event passes subsampling never waits, and the queue afterwards is the
queue with the event at the back when that queue is not full, and otherwise the prune
with probability 0.5 of it: the events whose `try_drop(0.5, QUEUE_EARLY_DROP_PASS)` is
false, in their order. In BLOCK mode `append` never prunes. -/
theorem append_DROP_mode_prunes {α : Type} (try_drop : event α → ℚ → drop_pass → Bool)
    (size_estimate : event α → Nat) (s : async_batcher α) (evt : event α)
    (config : async_batcher_config) :
    (async_batcher.create α config)._pass_prob = 1 / 2 ∧
    (s._queue_mode = queue_mode_enum.DROP → s._pass_prob = 1 / 2 →
      (¬ s._subsample_rate < 1 ∨
        try_drop evt s._subsample_rate drop_pass.SUBSAMPLE_RATE_DROP_PASS = false) →
      append_action.wait ∉ (s.append try_drop size_estimate evt).actions ∧
      (s.append try_drop size_estimate evt).pushed = some (s.increment_counter.indexed evt) ∧
      ((s._queue.push (s.increment_counter.indexed evt)
          (size_estimate (s.increment_counter.indexed evt))).is_full = false →
        (s.append try_drop size_estimate evt).state._queue =
          s._queue.push (s.increment_counter.indexed evt)
            (size_estimate (s.increment_counter.indexed evt))) ∧
      ((s._queue.push (s.increment_counter.indexed evt)
          (size_estimate (s.increment_counter.indexed evt))).is_full = true →
        (s.append try_drop size_estimate evt).state._queue =
          (s._queue.push (s.increment_counter.indexed evt)
            (size_estimate (s.increment_counter.indexed evt))).prune try_drop (1 / 2) ∧
        (s.append try_drop size_estimate evt).state._queue.events =
          (s._queue.events ++ [s.increment_counter.indexed evt]).filter
            (fun e => !(try_drop e (1 / 2) drop_pass.QUEUE_EARLY_DROP_PASS)))) ∧
    (s._queue_mode = queue_mode_enum.BLOCK →
      ∀ pass_prob, append_action.prune pass_prob ∉
        (s.append try_drop size_estimate evt).actions) := by
  refine ⟨rfl, ?_, ?_⟩
  · intro hmode hprob hpass
    have hq := enqueue_queue try_drop size_estimate s.increment_counter evt
    have hact := enqueue_actions try_drop size_estimate s.increment_counter evt
    simp only [increment_counter_queue, increment_counter_queue_mode,
      increment_counter_pass_prob, hmode, hprob] at hq hact
    have key : ∀ consulted : List (append_action α),
        (∀ a ∈ consulted, a ≠ append_action.wait ∧ ∀ e n, a ≠ append_action.push e n) →
        s.append try_drop size_estimate evt =
          s.increment_counter.enqueue try_drop size_estimate evt consulted →
        append_action.wait ∉ (s.append try_drop size_estimate evt).actions ∧
        (s.append try_drop size_estimate evt).pushed =
          some (s.increment_counter.indexed evt) ∧
        (s.append try_drop size_estimate evt).state._queue =
          if (s._queue.push (s.increment_counter.indexed evt)
              (size_estimate (s.increment_counter.indexed evt))).is_full = true then
            (s._queue.push (s.increment_counter.indexed evt)
              (size_estimate (s.increment_counter.indexed evt))).prune try_drop (1 / 2)
          else s._queue.push (s.increment_counter.indexed evt)
            (size_estimate (s.increment_counter.indexed evt)) := by
      intro consulted hc heq
      rw [heq]
      refine ⟨?_, ?_, ?_⟩
      · rw [hact consulted]
        intro hmem
        simp only [List.mem_append, List.mem_singleton] at hmem
        rcases hmem with ((hmem | hmem) | hmem) | hmem
        · exact (hc _ hmem).1 rfl
        · split_ifs at hmem <;> simp at hmem
        · simp at hmem
        · split_ifs at hmem with hf hb
          · exact absurd hb (by decide)
          · simp at hmem
          · simp at hmem
      · exact enqueue_pushed try_drop size_estimate _ evt consulted
          (fun a ha e n => (hc a ha).2 e n)
      · rw [hq consulted]
        simp
    have hres : append_action.wait ∉ (s.append try_drop size_estimate evt).actions ∧
        (s.append try_drop size_estimate evt).pushed =
          some (s.increment_counter.indexed evt) ∧
        (s.append try_drop size_estimate evt).state._queue =
          if (s._queue.push (s.increment_counter.indexed evt)
              (size_estimate (s.increment_counter.indexed evt))).is_full = true then
            (s._queue.push (s.increment_counter.indexed evt)
              (size_estimate (s.increment_counter.indexed evt))).prune try_drop (1 / 2)
          else s._queue.push (s.increment_counter.indexed evt)
            (size_estimate (s.increment_counter.indexed evt)) := by
      by_cases hrate : s._subsample_rate < 1
      · have hkeep : try_drop evt s._subsample_rate
            drop_pass.SUBSAMPLE_RATE_DROP_PASS = false := by
          rcases hpass with h | h
          · exact absurd hrate h
          · exact h
        apply key _ _ (append_of_kept try_drop size_estimate s evt hrate hkeep)
        intro a ha
        simp only [List.mem_singleton] at ha
        subst ha
        simp
      · apply key [] _ (append_of_rate_not_lt try_drop size_estimate s evt hrate)
        intro a ha
        simp at ha
    obtain ⟨h1, h2, h3⟩ := hres
    refine ⟨h1, h2, ?_, ?_⟩
    · intro hfull
      rw [h3]
      simp [hfull]
    · intro hfull
      have h4 : (s.append try_drop size_estimate evt).state._queue =
          (s._queue.push (s.increment_counter.indexed evt)
            (size_estimate (s.increment_counter.indexed evt))).prune try_drop (1 / 2) := by
        rw [h3]
        simp [hfull]
      refine ⟨h4, ?_⟩
      rw [h4, prune_events, push_events]
  · intro hmode pass_prob hmem
    have hact := enqueue_actions try_drop size_estimate s.increment_counter evt
    simp only [increment_counter_queue_mode, hmode] at hact
    unfold async_batcher.append at hmem
    simp only at hmem
    split_ifs at hmem
    · simp at hmem
    · rw [hact] at hmem
      simp only [List.mem_append, List.mem_singleton] at hmem
      rcases hmem with ((hmem | hmem) | hmem) | hmem
      · simp at hmem
      · split_ifs at hmem <;> simp at hmem
      · simp at hmem
      · split_ifs at hmem <;> simp at hmem
    · rw [hact] at hmem
      simp only [List.mem_append, List.mem_singleton] at hmem
      rcases hmem with ((hmem | hmem) | hmem) | hmem
      · simp at hmem
      · split_ifs at hmem <;> simp at hmem
      · simp at hmem
      · split_ifs at hmem <;> simp at hmem
/-- Witness of C16: in DROP mode with capacity 2, the `append` of a second
`test_droppable_event` fills the queue, and the prune with probability 0.5 (every event
asks to be dropped) leaves the queue empty. -/
theorem append_DROP_mode_prunes_witness :
    drop_overflow_state._queue_mode = queue_mode_enum.DROP ∧
    drop_overflow_state._pass_prob = 1 / 2 ∧
    ¬ drop_overflow_state._subsample_rate < 1 ∧
    (drop_overflow_state._queue.push (drop_overflow_state.increment_counter.indexed ⟨"b", 0⟩)
      (test_size_estimate (drop_overflow_state.increment_counter.indexed ⟨"b", 0⟩))
      ).is_full = true ∧
    (drop_overflow_state.append test_droppable_event.try_drop test_size_estimate
      ⟨"b", 0⟩).state._queue.events =
      (drop_overflow_state._queue.events ++
        [drop_overflow_state.increment_counter.indexed ⟨"b", 0⟩]).filter
        (fun e => !(test_droppable_event.try_drop e (1 / 2)
          drop_pass.QUEUE_EARLY_DROP_PASS)) ∧
    (drop_overflow_state._queue.events ++
        [drop_overflow_state.increment_counter.indexed ⟨"b", 0⟩]).filter
        (fun e => !(test_droppable_event.try_drop e (1 / 2)
          drop_pass.QUEUE_EARLY_DROP_PASS)) = [] :=
  have hrate : ¬ drop_overflow_state._subsample_rate < 1 := lt_irrefl (1 : ℚ)
  ⟨rfl, rfl, hrate, by decide,
    ((((append_DROP_mode_prunes test_droppable_event.try_drop test_size_estimate
      drop_overflow_state ⟨"b", 0⟩ flush_batches_config).2.1 rfl rfl
        (Or.inl hrate)).2.2.2) (by decide)).2,
    by decide⟩

/-- C17. On a state whose queue is empty, `flush`, `run_iteration` and the drain of the
destructor return at once: they make no call at all (no buffer is acquired, the serializer and
the transport are not called, no error callback is invoked) and leave the state as it
was, `_event_index` and `_buffer_end_event_number` included. -/
theorem flush_empty_queue_does_nothing {α β : Type} (ser : collection_serializer α β)
    (default_event : event α) (send : β → error_code) (perror_cb : Bool) (fuel : Nat)
    (s : async_batcher α) (hempty : s._queue.size = 0) :
    s.flush ser default_event send perror_cb fuel =
      { state := s, batches := [], exit := flush_exit.returned } ∧
    s.run_iteration ser default_event send perror_cb fuel =
      ({ state := s, batches := [], exit := flush_exit.returned },
        some error_code.success) ∧
    s.destroy ser default_event send perror_cb fuel =
      { state := s, batches := [], exit := flush_exit.returned } ∧
    s.flush_trace ser default_event send perror_cb fuel = [] ∧
    (s.flush ser default_event send perror_cb fuel).state._event_index = s._event_index ∧
    (s.flush ser default_event send perror_cb fuel).state._buffer_end_event_number =
      s._buffer_end_event_number := by
  have hflush : s.flush ser default_event send perror_cb fuel =
      { state := s, batches := [], exit := flush_exit.returned } := by
    unfold async_batcher.flush
    simp only [hempty, if_true]
  refine ⟨hflush, ?_, ?_, ?_, ?_, ?_⟩
  · unfold async_batcher.run_iteration
    simp only [hflush, if_true]
  · unfold async_batcher.destroy
    simp only [hempty, Nat.lt_irrefl, if_false]
  · unfold async_batcher.flush_trace
    simp only [hempty, if_true]
  · rw [hflush]
  · rw [hflush]

/-- Witness of C17: a fresh batcher, whose queue is empty. -/
theorem flush_empty_queue_does_nothing_witness :
    queue_overflow_state._queue.size = 0 ∧
    queue_overflow_state.flush line_serializer ⟨"", 0⟩ test_send true 5 =
      { state := queue_overflow_state, batches := [], exit := flush_exit.returned } :=
  ⟨rfl, (flush_empty_queue_does_nothing line_serializer ⟨"", 0⟩ test_send true 5
    queue_overflow_state rfl).1⟩

/-- C18, as the code has it. `init` starts the background flusher before it looks at
the rate. When the start succeeds and the rate is one that the check rejects (below
the tolerance of `are_same`, or at least 1 plus the tolerance), `init` returns
`invalid_argument` after a successful start: the flusher is running. When the start
fails, `init` returns the code of the start and makes no check of the rate, whatever
the rate is. The code is the one of `init`. -/
theorem init_starts_flusher_before_rate_check {α : Type} (tolerance : ℚ)
    (background : error_code) (s : async_batcher α) (htol : 0 < tolerance) :
    (s.init_run tolerance background).code = s.init tolerance background ∧
    (background = error_code.success →
      (s._subsample_rate < tolerance ∨ 1 + tolerance ≤ s._subsample_rate) →
      s.init_run tolerance background =
        { code := error_code.invalid_argument
          actions := [init_action.background_proc_init error_code.success,
            init_action.check_subsample_rate true]
          background_started := true }) ∧
    (background ≠ error_code.success →
      s.init_run tolerance background =
        { code := background
          actions := [init_action.background_proc_init background]
          background_started := false }) := by
  refine ⟨init_run_code tolerance background s, ?_, ?_⟩
  · intro hbg hrate
    subst hbg
    rw [init_run_of_background_success,
      if_pos ((init_guard_iff tolerance s._subsample_rate htol).mpr hrate)]
  · intro hbg
    exact init_run_of_background_failure tolerance background s hbg

/-- Counterexample to C18 as stated: the rate 1.00001 is above 1, the start of the
background flusher succeeds, and `init` returns `success`, not `invalid_argument`,
because `are_same` takes the rate for 1. -/
theorem init_accepts_rate_just_above_one :
    (above_one_rate_state._subsample_rate ≤ 0 ∨ 1 < above_one_rate_state._subsample_rate) ∧
    (above_one_rate_state.init_run DEFAULT_FLOAT_TOLERANCE error_code.success).code =
      error_code.success ∧
    above_one_rate_state.init DEFAULT_FLOAT_TOLERANCE error_code.success =
      error_code.success := by
  norm_num [above_one_rate_state, async_batcher.create, async_batcher.init_run,
    async_batcher.init, are_same, DEFAULT_FLOAT_TOLERANCE, abs_lt]

/-- Witness of the amended C18: with a rate of 2 and a successful start, `init` returns
`invalid_argument` with the flusher started. -/
theorem init_starts_flusher_before_rate_check_witness :
    (0 : ℚ) < DEFAULT_FLOAT_TOLERANCE ∧
    1 + DEFAULT_FLOAT_TOLERANCE ≤ rate_two_state._subsample_rate ∧
    rate_two_state.init_run DEFAULT_FLOAT_TOLERANCE error_code.success =
      { code := error_code.invalid_argument
        actions := [init_action.background_proc_init error_code.success,
          init_action.check_subsample_rate true]
        background_started := true } :=
  have htol : (0 : ℚ) < DEFAULT_FLOAT_TOLERANCE := by norm_num [DEFAULT_FLOAT_TOLERANCE]
  have hrate : 1 + DEFAULT_FLOAT_TOLERANCE ≤ rate_two_state._subsample_rate := by
    norm_num [DEFAULT_FLOAT_TOLERANCE, rate_two_state, async_batcher.create]
  ⟨htol, hrate,
    (init_starts_flusher_before_rate_check DEFAULT_FLOAT_TOLERANCE error_code.success
      rate_two_state htol).2.1 rfl (Or.inr hrate)⟩

/-- C19 (the code departs from the specification). Every round of `flush` whose
`fill_buffer` call returned, with `success` or with the error of a failed `add` or
`finalize`, makes exactly one call of the plain `send` on the buffer it acquired, after
the error callback was invoked for the failed fill; a run that returned acquired as
many buffers as it sent. But a failed `add` leaves `remaining` ahead of the queue
(`fill_buffer` returns before `--remaining`), and a later round then acquires a buffer
and goes round in `fill_buffer` on the empty queue: whenever an `add` failed in a run
of `flush` (a fresh buffer below the mark, fuel for more rounds than the queue has
events), the run acquires one buffer more than it sends and does not return. On the
queue "foo", "bar" with a serializer whose `add` fails on "foo", with any fuel for two
rounds or more, the calls are: acquire, `fill_buffer` fails, callback, send, acquire;
two buffers acquired, one sent. -/
theorem flush_leaves_acquired_buffer_unsent {α β : Type} (ser : collection_serializer α β)
    (default_event : event α) (send : β → error_code) (perror_cb : Bool) (fuel : Nat)
    (s : async_batcher α) :
    (∃ pending : List (flush_action β),
      s.flush_trace ser default_event send perror_cb fuel =
        (s.flush ser default_event send perror_cb fuel).batches.flatMap
          (batch_record.actions perror_cb) ++ pending ∧
      (pending = [] ∨ pending = [flush_action.acquire]) ∧
      ((s.flush ser default_event send perror_cb fuel).exit = flush_exit.returned →
        pending = [])) ∧
    (∀ b ∈ (s.flush ser default_event send perror_cb fuel).batches,
      b.send_call = send_overload.plain ∧ b.send_code = send b.buffer) ∧
    ((s.flush_trace ser default_event send perror_cb fuel).filter
        flush_action.is_send).length =
      (s.flush ser default_event send perror_cb fuel).batches.length ∧
    ((s.flush ser default_event send perror_cb fuel).exit = flush_exit.returned →
      ((s.flush_trace ser default_event send perror_cb fuel).filter
          flush_action.is_acquire).length =
        ((s.flush_trace ser default_event send perror_cb fuel).filter
          flush_action.is_send).length) ∧
    (ser.size ser.init < s._send_high_water_mark → s._queue.size < fuel →
      (∃ b ∈ (s.flush ser default_event send perror_cb fuel).batches,
        b.finalize_call = none) →
      ((s.flush_trace ser default_event send perror_cb fuel).filter
          flush_action.is_acquire).length =
        ((s.flush_trace ser default_event send perror_cb fuel).filter
          flush_action.is_send).length + 1 ∧
      (s.flush ser default_event send perror_cb fuel).exit = flush_exit.out_of_fuel) ∧
    (∀ rounds : Nat,
      flush_timeout_state.flush_trace (rejecting_serializer "foo") ⟨"", 0⟩ test_send true
          (rounds + 2) =
        [flush_action.acquire, flush_action.fill_buffer (error_code.failure 1),
          flush_action.error_callback (error_code.failure 1),
          flush_action.send send_overload.plain "" error_code.success,
          flush_action.acquire]) := by
  have htrace : ∃ pending : List (flush_action β),
      s.flush_trace ser default_event send perror_cb fuel =
        (s.flush ser default_event send perror_cb fuel).batches.flatMap
          (batch_record.actions perror_cb) ++ pending ∧
      (pending = [] ∨ pending = [flush_action.acquire]) ∧
      ((s.flush ser default_event send perror_cb fuel).exit = flush_exit.returned →
        pending = []) := by
    unfold async_batcher.flush_trace async_batcher.flush
    by_cases h0 : s._queue.size = 0
    · simp [h0]
    · simp only [h0, if_false]
      exact flush_loop_trace_rounds ser default_event send perror_cb fuel s _
  obtain ⟨pending, t1, t2, t3⟩ := htrace
  have hcount := rounds_count perror_cb
    (s.flush ser default_event send perror_cb fuel).batches
  refine ⟨⟨pending, t1, t2, t3⟩, ?_, ?_, ?_, ?_, flush_timeout_add_failure_trace⟩
  · intro b hb
    unfold async_batcher.flush at hb
    by_cases h0 : s._queue.size = 0
    · simp [h0] at hb
    · simp only [h0, if_false] at hb
      obtain ⟨r1, r2, -⟩ := flush_loop_records ser default_event send perror_cb fuel s _ b hb
      exact ⟨r1, r2⟩
  · rw [t1, List.filter_append, List.length_append, hcount.2]
    rcases t2 with h | h <;> rw [h] <;> simp [flush_action.is_send]
  · intro hret
    rw [t1, t3 hret]
    simp only [List.append_nil, hcount.1, hcount.2]
  · intro hinit hfuel hex
    have hpend : s.flush_trace ser default_event send perror_cb fuel =
        (s.flush ser default_event send perror_cb fuel).batches.flatMap
          (batch_record.actions perror_cb) ++ [flush_action.acquire] ∧
        (s.flush ser default_event send perror_cb fuel).exit ≠ flush_exit.returned := by
      unfold async_batcher.flush_trace
      unfold async_batcher.flush at hex ⊢
      by_cases h0 : s._queue.size = 0
      · simp [h0] at hex
      · simp only [h0, if_false] at hex ⊢
        refine ⟨flush_loop_add_failure_pending ser default_event send perror_cb fuel s _ rfl
          hinit hfuel hex, ?_⟩
        intro hret
        obtain ⟨b, hb, hnone⟩ := hex
        exact flush_loop_returned_finalized ser default_event send perror_cb fuel s _ rfl
          hret b hb hnone
    obtain ⟨p1, p2⟩ := hpend
    refine ⟨?_, ?_⟩
    · rw [p1]
      simp only [List.filter_append, List.length_append, hcount.1, hcount.2]
      simp [flush_action.is_acquire, flush_action.is_send]
    · cases hexit : (s.flush ser default_event send perror_cb fuel).exit with
      | returned => exact absurd hexit p2
      | out_of_fuel => rfl

/-- Witness of C19: the queue "foo", "bar" with a serializer whose `add` fails on
"foo" and fuel for three rounds; the run of `flush` acquires one buffer more than it
sends and does not return. -/
theorem flush_leaves_acquired_buffer_unsent_witness :
    ((rejecting_serializer "foo").size (rejecting_serializer "foo").init <
        flush_timeout_state._send_high_water_mark ∧
      flush_timeout_state._queue.size < 3 ∧
      ∃ b ∈ (flush_timeout_state.flush (rejecting_serializer "foo") ⟨"", 0⟩ test_send true
        3).batches, b.finalize_call = none) ∧
    ((flush_timeout_state.flush_trace (rejecting_serializer "foo") ⟨"", 0⟩ test_send true
        3).filter flush_action.is_acquire).length =
      ((flush_timeout_state.flush_trace (rejecting_serializer "foo") ⟨"", 0⟩ test_send true
        3).filter flush_action.is_send).length + 1 ∧
    (flush_timeout_state.flush (rejecting_serializer "foo") ⟨"", 0⟩ test_send true
      3).exit = flush_exit.out_of_fuel :=
  ⟨⟨by decide, by decide, by decide⟩,
    (flush_leaves_acquired_buffer_unsent (rejecting_serializer "foo") ⟨"", 0⟩ test_send
      true 3 flush_timeout_state).2.2.2.2.1 (by decide) (by decide) (by decide)⟩

/-- C20. In counter mode ENABLE, along every sequence of `append` and `flush` calls
made one after another on a fresh batcher (mark above 0, a fresh buffer of size 0, a
serializer whose `add` never fails, fewer than `2 ^ 64` calls of `append`), in every
state `_buffer_end_event_number` is not above `_event_index`, and it never decreases
from a state to a later one; every batch is finalized with an `original_count` whose
`uint64_t` subtraction does not wrap around, "index of its last event minus index of
the last event of the batch before it" with the second not above the first, and which
is not below the number of events of the batch. -/
theorem buffer_end_event_number_ordered {α β : Type} (env : batcher_env α β)
    (config : async_batcher_config) (steps : List (batcher_step α))
    (hmode : config.event_counter_status = events_counter_status.ENABLE)
    (hmark : 0 < config.send_high_water_mark)
    (hfresh : env.serializer.size env.serializer.init = 0)
    (hadd : ∀ buf e, (env.serializer.add buf e).1 = error_code.success)
    (hcalls : append_calls steps < UINT64_MOD) :
    (∀ st ∈ env.states (async_batcher.create α config) steps,
      st._buffer_end_event_number ≤ st._event_index) ∧
    (env.states (async_batcher.create α config) steps).Pairwise
      (fun a b => a._buffer_end_event_number ≤ b._buffer_end_event_number) ∧
    counts_chained 0 (env.batches (async_batcher.create α config) steps) = true ∧
    counts_no_wrap 0 (env.batches (async_batcher.create α config) steps) = true := by
  have hinit : env.serializer.size env.serializer.init <
      (async_batcher.create α config)._send_high_water_mark := by
    rw [hfresh]
    exact hmark
  have hidx : (async_batcher.create α config)._event_index + append_calls steps <
      UINT64_MOD := by
    show 0 + append_calls steps < UINT64_MOD
    omega
  obtain ⟨h1, h2, h3⟩ := run_ordered env hadd steps (async_batcher.create α config) hmode
    hinit hidx (create_counters_ordered α config)
  exact ⟨fun st hst => (h1 st hst).1.1, h2,
    batches_chained env steps (async_batcher.create α config) hmode hinit, h3⟩

/-- Witness of C20: the three `append` calls of the test
`flush_batches_with_counter_ENABLE`, a `flush`, one more `append` and a `flush`. -/
theorem buffer_end_event_number_ordered_witness :
    (flush_batches_config.event_counter_status = events_counter_status.ENABLE ∧
      0 < flush_batches_config.send_high_water_mark ∧
      undroppable_test_env.serializer.size undroppable_test_env.serializer.init = 0 ∧
      (∀ buf e, (undroppable_test_env.serializer.add buf e).1 = error_code.success) ∧
      append_calls (flush_batches_steps ++
        [batcher_step.flush 3, batcher_step.append ⟨"again", 0⟩, batcher_step.flush 3]) <
        UINT64_MOD) ∧
    (undroppable_test_env.states (async_batcher.create String flush_batches_config)
      (flush_batches_steps ++
        [batcher_step.flush 3, batcher_step.append ⟨"again", 0⟩,
          batcher_step.flush 3])).Pairwise
        (fun a b => a._buffer_end_event_number ≤ b._buffer_end_event_number) ∧
    counts_no_wrap 0
      (undroppable_test_env.batches (async_batcher.create String flush_batches_config)
        (flush_batches_steps ++
          [batcher_step.flush 3, batcher_step.append ⟨"again", 0⟩,
            batcher_step.flush 3])) = true :=
  ⟨⟨rfl, by decide, rfl, line_serializer_add_succeeds, by decide⟩,
    (buffer_end_event_number_ordered undroppable_test_env flush_batches_config
      (flush_batches_steps ++
        [batcher_step.flush 3, batcher_step.append ⟨"again", 0⟩, batcher_step.flush 3])
      rfl (by decide) rfl line_serializer_add_succeeds (by decide)).2.1,
    (buffer_end_event_number_ordered undroppable_test_env flush_batches_config
      (flush_batches_steps ++
        [batcher_step.flush 3, batcher_step.append ⟨"again", 0⟩, batcher_step.flush 3])
      rfl (by decide) rfl line_serializer_add_succeeds (by decide)).2.2.2⟩

/-- C21. `header_authorization::init` returns `http_api_key_not_provided` exactly when
the configuration has no HTTP API key, and then leaves the stored key and the stored
name of the header as they were. Otherwise it returns `success` and stores the
configured key together with the configured name of the header, the default name when
the configuration has none; `get_http_headers` then makes the one call of `add` with
that name and that key and returns `success`. -/
theorem header_authorization_init_stores_key {H : Type} (s : header_authorization)
    (config : configuration) (add : H → String → String → H) (headers : H) :
    ((s.init config).1 = error_code.http_api_key_not_provided ↔
      config._map.lookup name.HTTP_API_KEY = none) ∧
    (config._map.lookup name.HTTP_API_KEY = none → (s.init config).2 = s) ∧
    (∀ api_key, config._map.lookup name.HTTP_API_KEY = some api_key →
      (s.init config).1 = error_code.success ∧
      (s.init config).2._api_key = api_key ∧
      (s.init config).2._http_api_header_key_name =
        (config._map.lookup name.HTTP_API_HEADER_KEY_NAME).getD
          value.HTTP_API_DEFAULT_HEADER_KEY_NAME ∧
      (s.init config).2.get_http_headers add headers =
        (error_code.success,
          add headers
            ((config._map.lookup name.HTTP_API_HEADER_KEY_NAME).getD
              value.HTTP_API_DEFAULT_HEADER_KEY_NAME) api_key) ∧
      (s.init config).2.get_http_headers recorded_add [] =
        (error_code.success,
          [((config._map.lookup name.HTTP_API_HEADER_KEY_NAME).getD
              value.HTTP_API_DEFAULT_HEADER_KEY_NAME, api_key)])) := by
  have hget := configuration_get_none config name.HTTP_API_KEY
  have hname := configuration_get_some config name.HTTP_API_HEADER_KEY_NAME
    value.HTTP_API_DEFAULT_HEADER_KEY_NAME
  cases hkey : config._map.lookup name.HTTP_API_KEY with
  | none =>
    rw [hkey] at hget
    have hinit : s.init config = (error_code.http_api_key_not_provided, s) := by
      unfold header_authorization.init
      rw [hget]
    rw [hinit]
    refine ⟨⟨fun _ => rfl, fun _ => rfl⟩, fun _ => rfl, ?_⟩
    intro api_key h
    cases h
  | some k =>
    rw [hkey] at hget
    have hinit : s.init config =
        (error_code.success,
          { _api_key := k
            _http_api_header_key_name :=
              (config._map.lookup name.HTTP_API_HEADER_KEY_NAME).getD
                value.HTTP_API_DEFAULT_HEADER_KEY_NAME }) := by
      unfold header_authorization.init
      rw [hget]
      simp only [hname]
      rfl
    rw [hinit]
    refine ⟨⟨fun h => ?_, fun h => ?_⟩, fun h => ?_, ?_⟩
    · cases h
    · cases h
    · cases h
    · intro api_key h
      cases h
      exact ⟨rfl, rfl, rfl, rfl, rfl⟩

/-- Witness of C21: a configuration with a key and no name for the header gives the
default header with the key; one with the name "X-Api-Key" gives that header; one without a key
gives the error and leaves the object as it was. -/
theorem header_authorization_init_stores_key_witness :
    (api_key_config._map.lookup name.HTTP_API_KEY = some "secret" ∧
      ((header_authorization.mk "" "").init api_key_config).2.get_http_headers
        recorded_add [] =
        (error_code.success, [("Ocp-Apim-Subscription-Key", "secret")])) ∧
    (api_key_header_config._map.lookup name.HTTP_API_KEY = some "secret" ∧
      ((header_authorization.mk "" "").init api_key_header_config).2.get_http_headers
        recorded_add [] = (error_code.success, [("X-Api-Key", "secret")])) ∧
    (no_api_key_config._map.lookup name.HTTP_API_KEY = none ∧
      ((header_authorization.mk "old" "Old-Name").init no_api_key_config).1 =
        error_code.http_api_key_not_provided ∧
      ((header_authorization.mk "old" "Old-Name").init no_api_key_config).2 =
        header_authorization.mk "old" "Old-Name") :=
  ⟨⟨by decide,
      ((header_authorization_init_stores_key (header_authorization.mk "" "")
        api_key_config recorded_add []).2.2 "secret" (by decide)).2.2.2.2⟩,
    ⟨by decide,
      ((header_authorization_init_stores_key (header_authorization.mk "" "")
        api_key_header_config recorded_add []).2.2 "secret" (by decide)).2.2.2.2⟩,
    by decide,
    (header_authorization_init_stores_key (header_authorization.mk "old" "Old-Name")
      no_api_key_config recorded_add []).1.mpr (by decide),
    (header_authorization_init_stores_key (header_authorization.mk "old" "Old-Name")
      no_api_key_config recorded_add []).2.1 (by decide)⟩

end reinforcement_learning
